import Mathlib

/-!
# libregex: a shallow embedding of `regex.c` / `regex.h`

The compiler (`regex_compile` and its helpers) and the matcher
(`regex_match_node`, `regex_match_length`, `regex_match`) are transcribed
from the C source.

Modelling conventions.

* A C `char` and an `intptr_t` are both `Int`; the comparisons of the source
  (`==`, `>`, `>=`, `<=`) are the comparisons of `Int`.
* The pattern handed to `regex_compile` is the list of the characters of the
  C string; the byte read at or after the end of the list is the
  terminating NUL (`0`).
* The text handed to the matcher is the list of the bytes of the character
  array `text` points to; a cursor is an offset from `text` (so `bol` is `0`
  and `eol` is `textLength`).  A read outside the array is undefined
  behaviour in C and is the outcome `Outcome.error MatchFault.out_of_bounds`.
* Recursion and loops take a fuel argument; running out of fuel is the
  outcome `Outcome.timeout`, which is distinct from every result of the C
  program.
* `regex_error` (print the message, `longjmp`) is the outcome
  `Outcome.error` carrying the message.  `realloc` never fails, so the
  message "out of memory" is never produced.
* The three statements `NODE(builder,index)->field = regex_compile_list(builder)`
  (regex.c, lines 270, 356 and 380) take the address of the node before or
  after the call.  When the call reallocates the node array (every tenth
  node) and the address was taken before, the store is lost.  The compiler
  takes an environment `StoreEnv` that says which of these stores land;
  `CompilesTo` and `CompileFails` speak of every environment, `CompilesIn`
  and `CompileFailsIn` of one.
-/

namespace Libregex

/-! ## Data model -/

/-- The enumeration `RegexNodeType` (regex.c, lines 21-33). -/
inductive RegexNodeType where
  | REGEX_NODE_BEGIN
  | REGEX_NODE_END
  | REGEX_NODE_CHAR
  | REGEX_NODE_EXPR
  | REGEX_NODE_EXPR_NOCAPTURE
  | REGEX_NODE_CLASS
  | REGEX_NODE_CLASS_INVERSE
  | REGEX_NODE_ANY
  | REGEX_NODE_GREEDY
  | REGEX_NODE_RANGE
  | REGEX_NODE_OR
  deriving DecidableEq, Repr

open RegexNodeType

/-- The record `struct RegexNode` (regex.c, lines 37-42). -/
structure RegexNode where
  type : RegexNodeType
  next : Int
  left : Int
  right : Int
  deriving DecidableEq, Repr

/-- The record `struct RegexBuilder` (regex.c, lines 46-54).  `nodes` holds the
`nodesUsed` nodes in use; `p` is the offset of the cursor from `regex`. -/
structure RegexBuilder where
  nodes : List RegexNode
  matchCount : Nat
  regex : List Int
  p : Nat
  deriving DecidableEq, Repr

/-- The record `struct Regex` (regex.c, lines 58-62); the byte size `length` is
a function of the number of nodes and is not kept. -/
structure Regex where
  matchCount : Nat
  nodes : List RegexNode
  deriving DecidableEq, Repr

/-- The messages passed to `regex_error`. -/
inductive RegexError where
  | out_of_memory
  | end_of_regex
  | empty_class
  | invalid_range
  | open_class
  | invalid_group
  | open_expr
  deriving DecidableEq, Repr

/-- The text printed by `regex_error` for each error. -/
def RegexError.message : RegexError → String
  | .out_of_memory => "out of memory"
  | .end_of_regex => "end of regex"
  | .empty_class => "empty class"
  | .invalid_range => "invalid range"
  | .open_class => "open class"
  | .invalid_group => "invalid group"
  | .open_expr => "open expr"

/-- Undefined behaviour of the matcher. -/
inductive MatchFault where
  | out_of_bounds
  | bad_node
  deriving DecidableEq, Repr

/-- What a run produces: a value, an error, or no answer within the fuel. -/
inductive Outcome (ε α : Type) where
  | ok (a : α)
  | error (e : ε)
  | timeout
  deriving DecidableEq, Repr

/-- Sequencing of two runs. -/
def Outcome.bind {ε α β : Type} (r : Outcome ε α) (f : α → Outcome ε β) : Outcome ε β :=
  match r with
  | .ok a => f a
  | .error e => .error e
  | .timeout => .timeout

/-- A compiler step: a value and the builder after the step. -/
abbrev Step (α : Type) := Outcome RegexError (α × RegexBuilder)

/-- Sequencing of two compiler steps. -/
def Outcome.andThen {α β : Type} (r : Step α) (f : α → RegexBuilder → Step β) : Step β :=
  match r with
  | .ok (a, b) => f a b
  | .error e => .error e
  | .timeout => .timeout

/-! ## Symbols (regex.c, lines 12-19) and the other characters the source names -/

abbrev SYMBOL_BEGIN : Int := 94     -- '^'
abbrev SYMBOL_END : Int := 36       -- '$'
abbrev SYMBOL_BRANCH : Int := 124   -- '|'
abbrev SYMBOL_ANY : Int := 46       -- '.'
abbrev SYMBOL_ESCAPE : Int := 92    -- '\\'
abbrev SYMBOL_ZEROMORE : Int := 42  -- '*'
abbrev SYMBOL_ONEMORE : Int := 43   -- '+'
abbrev SYMBOL_ZEROONE : Int := 63   -- '?'
abbrev CH_LBRACKET : Int := 91      -- '['
abbrev CH_RBRACKET : Int := 93      -- ']'
abbrev CH_LPAREN : Int := 40        -- '('
abbrev CH_RPAREN : Int := 41        -- ')'
abbrev CH_MINUS : Int := 45         -- '-'
abbrev CH_COLON : Int := 58         -- ':'

/-! ## Compiler -/

/-- The macro `NODE(builder,index)` (regex.c, line 65): the node at `index`, or
nothing (`NULL`, or a pointer outside the array) when there is none. -/
def NODE (nodes : List RegexNode) (index : Int) : Option RegexNode :=
  if 0 ≤ index then nodes.get? index.toNat else none

/-- The statement `NODE(builder,index)->field = ...`: the node at `index` is
replaced by `f` of it.  The source only writes through indices of allocated
nodes; a write through another index leaves the builder as it is. -/
def RegexBuilder.update (builder : RegexBuilder) (index : Int) (f : RegexNode → RegexNode) :
    RegexBuilder :=
  match NODE builder.nodes index with
  | some node => { builder with nodes := builder.nodes.set index.toNat (f node) }
  | none => builder

/-- regex.c, lines 92-113. -/
def regex_alloc_node (builder : RegexBuilder) (type : RegexNodeType) : Step Int :=
  .ok ((builder.nodes.length : Int),
    { builder with nodes := builder.nodes ++ [{ type := type, next := -1, left := -1, right := -1 }] })

/-- regex.c, lines 115-120. -/
def regex_char_test (builder : RegexBuilder) : Int :=
  builder.regex.getD builder.p 0

/-- regex.c, lines 122-132. -/
def regex_char_fetch (builder : RegexBuilder) : Step Int :=
  if regex_char_test builder = 0 then .error .end_of_regex
  else .ok (regex_char_test builder, { builder with p := builder.p + 1 })

/-- regex.c, lines 134-145. -/
def regex_char_test_and_fetch (builder : RegexBuilder) (c : Int) : Step Bool :=
  if regex_char_test builder = c then
    (regex_char_fetch builder).andThen fun _ builder => .ok (true, builder)
  else .ok (false, builder)

/-- regex.c, lines 147-154. -/
def regex_node_value (builder : RegexBuilder) (type : RegexNodeType) (value : Int) : Step Int :=
  (regex_alloc_node builder type).andThen fun node builder =>
  .ok (node, builder.update node fun n => { n with left := value })

/-- regex.c, lines 156-180. -/
def regex_compile_char (builder : RegexBuilder) : Step Int :=
  (regex_char_test_and_fetch builder SYMBOL_ESCAPE).andThen fun escaped builder =>
  if escaped then
    (regex_char_fetch builder).andThen fun value builder =>
    if value = 110 then regex_node_value builder REGEX_NODE_CHAR 10       -- 'n' -> '\n'
    else if value = 116 then regex_node_value builder REGEX_NODE_CHAR 9   -- 't' -> '\t'
    else if value = 114 then regex_node_value builder REGEX_NODE_CHAR 13  -- 'r' -> '\r'
    else if value = 118 then regex_node_value builder REGEX_NODE_CHAR 11  -- 'v' -> '\v'
    else regex_node_value builder REGEX_NODE_CHAR value
  else
    (regex_char_fetch builder).andThen fun value builder =>
    regex_node_value builder REGEX_NODE_CHAR value

/-- Which pending stores land.  In `NODE(builder,index)->field = call(builder)`
(regex.c, lines 270, 356 and 380) the address `builder->nodes + index` is
computed before or after the call, as the C compiler chose.  When it is
computed before and the call reallocated the node array, the store goes to the
array that was freed and the node keeps its old field.  An environment tells,
for the index of the node, whether the store lands in that case. -/
abbrev StoreEnv := Nat → Bool

/-- The field `nodesAllocated` as a function of `nodesUsed`: it starts at 0 and
`regex_alloc_node` adds 10 whenever `nodesUsed >= nodesAllocated` (regex.c,
lines 96-99), so it is the least multiple of 10 that is not below `nodesUsed`;
the node array is reallocated exactly when this number changes. -/
def nodesAllocated (nodesUsed : Nat) : Nat := (nodesUsed + 9) / 10 * 10

/-- The statement `NODE(builder,index)->field = call(builder)`, after the call
returned `builder`: `usedBefore` nodes were in use when the call started.  The
store lands when the call did not reallocate the node array, or when the
environment says so; otherwise it is lost. -/
def RegexBuilder.store (env : StoreEnv) (usedBefore : Nat) (builder : RegexBuilder) (index : Int)
    (f : RegexNode → RegexNode) : RegexBuilder :=
  if nodesAllocated usedBefore = nodesAllocated builder.nodes.length ∨ env index.toNat = true then
    builder.update index f
  else builder

/-- The statement `if (chain != -1) NODE(builder,node)->next = chain;`. -/
def link_chain (builder : RegexBuilder) (node chain : Int) : RegexBuilder :=
  if chain ≠ -1 then builder.update node fun n => { n with next := chain } else builder

/-- The `while` loop of the class case of `regex_compile_element`
(regex.c, lines 210-248); the loop variables are `chain` and `currentChar`,
the value is the final `chain`. -/
def regex_compile_class_body : Nat → Int → Int → RegexBuilder → Step Int
  | 0, _, _, _ => .timeout
  | fuel + 1, chain, currentChar, builder =>
    if regex_char_test builder ≠ CH_RBRACKET then
      (if currentChar ≠ 0 then regex_char_test_and_fetch builder CH_MINUS
        else .ok (false, builder)).andThen fun dash builder =>
      if dash then
        (regex_char_fetch builder).andThen fun endOfRange builder =>
        if endOfRange = CH_RBRACKET then
          let builder := { builder with p := builder.p - 1 }
          (regex_node_value builder REGEX_NODE_CHAR CH_MINUS).andThen fun node builder =>
          .ok (node, link_chain builder node chain)
        else if currentChar > endOfRange then .error .invalid_range
        else
          let node := chain
          let chain := ((NODE builder.nodes chain).map RegexNode.next).getD (-1)
          let builder := builder.update node fun n => { n with type := REGEX_NODE_RANGE }
          let builder := builder.update node fun n => { n with right := endOfRange }
          regex_compile_class_body fuel node 0 (link_chain builder node chain)
      else
        (regex_char_fetch builder).andThen fun currentChar builder =>
        (regex_node_value builder REGEX_NODE_CHAR currentChar).andThen fun node builder =>
        regex_compile_class_body fuel node currentChar (link_chain builder node chain)
    else .ok (chain, builder)

/-- The class case of `regex_compile_element` (regex.c, lines 200-254). -/
def regex_compile_class (fuel : Nat) (builder : RegexBuilder) : Step Int :=
  (regex_char_fetch builder).andThen fun _ builder =>
  (regex_char_test_and_fetch builder SYMBOL_BEGIN).andThen fun inverse builder =>
  (regex_alloc_node builder
    (if inverse then REGEX_NODE_CLASS_INVERSE else REGEX_NODE_CLASS)).andThen fun ret builder =>
  if regex_char_test builder = CH_RBRACKET then .error .empty_class
  else
    (regex_compile_class_body fuel (-1) 0 builder).andThen fun chain builder =>
    let builder := builder.update ret fun n => { n with left := chain }
    (regex_char_fetch builder).andThen fun close builder =>
    if close ≠ CH_RBRACKET then .error .open_class else .ok (ret, builder)

/-- The quantifier part of `regex_compile_element` (regex.c, lines 281-317);
`(min << 16) | max` is computed on natural numbers. -/
def regex_compile_quantifier (ret : Int) (builder : RegexBuilder) : Step Int :=
  let wrap (min max : Nat) (builder : RegexBuilder) : Step Int :=
    (regex_node_value builder REGEX_NODE_GREEDY ret).andThen fun ret builder =>
    .ok (ret, builder.update ret fun n => { n with right := (((min <<< 16) ||| max : Nat) : Int) })
  if regex_char_test builder = SYMBOL_ZEROMORE then
    (regex_char_fetch builder).andThen fun _ builder => wrap 0 0xffff builder
  else if regex_char_test builder = SYMBOL_ONEMORE then
    (regex_char_fetch builder).andThen fun _ builder => wrap 1 0xffff builder
  else if regex_char_test builder = SYMBOL_ZEROONE then
    (regex_char_fetch builder).andThen fun _ builder => wrap 0 1 builder
  else .ok (ret, builder)

mutual

/-- regex.c, lines 182-332. -/
def regex_compile_element (env : StoreEnv) : Nat → RegexBuilder → Step Int
  | 0, _ => .timeout
  | fuel + 1, builder =>
    (if regex_char_test builder = SYMBOL_END then
        (regex_char_fetch builder).andThen fun _ builder =>
        regex_alloc_node builder REGEX_NODE_END
      else if regex_char_test builder = SYMBOL_ANY then
        (regex_char_fetch builder).andThen fun _ builder =>
        regex_alloc_node builder REGEX_NODE_ANY
      else if regex_char_test builder = CH_LBRACKET then
        regex_compile_class fuel builder
      else if regex_char_test builder = CH_LPAREN then
        (regex_char_fetch builder).andThen fun _ builder =>
        (regex_char_test_and_fetch builder SYMBOL_ZEROONE).andThen fun question builder =>
        (if question then
            (regex_char_fetch builder).andThen fun colon builder =>
            if colon ≠ CH_COLON then .error .invalid_group
            else regex_alloc_node builder REGEX_NODE_EXPR_NOCAPTURE
          else
            regex_alloc_node { builder with matchCount := builder.matchCount + 1 }
              REGEX_NODE_EXPR).andThen fun ret before =>
        (regex_compile_list env fuel before).andThen fun list builder =>
        let builder := builder.store env before.nodes.length ret fun n => { n with left := list }
        (regex_char_fetch builder).andThen fun close builder =>
        if close ≠ CH_RPAREN then .error .open_expr else .ok (ret, builder)
      else regex_compile_char builder).andThen fun ret builder =>
    (regex_compile_quantifier ret builder).andThen fun ret builder =>
    let nextChar := regex_char_test builder
    if nextChar ≠ SYMBOL_BRANCH ∧ nextChar ≠ SYMBOL_ZEROMORE ∧ nextChar ≠ SYMBOL_ONEMORE ∧
        nextChar ≠ SYMBOL_ZEROONE ∧ nextChar ≠ CH_RPAREN ∧ nextChar ≠ 0 then
      (regex_compile_element env fuel builder).andThen fun next builder =>
      .ok (ret, builder.update ret fun n => { n with next := next })
    else .ok (ret, builder)

/-- regex.c, lines 334-360. -/
def regex_compile_list (env : StoreEnv) : Nat → RegexBuilder → Step Int
  | 0, _ => .timeout
  | fuel + 1, builder =>
    if regex_char_test builder = 0 then .ok (-1, builder)
    else
      (regex_char_test_and_fetch builder SYMBOL_BEGIN).andThen fun begin builder =>
      (if begin then regex_alloc_node builder REGEX_NODE_BEGIN
        else .ok (-1, builder)).andThen fun ret builder =>
      (regex_compile_element env fuel builder).andThen fun element builder =>
      let (ret, builder) :=
        if ret ≠ -1 then (ret, builder.update ret fun n => { n with next := element })
        else (element, builder)
      (regex_char_test_and_fetch builder SYMBOL_BRANCH).andThen fun branch builder =>
      if branch then
        (regex_node_value builder REGEX_NODE_OR ret).andThen fun ret before =>
        (regex_compile_list env fuel before).andThen fun right builder =>
        .ok (ret, builder.store env before.nodes.length ret fun n => { n with right := right })
      else .ok (ret, builder)

end

/-- regex.c, lines 362-393: the compiled program, or the error (the C function
returns `NULL` after the message was printed). -/
def regex_compile (env : StoreEnv) (fuel : Nat) (regexStr : List Int) : Outcome RegexError Regex :=
  let builder : RegexBuilder := { nodes := [], matchCount := 0, regex := regexStr, p := 0 }
  match
    ((regex_alloc_node builder REGEX_NODE_EXPR_NOCAPTURE).andThen fun entry before =>
      (regex_compile_list env fuel before).andThen fun list builder =>
      .ok ((), builder.store env before.nodes.length entry fun n => { n with left := list })) with
  | .ok (_, builder) => .ok { matchCount := builder.matchCount, nodes := builder.nodes }
  | .error e => .error e
  | .timeout => .timeout

/-! ## Matcher -/

/-- The read `*str` of the byte at offset `str` of the text. -/
def read (text : List Int) (str : Nat) : Outcome MatchFault Int :=
  match text.get? str with
  | some c => .ok c
  | none => .error .out_of_bounds

/-- The `do ... while` loop of the class case of `regex_match_node`
(regex.c, lines 469-485), entered with `entries`; the value is the final
`match`, or nothing when the loop leaves the function by `return NULL`. -/
def regex_match_class (regex : Regex) (text : List Int) (str : Nat) :
    Nat → Int → Outcome MatchFault (Option Bool)
  | 0, _ => .timeout
  | fuel + 1, entries =>
    match NODE regex.nodes entries with
    | none => .error .bad_node
    | some entry =>
      match entry.type with
      | REGEX_NODE_CHAR =>
        (read text str).bind fun c =>
        let found := decide (c = entry.left)
        if entry.next ≠ -1 ∧ ¬ found then regex_match_class regex text str fuel entry.next
        else .ok (some found)
      | REGEX_NODE_RANGE =>
        (read text str).bind fun c =>
        let found := decide (c ≥ entry.left ∧ c ≤ entry.right)
        if entry.next ≠ -1 ∧ ¬ found then regex_match_class regex text str fuel entry.next
        else .ok (some found)
      | _ => .ok none

/-- The `while` loop of the greedy case of `regex_match_node`
(regex.c, lines 426-455).  `sub` is the recursive call on `node->left`.  At
the head of the loop `remaining` and `handled` are equal, so one cursor
stands for both; the value is the final `(count, handled)`. -/
def regex_match_greedy (sub : Nat → Outcome MatchFault (Option Nat)) (max eol : Nat) :
    Nat → Nat → Nat → Outcome MatchFault (Nat × Nat)
  | 0, _, _ => .timeout
  | fuel + 1, count, handled =>
    if count < max then
      (sub handled).bind fun remaining =>
      match remaining with
      | none => .ok (count, handled)
      | some remaining =>
        if remaining ≥ eol then .ok (count + 1, remaining)
        else regex_match_greedy sub max eol fuel (count + 1) remaining
    else .ok (count, handled)

/-- The walk along a `next` chain: the two `while` loops of the alternation
case (regex.c, lines 495-502 and 505-512) and the `do ... while` loop of the
group case (lines 521-529) all match the node at the current index, give up
when it fails, and go on to its `next` unless that is `-1`.  `sub` is the
recursive call.  The value is the cursor after the chain, or nothing when a
node of the chain failed. -/
def regex_match_chain (regex : Regex) (sub : Int → Nat → Outcome MatchFault (Option Nat)) :
    Nat → Int → Nat → Outcome MatchFault (Option Nat)
  | 0, _, _ => .timeout
  | fuel + 1, temp, remaining =>
    (sub temp remaining).bind fun remaining =>
    match remaining with
    | none => .ok none
    | some remaining =>
      match NODE regex.nodes temp with
      | none => .error .bad_node
      | some tempNode =>
        if tempNode.next ≠ -1 then regex_match_chain regex sub fuel tempNode.next remaining
        else .ok (some remaining)

/-- regex.c, lines 395-537.  The value is the returned pointer as an offset from
`text`, or nothing for `NULL`. -/
def regex_match_node (regex : Regex) (text : List Int) (bol eol : Nat) :
    Nat → Int → Nat → Int → Outcome MatchFault (Option Nat)
  | 0, _, _, _ => .timeout
  | fuel + 1, nodeIndex, str, _ =>
    if nodeIndex = -1 then .ok none
    else
      match NODE regex.nodes nodeIndex with
      | none => .error .bad_node
      | some node =>
        match node.type with
        | REGEX_NODE_ANY => .ok (some (str + 1))
        | REGEX_NODE_CHAR =>
          (read text str).bind fun c =>
          if c ≠ node.left then .ok none else .ok (some (str + 1))
        | REGEX_NODE_BEGIN => .ok (if str = bol then some str else none)
        | REGEX_NODE_END => .ok (if str = eol then some str else none)
        | REGEX_NODE_GREEDY =>
          let min := (node.right / 65536 % 65536).toNat
          let max := (node.right % 65536).toNat
          (regex_match_greedy (fun s => regex_match_node regex text bol eol fuel node.left s (-1))
            max eol fuel 0 str).bind fun (count, handled) =>
          if count ≥ min ∧ max = 0xffff then .ok (some handled)
          else if count ≥ min ∧ count ≤ max then .ok (some handled)
          else .ok none
        | REGEX_NODE_CLASS | REGEX_NODE_CLASS_INVERSE =>
          (regex_match_class regex text str fuel node.left).bind fun found =>
          match found with
          | none => .ok none
          | some found =>
            if decide (node.type = REGEX_NODE_CLASS) = found then .ok (some (str + 1))
            else .ok none
        | REGEX_NODE_OR =>
          (regex_match_chain regex (fun i s => regex_match_node regex text bol eol fuel i s (-1))
            fuel node.left str).bind fun remaining =>
          match remaining with
          | some remaining => .ok (some remaining)
          | none =>
            regex_match_chain regex (fun i s => regex_match_node regex text bol eol fuel i s (-1))
              fuel node.right str
        | REGEX_NODE_EXPR | REGEX_NODE_EXPR_NOCAPTURE =>
          regex_match_chain regex (fun i s => regex_match_node regex text bol eol fuel i s (-1))
            fuel node.left str
        | REGEX_NODE_RANGE => .ok none

/-- The macro `regex_match_length` (regex.h, line 14). -/
def regex_match_length (fuel : Nat) (regex : Regex) (text : List Int) (textLength : Nat) :
    Outcome MatchFault Bool :=
  (regex_match_node regex text 0 textLength fuel 0 0 (-1)).bind fun res =>
  .ok (decide (res = some textLength))

/-- The C library function `strlen`: the offset of the first NUL of the array. -/
def strlen : List Int → Outcome MatchFault Nat
  | [] => .error .out_of_bounds
  | c :: cs => if c = 0 then .ok 0 else (strlen cs).bind fun n => .ok (n + 1)

/-- The macro `regex_match` (regex.h, line 15). -/
def regex_match (fuel : Nat) (regex : Regex) (text : List Int) : Outcome MatchFault Bool :=
  (strlen text).bind fun textLength => regex_match_length fuel regex text textLength

/-! ## Vocabulary of the statements -/

/-- An ordinary character: not NUL and none of `^ $ . | ( ) [ ] * + ? \`
(codes 94, 36, 46, 124, 40, 41, 91, 93, 42, 43, 63, 92). -/
def Ordinary (c : Int) : Prop :=
  c ≠ 0 ∧ c ≠ 94 ∧ c ≠ 36 ∧ c ≠ 46 ∧ c ≠ 124 ∧ c ≠ 40 ∧ c ≠ 41 ∧ c ≠ 91 ∧ c ≠ 93 ∧
    c ≠ 42 ∧ c ≠ 43 ∧ c ≠ 63 ∧ c ≠ 92

instance : DecidablePred Ordinary := fun c => by unfold Ordinary; infer_instance

/-- The array of a NUL-terminated text: its characters, none of them NUL,
followed by the terminator. -/
def cstring (t : List Int) : List Int := t ++ [0]

/-- With enough fuel `regex_compile` returns the program `regex` in the
environment `env`. -/
def CompilesIn (env : StoreEnv) (regexStr : List Int) (regex : Regex) : Prop :=
  ∃ n, ∀ fuel, n ≤ fuel → regex_compile env fuel regexStr = .ok regex

/-- With enough fuel `regex_compile` returns the program `regex`, whichever
pending stores land. -/
def CompilesTo (regexStr : List Int) (regex : Regex) : Prop :=
  ∀ env, CompilesIn env regexStr regex

/-- With enough fuel `regex_compile` fails with the error `e` in the
environment `env`. -/
def CompileFailsIn (env : StoreEnv) (regexStr : List Int) (e : RegexError) : Prop :=
  ∃ n, ∀ fuel, n ≤ fuel → regex_compile env fuel regexStr = .error e

/-- With enough fuel `regex_compile` fails with the error `e`, whichever
pending stores land. -/
def CompileFails (regexStr : List Int) (e : RegexError) : Prop :=
  ∀ env, CompileFailsIn env regexStr e

/-- With enough fuel `regex_match` returns `b`. -/
def MatchIs (regex : Regex) (text : List Int) (b : Bool) : Prop :=
  ∃ n, ∀ fuel, n ≤ fuel → regex_match fuel regex text = .ok b

/-- With enough fuel `regex_match_length` returns `b`. -/
def MatchLengthIs (regex : Regex) (text : List Int) (textLength : Nat) (b : Bool) : Prop :=
  ∃ n, ∀ fuel, n ≤ fuel → regex_match_length fuel regex text textLength = .ok b

/-- The nodes compiled for a run of ordinary characters whose first node has
index `base`: one `REGEX_NODE_CHAR` per character, each linked to the next. -/
def literal_chain (base : Nat) : List Int → List RegexNode
  | [] => []
  | [c] => [{ type := REGEX_NODE_CHAR, next := -1, left := c, right := -1 }]
  | c :: d :: rest =>
    { type := REGEX_NODE_CHAR, next := (base : Int) + 1, left := c, right := -1 } ::
      literal_chain (base + 1) (d :: rest)

/-- The program compiled for a non-empty run of ordinary characters. -/
def literal_program (p : List Int) : Regex :=
  { matchCount := 0,
    nodes := { type := REGEX_NODE_EXPR_NOCAPTURE, next := -1, left := 1, right := -1 } ::
      literal_chain 1 p }

/-- The program compiled for one ordinary character followed by a quantifier;
`bounds` is the packed `(min << 16) | max`. -/
def quantified_char_program (c : Int) (bounds : Int) : Regex :=
  { matchCount := 0,
    nodes := [{ type := REGEX_NODE_EXPR_NOCAPTURE, next := -1, left := 2, right := -1 },
      { type := REGEX_NODE_CHAR, next := -1, left := c, right := -1 },
      { type := REGEX_NODE_GREEDY, next := -1, left := 1, right := bounds }] }

/-- The program compiled for two non-empty runs of ordinary characters
separated by `|`. -/
def alternation_program (p q : List Int) : Regex :=
  { matchCount := 0,
    nodes := { type := REGEX_NODE_EXPR_NOCAPTURE, next := -1, left := (p.length : Int) + 1,
               right := -1 } ::
      (literal_chain 1 p ++
        { type := REGEX_NODE_OR, next := -1, left := 1, right := (p.length : Int) + 2 } ::
          literal_chain (p.length + 2) q) }

/-- The program compiled for "ab?". -/
def char_optional_program : Regex :=
  { matchCount := 0,
    nodes := [{ type := REGEX_NODE_EXPR_NOCAPTURE, next := -1, left := 1, right := -1 },
      { type := REGEX_NODE_CHAR, next := 3, left := 97, right := -1 },
      { type := REGEX_NODE_CHAR, next := -1, left := 98, right := -1 },
      { type := REGEX_NODE_GREEDY, next := -1, left := 2, right := 1 }] }

/-- The program compiled for `c*c`, `c` an ordinary character. -/
def star_char_program (c : Int) : Regex :=
  { matchCount := 0,
    nodes := [{ type := REGEX_NODE_EXPR_NOCAPTURE, next := -1, left := 2, right := -1 },
      { type := REGEX_NODE_CHAR, next := -1, left := c, right := -1 },
      { type := REGEX_NODE_GREEDY, next := 3, left := 1, right := 65535 },
      { type := REGEX_NODE_CHAR, next := -1, left := c, right := -1 }] }

/-- The order of answers under growing fuel: `Outcome.le r s` holds when `r` is
`timeout` or `r` is `s`, so more fuel can only turn a timeout into an answer. -/
def Outcome.le {ε α : Type} (r r' : Outcome ε α) : Prop := r = .timeout ∨ r = r'

/-- The program compiled for a class of one range followed by `+`: "[a-z]+"
is `range_plus_program REGEX_NODE_CLASS 97 122`, "[^0-9]+" is
`range_plus_program REGEX_NODE_CLASS_INVERSE 48 57`. -/
def range_plus_program (kind : RegexNodeType) (lo hi : Int) : Regex :=
  { matchCount := 0,
    nodes := [{ type := REGEX_NODE_EXPR_NOCAPTURE, next := -1, left := 3, right := -1 },
      { type := kind, next := -1, left := 2, right := -1 },
      { type := REGEX_NODE_RANGE, next := -1, left := lo, right := hi },
      { type := REGEX_NODE_GREEDY, next := -1, left := 1, right := 131071 }] }

/-- The program compiled for "[a-]". -/
def trailing_dash_program : Regex :=
  { matchCount := 0,
    nodes := [{ type := REGEX_NODE_EXPR_NOCAPTURE, next := -1, left := 1, right := -1 },
      { type := REGEX_NODE_CLASS, next := -1, left := 3, right := -1 },
      { type := REGEX_NODE_CHAR, next := -1, left := 97, right := -1 },
      { type := REGEX_NODE_CHAR, next := 2, left := 45, right := -1 }] }

/-- The program compiled for "[a-z-9]". -/
def range_dash_digit_program : Regex :=
  { matchCount := 0,
    nodes := [{ type := REGEX_NODE_EXPR_NOCAPTURE, next := -1, left := 1, right := -1 },
      { type := REGEX_NODE_CLASS, next := -1, left := 4, right := -1 },
      { type := REGEX_NODE_RANGE, next := -1, left := 97, right := 122 },
      { type := REGEX_NODE_CHAR, next := 2, left := 45, right := -1 },
      { type := REGEX_NODE_CHAR, next := 3, left := 57, right := -1 }] }

/-- The program compiled for `^c$`, `c` an ordinary character. -/
def anchored_char_program (c : Int) : Regex :=
  { matchCount := 0,
    nodes := [{ type := REGEX_NODE_EXPR_NOCAPTURE, next := -1, left := 1, right := -1 },
      { type := REGEX_NODE_BEGIN, next := 2, left := -1, right := -1 },
      { type := REGEX_NODE_CHAR, next := 3, left := c, right := -1 },
      { type := REGEX_NODE_END, next := -1, left := -1, right := -1 }] }

/-- The character denoted by the escape of `x`: `e('n')` is newline, `e('t')` is
tab, `e('r')` is carriage return, `e('v')` is vertical tab, `e(x)` is `x`
otherwise. -/
def escape_value (x : Int) : Int :=
  if x = 110 then 10 else if x = 116 then 9 else if x = 114 then 13
  else if x = 118 then 11 else x

/-- The program compiled for the empty pattern. -/
def empty_program : Regex :=
  { matchCount := 0,
    nodes := [{ type := REGEX_NODE_EXPR_NOCAPTURE, next := -1, left := -1, right := -1 }] }

/-- The program compiled for ".*". -/
def any_star_program : Regex :=
  { matchCount := 0,
    nodes := [{ type := REGEX_NODE_EXPR_NOCAPTURE, next := -1, left := 2, right := -1 },
      { type := REGEX_NODE_ANY, next := -1, left := -1, right := -1 },
      { type := REGEX_NODE_GREEDY, next := -1, left := 1, right := 65535 }] }

/-- A postcondition of a compiler step: `Q` holds of the value and builder of an
answer, `E` of an error; nothing is said of a timeout. -/
def Outcome.sat {α : Type} (r : Step α) (Q : α → RegexBuilder → Prop)
    (E : RegexError → Prop) : Prop :=
  match r with
  | .ok (a, b) => Q a b
  | .error e => E e
  | .timeout => True

/-- The number of capturing-group nodes of a node array. -/
def countExpr (nodes : List RegexNode) : Nat :=
  nodes.countP fun n => decide (n.type = REGEX_NODE_EXPR)

/-- What a region of the node array lays out: one node with what hangs below
it, a `next` chain of such nodes, or the chain of entries of a class. -/
inductive Shape where
  | node
  | chain
  | entries
  deriving DecidableEq, Repr

/-- The layout of the nodes of a compiled program: `Layout N lo hi s i` says
that the nodes of `N` with indices in `[lo, hi)` are exactly the nodes of the
shape `s` headed by the node `i`.  Every reference from a node goes to the head
of a strictly smaller region, so the references contain no cycle.  In
`group_lost` and `or_lost` the store of `left` or `right` was lost: the field is
`-1` and the chain it should head is laid out all the same. -/
inductive Layout (N : List RegexNode) : Nat → Nat → Shape → Nat → Prop where
  | leaf (i : Nat) (n : RegexNode) :
      N[i]? = some n →
      (n.type = REGEX_NODE_BEGIN ∨ n.type = REGEX_NODE_END ∨ n.type = REGEX_NODE_CHAR ∨
        n.type = REGEX_NODE_ANY) →
      Layout N i (i + 1) Shape.node i
  | greedy (lo g a : Nat) (n m : RegexNode) :
      N[g]? = some n → n.type = REGEX_NODE_GREEDY → n.left = (a : Int) →
      Layout N lo g Shape.node a → N[a]? = some m → m.next = -1 →
      Layout N lo (g + 1) Shape.node g
  | cls (c hi e : Nat) (n : RegexNode) :
      N[c]? = some n →
      (n.type = REGEX_NODE_CLASS ∨ n.type = REGEX_NODE_CLASS_INVERSE) → n.left = (e : Int) →
      Layout N (c + 1) hi Shape.entries e →
      Layout N c hi Shape.node c
  | group_empty (x : Nat) (n : RegexNode) :
      N[x]? = some n →
      (n.type = REGEX_NODE_EXPR ∨ n.type = REGEX_NODE_EXPR_NOCAPTURE) → n.left = -1 →
      Layout N x (x + 1) Shape.node x
  | group (x hi l : Nat) (n : RegexNode) :
      N[x]? = some n →
      (n.type = REGEX_NODE_EXPR ∨ n.type = REGEX_NODE_EXPR_NOCAPTURE) → n.left = (l : Int) →
      Layout N (x + 1) hi Shape.chain l →
      Layout N x hi Shape.node x
  | or_left (lo o l : Nat) (n : RegexNode) :
      N[o]? = some n → n.type = REGEX_NODE_OR → n.left = (l : Int) → n.right = -1 →
      Layout N lo o Shape.chain l →
      Layout N lo (o + 1) Shape.node o
  | or_both (lo hi o l r : Nat) (n : RegexNode) :
      N[o]? = some n → n.type = REGEX_NODE_OR → n.left = (l : Int) → n.right = (r : Int) →
      Layout N lo o Shape.chain l → Layout N (o + 1) hi Shape.chain r →
      Layout N lo hi Shape.node o
  | group_lost (x hi l : Nat) (n : RegexNode) :
      N[x]? = some n →
      (n.type = REGEX_NODE_EXPR ∨ n.type = REGEX_NODE_EXPR_NOCAPTURE) → n.left = -1 →
      Layout N (x + 1) hi Shape.chain l →
      Layout N x hi Shape.node x
  | or_lost (lo hi o l r : Nat) (n : RegexNode) :
      N[o]? = some n → n.type = REGEX_NODE_OR → n.left = (l : Int) → n.right = -1 →
      Layout N lo o Shape.chain l → Layout N (o + 1) hi Shape.chain r →
      Layout N lo hi Shape.node o
  | chain_last (lo hi i : Nat) (n : RegexNode) :
      Layout N lo hi Shape.node i → N[i]? = some n → n.next = -1 →
      Layout N lo hi Shape.chain i
  | chain_cons (lo mid hi i j : Nat) (n : RegexNode) :
      Layout N lo mid Shape.node i → N[i]? = some n → n.next = (j : Int) →
      Layout N mid hi Shape.chain j →
      Layout N lo hi Shape.chain i
  | entry_last (i : Nat) (n : RegexNode) :
      N[i]? = some n →
      (n.type = REGEX_NODE_CHAR ∨ (n.type = REGEX_NODE_RANGE ∧ n.left ≤ n.right)) →
      n.next = -1 →
      Layout N i (i + 1) Shape.entries i
  | entry_cons (lo i j : Nat) (n : RegexNode) :
      N[i]? = some n →
      (n.type = REGEX_NODE_CHAR ∨ (n.type = REGEX_NODE_RANGE ∧ n.left ≤ n.right)) →
      n.next = (j : Int) → Layout N lo i Shape.entries j →
      Layout N lo (i + 1) Shape.entries i

/-- The matcher answers without running out of fuel on the shape headed by
`i`, with a fuel bound that does not depend on the text or the cursor: for a
node `regex_match_node`, for a chain the walk `regex_match_chain`, for the
entries of a class the scan `regex_match_class`. -/
def Terminates (regex : Regex) : Shape → Nat → Prop
  | Shape.node, i => ∃ n, ∀ f, n ≤ f → ∀ (text : List Int) (bol eol str : Nat) (nx : Int),
      regex_match_node regex text bol eol f i str nx ≠ .timeout
  | Shape.chain, i => ∃ n, ∀ f, n ≤ f → ∀ g, n ≤ g → ∀ (text : List Int) (bol eol str : Nat),
      regex_match_chain regex (fun j s => regex_match_node regex text bol eol g j s (-1)) f i str
        ≠ .timeout
  | Shape.entries, i => ∃ n, ∀ f, n ≤ f → ∀ (text : List Int) (str : Nat),
      regex_match_class regex text str f i ≠ .timeout

/-- The builder `b'` continues `b` above the index `lo`: no node was removed,
the nodes below `lo` are as they were, and the capture counter grew by the
number of capturing-group nodes that were added. -/
structure Grows (lo : Nat) (b b' : RegexBuilder) : Prop where
  len : b.nodes.length ≤ b'.nodes.length
  frame : ∀ j, j < lo → b'.nodes[j]? = b.nodes[j]?
  count : b'.matchCount + countExpr b.nodes = b.matchCount + countExpr b'.nodes

/-- The invariant of the loop of the class case: nothing was allocated yet and
`chain` is `-1`, or `chain` heads the entries allocated so far, and a pending
`currentChar` is the character of the head entry. -/
def ClassInv (lo : Nat) (chain currentChar : Int) (N : List RegexNode) : Prop :=
  (chain = -1 ∧ N.length = lo ∧ currentChar = 0) ∨
  ∃ e : Nat, chain = (e : Int) ∧ Layout N lo N.length Shape.entries e ∧
    (currentChar ≠ 0 → ∃ n, N[e]? = some n ∧ n.type = REGEX_NODE_CHAR ∧ n.left = currentChar)

/-- The builders `b` and `b'` hold the same nodes and the same capture
counter; they may differ in the cursor. -/
def Same (b b' : RegexBuilder) : Prop :=
  b'.nodes = b.nodes ∧ b'.matchCount = b.matchCount

/-- What the compilation of one atom, with or without its quantifier, leaves:
the nodes added to `b` are exactly one node `ret` with what hangs below it, and
`ret` has no successor yet. -/
def UnitPost (b : RegexBuilder) (ret : Int) (b' : RegexBuilder) : Prop :=
  Grows b.nodes.length b b' ∧ ∃ (i : Nat) (n : RegexNode), ret = (i : Int) ∧
    Layout b'.nodes b.nodes.length b'.nodes.length Shape.node i ∧
    b'.nodes[i]? = some n ∧ n.next = -1

/-- What `regex_compile_element` leaves: the nodes added to `b` are exactly a
chain headed by `ret`. -/
def ChainPost (b : RegexBuilder) (ret : Int) (b' : RegexBuilder) : Prop :=
  Grows b.nodes.length b b' ∧ ∃ i : Nat, ret = (i : Int) ∧
    Layout b'.nodes b.nodes.length b'.nodes.length Shape.chain i

/-- What `regex_compile_list` leaves: nothing was added and the value is `-1`,
or the nodes added to `b` are exactly a chain headed by `ret`. -/
def ListPost (b : RegexBuilder) (ret : Int) (b' : RegexBuilder) : Prop :=
  Grows b.nodes.length b b' ∧ ((ret = -1 ∧ b'.nodes = b.nodes) ∨ ∃ i : Nat, ret = (i : Int) ∧
    Layout b'.nodes b.nodes.length b'.nodes.length Shape.chain i)

/-- A reference stored in a node: `-1`, or the index of a node of the array. -/
def IsRef (N : List RegexNode) (x : Int) : Prop :=
  x = -1 ∨ (0 ≤ x ∧ x < (N.length : Int))

/-- The `next` chain starting at `e` is not empty, ends, and consists only of
`REGEX_NODE_CHAR` nodes and of `REGEX_NODE_RANGE` nodes with `left ≤ right`. -/
inductive ClassChain (N : List RegexNode) : Int → Prop where
  | last (e : Int) (n : RegexNode) :
      NODE N e = some n →
      (n.type = REGEX_NODE_CHAR ∨ (n.type = REGEX_NODE_RANGE ∧ n.left ≤ n.right)) →
      n.next = -1 → ClassChain N e
  | cons (e : Int) (n : RegexNode) :
      NODE N e = some n →
      (n.type = REGEX_NODE_CHAR ∨ (n.type = REGEX_NODE_RANGE ∧ n.left ≤ n.right)) →
      n.next ≠ -1 → ClassChain N n.next → ClassChain N e

/-- The references below a node `n` of the array `N` are in order. -/
structure NodeOk (N : List RegexNode) (n : RegexNode) : Prop where
  left : (n.type = REGEX_NODE_EXPR ∨ n.type = REGEX_NODE_EXPR_NOCAPTURE ∨
      n.type = REGEX_NODE_OR ∨ n.type = REGEX_NODE_GREEDY ∨ n.type = REGEX_NODE_CLASS ∨
      n.type = REGEX_NODE_CLASS_INVERSE) → IsRef N n.left
  right : n.type = REGEX_NODE_OR → IsRef N n.right
  left_ne : (n.type = REGEX_NODE_GREEDY ∨ n.type = REGEX_NODE_CLASS ∨
      n.type = REGEX_NODE_CLASS_INVERSE) → n.left ≠ -1
  entries : (n.type = REGEX_NODE_CLASS ∨ n.type = REGEX_NODE_CLASS_INVERSE) →
      ClassChain N n.left

/-- A well-formed program: node 0 is the root, a non-capturing group without
successor; every `next` is a reference; and the references below every node
are in order. -/
structure WellFormed (regex : Regex) : Prop where
  root : ∃ n, regex.nodes[0]? = some n ∧ n.type = REGEX_NODE_EXPR_NOCAPTURE ∧ n.next = -1
  next : ∀ (i : Nat) (n : RegexNode), regex.nodes[i]? = some n → IsRef regex.nodes n.next
  node : ∀ (i : Nat) (n : RegexNode), regex.nodes[i]? = some n → NodeOk regex.nodes n

/-! ## Basic lemmas -/

@[simp] theorem Outcome.bind_ok {ε α β : Type} (a : α) (f : α → Outcome ε β) :
    (Outcome.ok a : Outcome ε α).bind f = f a := rfl

@[simp] theorem Outcome.bind_error {ε α β : Type} (e : ε) (f : α → Outcome ε β) :
    (Outcome.error e : Outcome ε α).bind f = .error e := rfl

@[simp] theorem Outcome.bind_timeout {ε α β : Type} (f : α → Outcome ε β) :
    (Outcome.timeout : Outcome ε α).bind f = .timeout := rfl

@[simp] theorem Outcome.andThen_ok {α β : Type} (a : α) (b : RegexBuilder)
    (f : α → RegexBuilder → Step β) : Outcome.andThen (.ok (a, b)) f = f a b := rfl

@[simp] theorem Outcome.andThen_error {α β : Type} (e : RegexError)
    (f : α → RegexBuilder → Step β) : Outcome.andThen (.error e : Step α) f = .error e := rfl

@[simp] theorem Outcome.andThen_timeout {α β : Type}
    (f : α → RegexBuilder → Step β) : Outcome.andThen (.timeout : Step α) f = .timeout := rfl

/-! ## Pending stores -/

theorem store_cases (env : StoreEnv) (used : Nat) (b : RegexBuilder) (i : Int)
    (f : RegexNode → RegexNode) : b.store env used i f = b.update i f ∨ b.store env used i f = b := by
  unfold RegexBuilder.store
  split_ifs
  · exact Or.inl rfl
  · exact Or.inr rfl

theorem store_of_capacity (env : StoreEnv) (used : Nat) (b : RegexBuilder) (i : Int)
    (f : RegexNode → RegexNode) (h : nodesAllocated used = nodesAllocated b.nodes.length) :
    b.store env used i f = b.update i f := by
  unfold RegexBuilder.store
  rw [if_pos (Or.inl h)]

theorem store_of_lands (env : StoreEnv) (used : Nat) (b : RegexBuilder) (i : Int)
    (f : RegexNode → RegexNode) (h : env i.toNat = true) :
    b.store env used i f = b.update i f := by
  unfold RegexBuilder.store
  rw [if_pos (Or.inr h)]

theorem store_of_lost (env : StoreEnv) (used : Nat) (b : RegexBuilder) (i : Int)
    (f : RegexNode → RegexNode) (hc : nodesAllocated used ≠ nodesAllocated b.nodes.length)
    (h : env i.toNat = false) : b.store env used i f = b := by
  unfold RegexBuilder.store
  rw [if_neg]
  rintro (h1 | h1)
  · exact hc h1
  · rw [h] at h1; cases h1

theorem store_root {env : StoreEnv} (u : Nat) (B : RegexBuilder) (i : Int)
    (f : RegexNode → RegexNode) (hu : u = 1) (hi : i = 0)
    (hS : (1 ≤ B.nodes.length ∧ B.nodes.length ≤ 10) ∨ env 0 = true) :
    B.store env u i f = B.update i f := by
  subst hu hi
  rcases hS with hS | hS
  · exact store_of_capacity _ _ _ _ _ (by unfold nodesAllocated; omega)
  · exact store_of_lands _ _ _ _ _ hS

theorem store_regex (env : StoreEnv) (used : Nat) (b : RegexBuilder) (i : Int)
    (f : RegexNode → RegexNode) : (b.store env used i f).regex = b.regex := by
  unfold RegexBuilder.store RegexBuilder.update
  split_ifs
  · cases NODE b.nodes i <;> rfl
  · rfl

theorem store_p (env : StoreEnv) (used : Nat) (b : RegexBuilder) (i : Int)
    (f : RegexNode → RegexNode) : (b.store env used i f).p = b.p := by
  unfold RegexBuilder.store RegexBuilder.update
  split_ifs
  · cases NODE b.nodes i <;> rfl
  · rfl

theorem regex_char_test_store (env : StoreEnv) (used : Nat) (b : RegexBuilder) (i : Int)
    (f : RegexNode → RegexNode) : regex_char_test (b.store env used i f) = regex_char_test b := by
  unfold regex_char_test
  rw [store_regex, store_p]

theorem regex_compile_eq (env : StoreEnv) (fuel : Nat) (p : List Int) :
    regex_compile env fuel p =
      match regex_compile_list env fuel
        (RegexBuilder.mk [RegexNode.mk REGEX_NODE_EXPR_NOCAPTURE (-1) (-1) (-1)] 0 p 0) with
      | .ok (list, b) =>
        .ok (Regex.mk (b.store env 1 0 fun n => { n with left := list }).matchCount
          (b.store env 1 0 fun n => { n with left := list }).nodes)
      | .error e => .error e
      | .timeout => .timeout := by
  unfold regex_compile
  simp only [regex_alloc_node, Outcome.andThen_ok, List.nil_append]
  generalize regex_compile_list env fuel
    (RegexBuilder.mk [RegexNode.mk REGEX_NODE_EXPR_NOCAPTURE (-1) (-1) (-1)] 0 p 0) = r
  cases r with
  | ok ab => obtain ⟨a, b⟩ := ab; rfl
  | error e => rfl
  | timeout => rfl

theorem nodesAllocated_small (a b : Nat) (ha : 1 ≤ a) (hab : a ≤ b) (hb : b ≤ 10) :
    nodesAllocated a = nodesAllocated b := by
  unfold nodesAllocated
  omega

/-! ## The compiler on runs of ordinary characters -/

theorem NODE_append_length (pre post : List RegexNode) (n : RegexNode) :
    NODE (pre ++ n :: post) (pre.length : Int) = some n := by
  simp [NODE, List.getElem_append_right (le_refl _)]

theorem update_append_length (b : RegexBuilder) (pre post : List RegexNode) (n : RegexNode)
    (f : RegexNode → RegexNode) (h : b.nodes = pre ++ n :: post) :
    b.update (pre.length : Int) f = { b with nodes := pre ++ f n :: post } := by
  simp [RegexBuilder.update, h, NODE_append_length]

theorem regex_char_test_mk (nodes : List RegexNode) (mc : Nat) (regex : List Int) (p : Nat) :
    regex_char_test { nodes := nodes, matchCount := mc, regex := regex, p := p } = regex.getD p 0 :=
  rfl

theorem compile_char_ordinary (b : RegexBuilder) (c : Int) (hc : Ordinary c)
    (h : regex_char_test b = c) :
    regex_compile_char b = .ok ((b.nodes.length : Int),
      { b with p := b.p + 1,
               nodes := b.nodes ++ [{ type := REGEX_NODE_CHAR, next := -1, left := c, right := -1 }] }) := by
  obtain ⟨h0, h1, h2, h3, h4, h5, h6, h7, h8, h9, h10, h11, h12⟩ := hc
  simp [regex_compile_char, regex_char_test_and_fetch, regex_char_fetch, regex_node_value,
    regex_alloc_node, RegexBuilder.update, NODE, h, h0, h12]

theorem compile_quantifier_none (ret : Int) (b : RegexBuilder)
    (h1 : regex_char_test b ≠ 42) (h2 : regex_char_test b ≠ 43) (h3 : regex_char_test b ≠ 63) :
    regex_compile_quantifier ret b = .ok (ret, b) := by
  simp [regex_compile_quantifier, h1, h2, h3]

theorem compile_element_ordinary {env : StoreEnv}
    (fuel : Nat) (b : RegexBuilder) (c : Int) (hc : Ordinary c)
    (h : regex_char_test b = c)
    (h1 : b.regex.getD (b.p + 1) 0 ≠ 42) (h2 : b.regex.getD (b.p + 1) 0 ≠ 43)
    (h3 : b.regex.getD (b.p + 1) 0 ≠ 63) :
    regex_compile_element env (fuel + 1) b =
      let b1 : RegexBuilder := { b with p := b.p + 1, nodes := b.nodes ++ [{ type := REGEX_NODE_CHAR, next := -1, left := c, right := -1 }] }
      if b.regex.getD (b.p + 1) 0 ≠ 124 ∧ b.regex.getD (b.p + 1) 0 ≠ 41 ∧
          b.regex.getD (b.p + 1) 0 ≠ 0 then
        (regex_compile_element env fuel b1).andThen fun next b2 =>
          .ok ((b.nodes.length : Int), b2.update b.nodes.length fun n => { n with next := next })
      else .ok ((b.nodes.length : Int), b1) := by
  have hc' := hc
  obtain ⟨h0, g1, g2, g3, g4, g5, g6, g7, g8, g9, g10, g11, g12⟩ := hc'
  rw [regex_compile_element]
  simp only [h, SYMBOL_END, SYMBOL_ANY, CH_LBRACKET, CH_LPAREN, g2, g3, g5, g7, if_false]
  rw [compile_char_ordinary b c hc h]
  simp only [Outcome.andThen_ok]
  rw [compile_quantifier_none _ _ (by simpa [regex_char_test_mk] using h1)
    (by simpa [regex_char_test_mk] using h2) (by simpa [regex_char_test_mk] using h3)]
  simp only [Outcome.andThen_ok, regex_char_test_mk]
  simp only [List.getD_eq_getElem?_getD] at h1 h2 h3
  simp [h1, h2, h3]

theorem literal_chain_cons (base : Nat) (c : Int) (rest : List Int) (h : rest ≠ []) :
    literal_chain base (c :: rest) =
      { type := REGEX_NODE_CHAR, next := (base : Int) + 1, left := c, right := -1 } ::
        literal_chain (base + 1) rest := by
  cases rest with
  | nil => exact absurd rfl h
  | cons d rest => rfl

theorem compile_element_literal {env : StoreEnv} (lit : List Int) :
    ∀ (fuel : Nat) (b : RegexBuilder), lit ≠ [] → (∀ c ∈ lit, Ordinary c) → lit.length ≤ fuel →
      (∀ i, i < lit.length → b.regex.getD (b.p + i) 0 = lit.getD i 0) →
      (b.regex.getD (b.p + lit.length) 0 = 0 ∨ b.regex.getD (b.p + lit.length) 0 = 124 ∨
        b.regex.getD (b.p + lit.length) 0 = 41) →
      regex_compile_element env fuel b =
        .ok ((b.nodes.length : Int),
          { b with p := b.p + lit.length, nodes := b.nodes ++ literal_chain b.nodes.length lit }) := by
  induction lit with
  | nil => intro _ _ h; exact absurd rfl h
  | cons c rest ih =>
    intro fuel b _ hord hfuel hread hstop
    obtain ⟨k, rfl⟩ : ∃ k, fuel = k + 1 := ⟨fuel - 1, by simp at hfuel; omega⟩
    have hc := hord c (by simp)
    have hr0 : regex_char_test b = c := by simpa [regex_char_test] using hread 0 (by simp)
    cases rest with
    | nil =>
      have hs : b.regex.getD (b.p + 1) 0 = 0 ∨ b.regex.getD (b.p + 1) 0 = 124 ∨
          b.regex.getD (b.p + 1) 0 = 41 := by simpa using hstop
      rw [compile_element_ordinary k b c hc hr0 (by rcases hs with h | h | h <;> rw [h] <;> decide)
        (by rcases hs with h | h | h <;> rw [h] <;> decide)
        (by rcases hs with h | h | h <;> rw [h] <;> decide)]
      rcases hs with h | h | h <;> rw [h] <;> simp [literal_chain]
    | cons d rest =>
      have hd := hord d (by simp)
      have hr1 : b.regex.getD (b.p + 1) 0 = d := by simpa using hread 1 (by simp)
      obtain ⟨d0, d1, d2, d3, d4, d5, d6, d7, d8, d9, d10, d11, d12⟩ := hd
      rw [compile_element_ordinary k b c hc hr0 (by rw [hr1]; exact d9) (by rw [hr1]; exact d10)
        (by rw [hr1]; exact d11)]
      simp only [hr1]
      rw [if_pos ⟨d4, d6, d0⟩]
      rw [ih k _ (by simp) (fun x hx => hord x (by simp [hx])) (by simp at hfuel ⊢; omega)
        (by
          intro i hi
          have := hread (i + 1) (by simp at hi ⊢; omega)
          simpa [Nat.add_assoc, Nat.add_comm 1 i] using this)
        (by
          simpa [Nat.add_assoc, Nat.add_comm 1] using hstop)]
      simp only [Outcome.andThen_ok]
      rw [update_append_length _ b.nodes (literal_chain (b.nodes.length + 1) (d :: rest))
        { type := REGEX_NODE_CHAR, next := -1, left := c, right := -1 } _ (by simp)]
      simp [literal_chain, Nat.add_assoc, Nat.add_comm 1]

theorem literal_chain_length (lit : List Int) :
    ∀ base : Nat, (literal_chain base lit).length = lit.length := by
  induction lit with
  | nil => intro base; rfl
  | cons c lit ih =>
    intro base
    cases lit with
    | nil => rfl
    | cons d lit =>
      rw [literal_chain_cons base c (d :: lit) (by simp), List.length_cons, ih (base + 1)]
      simp

theorem compile_list_literal {env : StoreEnv}
    (lit : List Int) (fuel : Nat) (b : RegexBuilder) (hne : lit ≠ [])
    (hord : ∀ c ∈ lit, Ordinary c) (hfuel : lit.length < fuel)
    (hread : ∀ i, i < lit.length → b.regex.getD (b.p + i) 0 = lit.getD i 0)
    (hstop : b.regex.getD (b.p + lit.length) 0 = 0 ∨ b.regex.getD (b.p + lit.length) 0 = 41) :
    regex_compile_list env fuel b =
      .ok ((b.nodes.length : Int),
        { b with p := b.p + lit.length, nodes := b.nodes ++ literal_chain b.nodes.length lit }) := by
  obtain ⟨k, rfl⟩ : ∃ k, fuel = k + 1 := ⟨fuel - 1, by omega⟩
  obtain ⟨c, rest, rfl⟩ : ∃ c rest, lit = c :: rest := by
    cases lit with
    | nil => exact absurd rfl hne
    | cons c rest => exact ⟨c, rest, rfl⟩
  have hc := hord c (by simp)
  have hr0 : regex_char_test b = c := by simpa [regex_char_test] using hread 0 (by simp)
  obtain ⟨h0, h1, -⟩ := hc
  rw [regex_compile_list]
  simp only [hr0, h0, if_false, regex_char_test_and_fetch, SYMBOL_BEGIN, h1, Outcome.andThen_ok, Bool.false_eq_true]
  rw [compile_element_literal (c :: rest) k b hne hord (by omega) hread
    (by rcases hstop with h | h; exact Or.inl h; exact Or.inr (Or.inr h))]
  simp only [Outcome.andThen_ok, SYMBOL_BRANCH, ne_eq, not_true_eq_false, if_false,
    regex_char_test_mk]
  rcases hstop with h | h <;> simp only [h] <;> simp

theorem compile_literal {env : StoreEnv} (p : List Int) (hne : p ≠ []) (hord : ∀ c ∈ p, Ordinary c)
    (fuel : Nat) (hfuel : p.length < fuel) (hS : p.length ≤ 9 ∨ env 0 = true) :
    regex_compile env fuel p = .ok (literal_program p) := by
  rw [regex_compile_eq, compile_list_literal p fuel _ hne hord hfuel (by intro i _; simp)
    (by left; simp)]
  simp only []
  rw [store_root _ _ _ _ rfl rfl (by
    rcases hS with hS | hS
    · left; simp [literal_chain_length]; omega
    · exact Or.inr hS)]
  simp [RegexBuilder.update, NODE, literal_program]

/-! ## The matcher on chains of character nodes -/

theorem cstring_nil : cstring [] = [0] := rfl

theorem cstring_cons (c : Int) (t : List Int) : cstring (c :: t) = c :: cstring t := rfl

theorem strlen_cstring (t : List Int) (ht : ∀ c ∈ t, c ≠ 0) :
    strlen (cstring t) = .ok t.length := by
  induction t with
  | nil => simp [cstring, strlen]
  | cons c t ih =>
    have hc : c ≠ 0 := ht c (by simp)
    rw [cstring_cons, strlen, if_neg hc, ih (fun x hx => ht x (by simp [hx]))]
    simp

theorem read_append_cons (done rest : List Int) (c : Int) :
    read (done ++ c :: rest) done.length = .ok c := by
  induction done with
  | nil => simp [read]
  | cons d done ih => simpa [read] using ih

theorem match_node_char (regex : Regex) (text : List Int) (bol eol fuel : Nat) (idx : Nat)
    (str : Nat) (nx : Int) (node : RegexNode) (h : NODE regex.nodes idx = some node)
    (ht : node.type = REGEX_NODE_CHAR) :
    regex_match_node regex text bol eol (fuel + 1) idx str nx =
      (read text str).bind fun c => if c ≠ node.left then .ok none else .ok (some (str + 1)) := by
  have hidx : (idx : Int) ≠ -1 := by omega
  rw [regex_match_node]
  simp only [hidx, if_false, h, ht]

theorem match_chain_literal (regex : Regex) (bol eol f2 : Nat) (lit : List Int) :
    ∀ (pre post : List RegexNode) (done rest : List Int) (fuel : Nat),
      lit ≠ [] → (∀ c ∈ lit, c ≠ 0) →
      regex.nodes = pre ++ literal_chain pre.length lit ++ post →
      lit.length ≤ fuel →
      regex_match_chain regex
          (fun i s => regex_match_node regex (done ++ cstring rest) bol eol (f2 + 1) i s (-1))
          fuel pre.length done.length =
        .ok (if lit <+: rest then some (done.length + lit.length) else none) := by
  induction lit with
  | nil => intro _ _ _ _ _ h; exact absurd rfl h
  | cons c lit ih =>
    intro pre post done rest fuel _ hnz hnodes hfuel
    obtain ⟨k, rfl⟩ : ∃ k, fuel = k + 1 := ⟨fuel - 1, by simp at hfuel; omega⟩
    have hc : c ≠ 0 := hnz c (by simp)
    rw [regex_match_chain]
    cases lit with
    | nil =>
      have hn : NODE regex.nodes (pre.length : Int) =
          some { type := REGEX_NODE_CHAR, next := -1, left := c, right := -1 } := by
        rw [hnodes]; simp [literal_chain, NODE_append_length]
      rw [match_node_char regex _ bol eol f2 pre.length done.length (-1) _ hn rfl]
      cases rest with
      | nil =>
        rw [cstring_nil, read_append_cons]
        simp [Ne.symm hc]
      | cons r rest =>
        rw [cstring_cons, read_append_cons]
        by_cases hrc : r = c
        · subst hrc
          simp [hn]
        · simp [hrc, hn, Ne.symm hrc]
    | cons d lit =>
      have hn : NODE regex.nodes (pre.length : Int) =
          some { type := REGEX_NODE_CHAR, next := (pre.length : Int) + 1, left := c, right := -1 } := by
        rw [hnodes]; simp [literal_chain, NODE_append_length]
      rw [match_node_char regex _ bol eol f2 pre.length done.length (-1) _ hn rfl]
      cases rest with
      | nil =>
        rw [cstring_nil, read_append_cons]
        simp [Ne.symm hc]
      | cons r rest =>
        rw [cstring_cons, read_append_cons]
        by_cases hrc : r = c
        · subst hrc
          have hnext : ((pre.length : Int) + 1 ≠ -1) := by omega
          have key : done ++ r :: cstring rest = (done ++ [r]) ++ cstring rest := by simp
          have ih' := ih (pre ++ [{ type := REGEX_NODE_CHAR, next := (pre.length : Int) + 1, left := r, right := -1 }])
            post (done ++ [r]) rest k (by simp) (fun x hx => hnz x (by simp [hx]))
            (by rw [hnodes]; simp [literal_chain]) (by simp at hfuel ⊢; omega)
          simp only [List.length_append, List.length_singleton, Nat.cast_add, Nat.cast_one] at ih'
          simp only [ne_eq, not_true_eq_false, if_false, Outcome.bind_ok, hn, hnext, not_false_eq_true,
            if_true, key, ih']
          simp [List.cons_prefix_cons, Nat.add_assoc, Nat.add_comm 1]
        · simp [hrc, hn, Ne.symm hrc]

/-! ## C1: literal patterns -/

theorem match_literal_program (p t : List Int) (hp : p ≠ []) (hord : ∀ c ∈ p, Ordinary c)
    (ht : ∀ c ∈ t, c ≠ 0) (fuel : Nat) (hfuel : p.length + 2 ≤ fuel) :
    regex_match fuel (literal_program p) (cstring t) = .ok (decide (t = p)) := by
  obtain ⟨k, rfl⟩ : ∃ k, fuel = k + 2 := ⟨fuel - 2, by omega⟩
  have hchain := match_chain_literal (literal_program p) 0 t.length k p
    [{ type := REGEX_NODE_EXPR_NOCAPTURE, next := -1, left := 1, right := -1 }] [] [] t (k + 1) hp
    (fun c hc => (hord c hc).1) (by simp [literal_program]) (by omega)
  simp only [List.nil_append, List.length_nil, List.length_singleton, Nat.cast_one,
    Nat.zero_add] at hchain
  rw [regex_match, strlen_cstring t ht]
  simp only [Outcome.bind_ok, regex_match_length]
  rw [regex_match_node]
  simp only [literal_program, NODE, List.get?_cons_zero, Int.toNat_zero, le_refl, if_true]
  simp only [literal_program] at hchain
  simp only [hchain]
  by_cases h : t = p
  · subst h
    simp
  · have : ¬ (p <+: t ∧ p.length = t.length) := by
      rintro ⟨h1, h2⟩
      exact h (List.IsPrefix.eq_of_length h1 h2).symm
    by_cases hpre : p <+: t
    · have hlen : p.length ≠ t.length := fun h2 => this ⟨hpre, h2⟩
      simp [hpre, h, hlen]
    · simp [hpre, h]

/-- The part of C1 that holds: a non-empty pattern of at most 9 ordinary
characters compiles, whichever stores land, and the compiled program matches a
NUL-terminated text exactly when the text is the pattern. -/
theorem short_literal_pattern_matches_itself (p t : List Int) (hp : p ≠ [])
    (hord : ∀ c ∈ p, Ordinary c) (ht : ∀ c ∈ t, c ≠ 0) (hlen : p.length ≤ 9) :
    ∃ regex, CompilesTo p regex ∧ MatchIs regex (cstring t) (decide (t = p)) :=
  ⟨literal_program p,
    fun _ => ⟨p.length + 1, fun fuel h => compile_literal p hp hord fuel (by omega) (Or.inl hlen)⟩,
    ⟨p.length + 2, fun fuel h => match_literal_program p t hp hord ht fuel h⟩⟩

/-- A pattern of ordinary characters of any length compiles to the program
that matches exactly the pattern when the store of the root lands. -/
theorem landed_literal_pattern_matches_itself (env : StoreEnv) (p t : List Int) (hp : p ≠ [])
    (hord : ∀ c ∈ p, Ordinary c) (ht : ∀ c ∈ t, c ≠ 0) (hland : env 0 = true) :
    ∃ regex, CompilesIn env p regex ∧ MatchIs regex (cstring t) (decide (t = p)) :=
  ⟨literal_program p,
    ⟨p.length + 1, fun fuel h => compile_literal p hp hord fuel (by omega) (Or.inr hland)⟩,
    ⟨p.length + 2, fun fuel h => match_literal_program p t hp hord ht fuel h⟩⟩

/-! ## The greedy loop -/

theorem match_greedy_run (sub : Nat → Outcome MatchFault (Option Nat)) (P : Int → Bool)
    (max : Nat) (rest : List Int) :
    ∀ (done : List Int) (count fuel : Nat),
      (∀ s, sub s = (read (done ++ cstring rest) s).bind fun c =>
        .ok (if P c then some (s + 1) else none)) →
      (rest ≠ [] ∨ P 0 = false) → rest.length < fuel →
      regex_match_greedy sub max (done.length + rest.length) fuel count done.length =
        .ok (count + min (rest.takeWhile P).length (max - count),
          done.length + min (rest.takeWhile P).length (max - count)) := by
  induction rest with
  | nil =>
    intro done count fuel hsub hP hfuel
    obtain ⟨k, rfl⟩ : ∃ k, fuel = k + 1 := ⟨fuel - 1, by omega⟩
    have hP0 : P 0 = false := by
      rcases hP with h | h
      · exact absurd rfl h
      · exact h
    rw [regex_match_greedy]
    by_cases hc : count < max
    · rw [if_pos hc, hsub, cstring_nil, read_append_cons]
      simp [hP0]
    · rw [if_neg hc]
      simp
  | cons r rest ih =>
    intro done count fuel hsub _ hfuel
    obtain ⟨k, rfl⟩ : ∃ k, fuel = k + 1 := ⟨fuel - 1, by omega⟩
    rw [regex_match_greedy]
    by_cases hc : count < max
    · rw [if_pos hc, hsub, cstring_cons, read_append_cons]
      by_cases hr : P r = true
      · simp only [Outcome.bind_ok, hr, if_true, List.takeWhile_cons]
        cases rest with
        | nil =>
          simp
          omega
        | cons r2 rest =>
          have hge : ¬ (done.length + 1 ≥ done.length + (r :: r2 :: rest).length) := by
            simp
          rw [if_neg hge]
          have ih' := ih (done ++ [r]) (count + 1) k
            (by intro s; rw [hsub]; simp [cstring_cons])
            (Or.inl (by simp)) (by simp at hfuel ⊢; omega)
          have e1 : (done ++ [r]).length + (r2 :: rest).length
              = done.length + (r :: r2 :: rest).length := by simp; omega
          have e2 : (done ++ [r]).length = done.length + 1 := by simp
          rw [e1, e2] at ih'
          rw [ih']
          have : min ((List.takeWhile P (r2 :: rest)).length + 1) (max - count)
              = 1 + min ((List.takeWhile P (r2 :: rest)).length) (max - (count + 1)) := by
            omega
          simp only [List.length_cons, this]
          congr 2 <;> omega
      · have hr' : P r = false := by simpa using hr
        simp [hr', List.takeWhile_cons]
    · rw [if_neg hc]
      have : max - count = 0 := by omega
      simp [this]

theorem match_node_char_pred (regex : Regex) (text : List Int) (bol eol fuel : Nat) (idx : Nat)
    (nx : Int) (node : RegexNode) (h : NODE regex.nodes idx = some node)
    (ht : node.type = REGEX_NODE_CHAR) (str : Nat) :
    regex_match_node regex text bol eol (fuel + 1) idx str nx =
      (read text str).bind fun c =>
        .ok (if (fun x => decide (x = node.left)) c then some (str + 1) else none) := by
  rw [match_node_char regex text bol eol fuel idx str nx node h ht]
  congr 1
  funext c
  by_cases hc : c = node.left <;> simp [hc]

theorem match_node_greedy (regex : Regex) (P : Int → Bool) (done rest : List Int) (bol k : Nat)
    (idx : Nat) (nx : Int) (node : RegexNode) (hG : NODE regex.nodes idx = some node)
    (htype : node.type = REGEX_NODE_GREEDY)
    (hsub : ∀ s, regex_match_node regex (done ++ cstring rest) bol (done.length + rest.length)
        (k + 1) node.left s (-1) =
      (read (done ++ cstring rest) s).bind fun c => .ok (if P c then some (s + 1) else none))
    (hP : rest ≠ [] ∨ P 0 = false) (hfuel : rest.length < k + 1) :
    regex_match_node regex (done ++ cstring rest) bol (done.length + rest.length) (k + 2) idx
        done.length nx =
      .ok (if (node.right / 65536 % 65536).toNat
              ≤ min (rest.takeWhile P).length (node.right % 65536).toNat ∧
            (node.right % 65536).toNat = 65535 then
          some (done.length + min (rest.takeWhile P).length (node.right % 65536).toNat)
        else if (node.right / 65536 % 65536).toNat
              ≤ min (rest.takeWhile P).length (node.right % 65536).toNat then
          some (done.length + min (rest.takeWhile P).length (node.right % 65536).toNat)
        else none) := by
  have hidx : (idx : Int) ≠ -1 := by omega
  rw [regex_match_node]
  simp only [hidx, if_false, hG, htype]
  rw [match_greedy_run _ P _ rest done 0 (k + 1) hsub hP hfuel]
  simp only [Outcome.bind_ok, Nat.zero_add, Nat.sub_zero, ge_iff_le]
  generalize (node.right / 65536 % 65536).toNat = mn
  generalize (node.right % 65536).toNat = mx
  generalize (rest.takeWhile P).length = tw
  split_ifs <;> first | rfl | (exfalso; omega)

theorem takeWhile_length_le (P : Int → Bool) (t : List Int) :
    (t.takeWhile P).length ≤ t.length := by
  induction t with
  | nil => simp
  | cons x t ih =>
    rw [List.takeWhile_cons]
    by_cases h : P x = true
    · simp [h]; exact ih
    · simp [h]

theorem takeWhile_length_eq_iff (P : Int → Bool) (t : List Int) :
    (t.takeWhile P).length = t.length ↔ ∀ x ∈ t, P x = true := by
  induction t with
  | nil => simp
  | cons x t ih =>
    rw [List.takeWhile_cons]
    by_cases h : P x = true
    · simp [h, ih]
    · simp [h]

theorem read_takeWhile (P : Int → Bool) (hP : P 0 = false) (t : List Int) :
    ∀ done : List Int, ∃ x, read (done ++ cstring t) (done.length + (t.takeWhile P).length) = .ok x ∧
      P x = false := by
  induction t with
  | nil =>
    intro done
    exact ⟨0, by simpa [cstring_nil] using read_append_cons done [] 0, hP⟩
  | cons y t ih =>
    intro done
    rw [List.takeWhile_cons]
    by_cases h : P y = true
    · obtain ⟨x, hx, hPx⟩ := ih (done ++ [y])
      refine ⟨x, ?_, hPx⟩
      simp only [h, if_true, List.length_cons]
      simpa [cstring_cons, Nat.add_assoc, Nat.add_comm 1] using hx
    · refine ⟨y, ?_, by simpa using h⟩
      simp only [h, if_false, List.length_nil, Nat.add_zero, Bool.false_eq_true]
      exact read_append_cons done (cstring t) y

/-! ## One quantified character -/

theorem compile_star {env : StoreEnv} (c : Int) (hc : Ordinary c) (fuel : Nat) (hfuel : 2 ≤ fuel) :
    regex_compile env fuel [c, 42] = .ok (quantified_char_program c 65535) := by
  obtain ⟨k, rfl⟩ : ∃ k, fuel = k + 2 := ⟨fuel - 2, by omega⟩
  obtain ⟨h0, h1, h2, h3, h4, h5, h6, h7, h8, h9, h10, h11, h12⟩ := hc
  simp [regex_compile, RegexBuilder.store, nodesAllocated,
    regex_compile_list, regex_compile_element, regex_char_test,
    regex_char_fetch, regex_char_test_and_fetch, regex_alloc_node, regex_node_value,
    regex_compile_char, regex_compile_quantifier, RegexBuilder.update, NODE,
    quantified_char_program, *]

theorem compile_plus {env : StoreEnv} (c : Int) (hc : Ordinary c) (fuel : Nat) (hfuel : 2 ≤ fuel) :
    regex_compile env fuel [c, 43] = .ok (quantified_char_program c 131071) := by
  obtain ⟨k, rfl⟩ : ∃ k, fuel = k + 2 := ⟨fuel - 2, by omega⟩
  obtain ⟨h0, h1, h2, h3, h4, h5, h6, h7, h8, h9, h10, h11, h12⟩ := hc
  simp [regex_compile, RegexBuilder.store, nodesAllocated,
    regex_compile_list, regex_compile_element, regex_char_test,
    regex_char_fetch, regex_char_test_and_fetch, regex_alloc_node, regex_node_value,
    regex_compile_char, regex_compile_quantifier, RegexBuilder.update, NODE,
    quantified_char_program, *]

theorem compile_optional {env : StoreEnv}
    (c : Int) (hc : Ordinary c) (fuel : Nat) (hfuel : 2 ≤ fuel) :
    regex_compile env fuel [c, 63] = .ok (quantified_char_program c 1) := by
  obtain ⟨k, rfl⟩ : ∃ k, fuel = k + 2 := ⟨fuel - 2, by omega⟩
  obtain ⟨h0, h1, h2, h3, h4, h5, h6, h7, h8, h9, h10, h11, h12⟩ := hc
  simp [regex_compile, RegexBuilder.store, nodesAllocated,
    regex_compile_list, regex_compile_element, regex_char_test,
    regex_char_fetch, regex_char_test_and_fetch, regex_alloc_node, regex_node_value,
    regex_compile_char, regex_compile_quantifier, RegexBuilder.update, NODE,
    quantified_char_program, *]

theorem match_quantified_char (c : Int) (hc : c ≠ 0) (bounds : Int) (t : List Int)
    (ht : ∀ x ∈ t, x ≠ 0) (fuel : Nat) (hfuel : t.length + 3 ≤ fuel) :
    regex_match fuel (quantified_char_program c bounds) (cstring t) =
      .ok (decide ((if (bounds / 65536 % 65536).toNat
              ≤ min (t.takeWhile fun x => decide (x = c)).length (bounds % 65536).toNat then
          some (min (t.takeWhile fun x => decide (x = c)).length (bounds % 65536).toNat)
        else none) = some t.length)) := by
  obtain ⟨k, rfl⟩ : ∃ k, fuel = k + 3 := ⟨fuel - 3, by omega⟩
  have hG : NODE (quantified_char_program c bounds).nodes ((2 : Nat) : Int) =
      some { type := REGEX_NODE_GREEDY, next := -1, left := 1, right := bounds } := by
    simp [NODE, quantified_char_program]
  have hC : NODE (quantified_char_program c bounds).nodes ((1 : Nat) : Int) =
      some { type := REGEX_NODE_CHAR, next := -1, left := c, right := -1 } := by
    simp [NODE, quantified_char_program]
  have hg := match_node_greedy (quantified_char_program c bounds) (fun x => decide (x = c)) [] t 0
    k 2 (-1) _ hG rfl
    (fun s => match_node_char_pred _ _ 0 _ k 1 (-1) _ hC rfl s)
    (Or.inr (by simpa using Ne.symm hc)) (by omega)
  simp only [List.nil_append, List.length_nil, Nat.zero_add, Nat.cast_ofNat] at hg
  rw [regex_match, strlen_cstring t ht]
  simp only [Outcome.bind_ok, regex_match_length]
  rw [regex_match_node]
  have h01 : ¬ ((0 : Int) = -1) := by decide
  simp only [h01, if_false, quantified_char_program, NODE, List.get?_cons_zero, Int.toNat_zero,
    le_refl, if_true]
  rw [regex_match_chain]
  simp only [quantified_char_program] at hg
  simp only [hg]
  generalize (bounds / 65536 % 65536).toNat = mn
  generalize (bounds % 65536).toNat = mx
  generalize (t.takeWhile fun x => decide (x = c)).length = tw
  split_ifs <;> simp [NODE]; omega

/-! ## C2 and C3: the quantifiers on one character -/

theorem match_star (c : Int) (hc : c ≠ 0) (t : List Int) (ht : ∀ x ∈ t, x ≠ 0) :
    MatchIs (quantified_char_program c 65535) (cstring t)
      (decide (t.length ≤ 65535 ∧ ∀ x ∈ t, x = c)) := by
  refine ⟨t.length + 3, fun fuel h => ?_⟩
  rw [match_quantified_char c hc 65535 t ht fuel h]
  have hle := takeWhile_length_le (fun x => decide (x = c)) t
  have hiff := takeWhile_length_eq_iff (fun x => decide (x = c)) t
  simp only [decide_eq_true_eq] at hiff
  have e1 : ((65535 : Int) / 65536 % 65536).toNat = 0 := by decide
  have e2 : ((65535 : Int) % 65536).toNat = 65535 := by decide
  rw [e1, e2]
  congr 1
  rw [decide_eq_decide, ← hiff]
  simp only [Nat.zero_le, if_true, Option.some.injEq]
  omega

theorem match_plus (c : Int) (hc : c ≠ 0) (t : List Int) (ht : ∀ x ∈ t, x ≠ 0) :
    MatchIs (quantified_char_program c 131071) (cstring t)
      (decide (1 ≤ t.length ∧ t.length ≤ 65535 ∧ ∀ x ∈ t, x = c)) := by
  refine ⟨t.length + 3, fun fuel h => ?_⟩
  rw [match_quantified_char c hc 131071 t ht fuel h]
  have hle := takeWhile_length_le (fun x => decide (x = c)) t
  have hiff := takeWhile_length_eq_iff (fun x => decide (x = c)) t
  simp only [decide_eq_true_eq] at hiff
  have e1 : ((131071 : Int) / 65536 % 65536).toNat = 1 := by decide
  have e2 : ((131071 : Int) % 65536).toNat = 65535 := by decide
  rw [e1, e2]
  congr 1
  rw [decide_eq_decide, ← hiff]
  split_ifs with h1
  · simp only [Option.some.injEq]
    omega
  · simp only [reduceCtorEq, false_iff]
    omega

/-- C2, at the failing input: on the text of 65536 copies of 'a' neither "a*" nor
"a+" matches, although the text consists only of copies of 'a'. -/
theorem star_plus_reject_65536_copies :
    (∀ x ∈ List.replicate 65536 (97 : Int), x = 97) ∧
    (∃ regex, CompilesTo [97, 42] regex ∧
      MatchIs regex (cstring (List.replicate 65536 97)) false) ∧
    (∃ regex, CompilesTo [97, 43] regex ∧
      MatchIs regex (cstring (List.replicate 65536 97)) false) := by
  have hz : ∀ x ∈ List.replicate 65536 (97 : Int), x ≠ 0 := by
    intro x hx
    rw [List.eq_of_mem_replicate hx]
    decide
  refine ⟨fun x hx => List.eq_of_mem_replicate hx, ?_, ?_⟩
  · refine ⟨_, fun _ => ⟨2, fun fuel h => compile_star 97 (by decide) fuel h⟩, ?_⟩
    have hm := match_star 97 (by decide) _ hz
    have hA : ¬ ((List.replicate 65536 (97 : Int)).length ≤ 65535 ∧
        ∀ x ∈ List.replicate 65536 (97 : Int), x = 97) := by
      intro h
      have h1 := h.1
      rw [List.length_replicate] at h1
      omega
    rw [decide_eq_false hA] at hm
    exact hm
  · refine ⟨_, fun _ => ⟨2, fun fuel h => compile_plus 97 (by decide) fuel h⟩, ?_⟩
    have hm := match_plus 97 (by decide) _ hz
    have hA : ¬ (1 ≤ (List.replicate 65536 (97 : Int)).length ∧
        (List.replicate 65536 (97 : Int)).length ≤ 65535 ∧
        ∀ x ∈ List.replicate 65536 (97 : Int), x = 97) := by
      intro h
      have h1 := h.2.1
      rw [List.length_replicate] at h1
      omega
    rw [decide_eq_false hA] at hm
    exact hm

/-- C3. The pattern of an ordinary character followed by `?` compiles, and the
compiled program matches a NUL-terminated text exactly when the text is
empty or is that one character. -/
theorem optional_char_matches_empty_or_single (c : Int) (hc : Ordinary c) (t : List Int)
    (ht : ∀ x ∈ t, x ≠ 0) :
    ∃ regex, CompilesTo [c, 63] regex ∧
      MatchIs regex (cstring t) (decide (t = [] ∨ t = [c])) := by
  refine ⟨_, fun _ => ⟨2, fun fuel h => compile_optional c hc fuel h⟩, t.length + 3, fun fuel h => ?_⟩
  rw [match_quantified_char c hc.1 1 t ht fuel h]
  have e1 : ((1 : Int) / 65536 % 65536).toNat = 0 := by decide
  have e2 : ((1 : Int) % 65536).toNat = 1 := by decide
  rw [e1, e2]
  congr 1
  rw [decide_eq_decide]
  simp only [Nat.zero_le, if_true, Option.some.injEq]
  cases t with
  | nil => simp
  | cons x t =>
    rw [List.takeWhile_cons]
    by_cases hx : x = c
    · subst hx
      cases t with
      | nil => simp
      | cons y t => simp
    · simp [hx]

/-- A witness of C3: the pattern "a?" on the text "a". -/
theorem optional_char_matches_empty_or_single_witness :
    Ordinary 97 ∧ (∀ x ∈ ([97] : List Int), x ≠ 0) ∧
      ∃ regex, CompilesTo [97, 63] regex ∧
        MatchIs regex (cstring [97]) (decide (([97] : List Int) = [] ∨ ([97] : List Int) = [97])) :=
  ⟨by decide, by decide, optional_char_matches_empty_or_single 97 (by decide) [97] (by decide)⟩

/-! ## Alternation of two runs of ordinary characters -/

theorem getD_append_left_lt (l r : List Int) (i : Nat) (h : i < l.length) :
    (l ++ r).getD i 0 = l.getD i 0 := by
  simp [List.getD_eq_getElem?_getD, List.getElem?_append_left h]

theorem getD_append_right_add (l r : List Int) (i : Nat) :
    (l ++ r).getD (l.length + i) 0 = r.getD i 0 := by
  simp [List.getD_eq_getElem?_getD, List.getElem?_append_right]

theorem regex_node_value_eq (b : RegexBuilder) (type : RegexNodeType) (value : Int) :
    regex_node_value b type value = .ok ((b.nodes.length : Int),
      { b with nodes := b.nodes ++ [{ type := type, next := -1, left := value, right := -1 }] }) := by
  simp only [regex_node_value, regex_alloc_node, Outcome.andThen_ok]
  rw [update_append_length _ b.nodes [] { type := type, next := -1, left := -1, right := -1 } _ rfl]

theorem compile_list_alternation {env : StoreEnv} (p q : List Int) (hp : p ≠ []) (hq : q ≠ [])
    (hpo : ∀ c ∈ p, Ordinary c) (hqo : ∀ c ∈ q, Ordinary c) (fuel : Nat) (b : RegexBuilder)
    (hfuel : p.length + q.length + 1 ≤ fuel)
    (hrp : ∀ i, i < p.length → b.regex.getD (b.p + i) 0 = p.getD i 0)
    (hbar : b.regex.getD (b.p + p.length) 0 = 124)
    (hrq : ∀ i, i < q.length → b.regex.getD (b.p + p.length + 1 + i) 0 = q.getD i 0)
    (hend : b.regex.getD (b.p + p.length + 1 + q.length) 0 = 0)
    (hS : nodesAllocated (b.nodes.length + p.length + 1) =
        nodesAllocated (b.nodes.length + p.length + 1 + q.length) ∨
      env (b.nodes.length + p.length) = true) :
    regex_compile_list env fuel b =
      .ok ((b.nodes.length : Int) + p.length,
        { b with p := b.p + p.length + 1 + q.length,
                 nodes := b.nodes ++ (literal_chain b.nodes.length p ++
                   { type := REGEX_NODE_OR, next := -1, left := b.nodes.length, right := (b.nodes.length : Int) + p.length + 1 } ::
                     literal_chain (b.nodes.length + p.length + 1) q) }) := by
  obtain ⟨k, rfl⟩ : ∃ k, fuel = k + 1 := ⟨fuel - 1, by omega⟩
  obtain ⟨c, rest, hpc⟩ : ∃ c rest, p = c :: rest := by
    cases p with
    | nil => exact absurd rfl hp
    | cons c rest => exact ⟨c, rest, rfl⟩
  have hc := hpo c (by simp [hpc])
  obtain ⟨h0, h1, -⟩ := hc
  have hplen : 1 ≤ p.length := by simp [hpc]
  have ht0 : regex_char_test b = c := by
    have := hrp 0 (by simp [hpc])
    simpa [regex_char_test, hpc] using this
  rw [regex_compile_list]
  simp only [ht0, h0, if_false, regex_char_test_and_fetch, SYMBOL_BEGIN, h1, Outcome.andThen_ok,
    Bool.false_eq_true]
  rw [compile_element_literal p k b hp hpo (by omega) hrp (Or.inr (Or.inl hbar))]
  simp only [Outcome.andThen_ok, SYMBOL_BRANCH, ne_eq, not_true_eq_false, if_false,
    regex_char_test_mk, hbar, if_true, regex_char_fetch]
  simp only [show ¬ ((124 : Int) = 0) by decide, if_false, Outcome.andThen_ok,
    regex_node_value_eq]
  rw [compile_list_literal q k _ hq hqo (by omega) hrq (Or.inl hend)]
  simp only [Outcome.andThen_ok]
  have hst : ∀ (u : Nat) (B : RegexBuilder) (i : Int) (f : RegexNode → RegexNode),
      u = b.nodes.length + p.length + 1 → B.nodes.length = b.nodes.length + p.length + 1 + q.length →
      i.toNat = b.nodes.length + p.length → B.store env u i f = B.update i f := by
    intro u B i f hu hB hi
    subst hu
    rcases hS with h | h
    · exact store_of_capacity _ _ _ _ _ (by rw [hB]; exact h)
    · exact store_of_lands _ _ _ _ _ (by rw [hi]; exact h)
  rw [hst _ _ _ _ (by simp [literal_chain_length]; omega) (by simp [literal_chain_length]; omega)
    (by simp [literal_chain_length]; omega)]
  rw [update_append_length _ (b.nodes ++ literal_chain b.nodes.length p)
    (literal_chain (b.nodes.length + p.length + 1) q)
    { type := REGEX_NODE_OR, next := -1, left := b.nodes.length, right := -1 } _
    (by simp [literal_chain_length, Nat.add_assoc])]
  simp [literal_chain_length, Nat.add_assoc, add_assoc]

theorem compile_alternation {env : StoreEnv} (p q : List Int) (hp : p ≠ []) (hq : q ≠ [])
    (hpo : ∀ c ∈ p, Ordinary c) (hqo : ∀ c ∈ q, Ordinary c)
    (fuel : Nat) (hfuel : p.length + q.length + 1 ≤ fuel)
    (hS : p.length + q.length ≤ 8 ∨ ∀ i, env i = true) :
    regex_compile env fuel (p ++ 124 :: q) = .ok (alternation_program p q) := by
  rw [regex_compile_eq, compile_list_alternation p q hp hq hpo hqo fuel _ hfuel
    (by intro i hi; simpa using getD_append_left_lt p (124 :: q) i hi)
    (by simpa using getD_append_right_add p (124 :: q) 0)
    (by
      intro i hi
      have := getD_append_right_add p (124 :: q) (1 + i)
      simpa [Nat.add_assoc, Nat.add_comm 1 i] using this)
    (by
      have := getD_append_right_add p (124 :: q) (1 + q.length)
      simpa [Nat.add_assoc, Nat.add_comm 1 q.length] using this)
    (by
      rcases hS with hS | hS
      · left
        simp only [List.length_singleton]
        unfold nodesAllocated
        omega
      · exact Or.inr (hS _))]
  simp only []
  rw [store_root _ _ _ _ rfl rfl (by
    rcases hS with hS | hS
    · left; simp [literal_chain_length]; omega
    · exact Or.inr (hS 0))]
  simp [RegexBuilder.update, NODE, alternation_program, Nat.add_comm 1]
  constructor <;> omega

theorem match_chain_literal_at (regex : Regex) (bol eol f2 : Nat) (lit : List Int)
    (pre post : List RegexNode) (done rest : List Int) (fuel : Nat) (idx : Int) (cur : Nat)
    (text : List Int) (hne : lit ≠ []) (hnz : ∀ c ∈ lit, c ≠ 0)
    (hnodes : regex.nodes = pre ++ literal_chain pre.length lit ++ post)
    (hfuel : lit.length ≤ fuel) (hidx : idx = (pre.length : Int)) (hcur : cur = done.length)
    (htext : text = done ++ cstring rest) :
    regex_match_chain regex
        (fun i s => regex_match_node regex text bol eol (f2 + 1) i s (-1)) fuel idx cur =
      .ok (if lit <+: rest then some (cur + lit.length) else none) := by
  subst hidx hcur htext
  exact match_chain_literal regex bol eol f2 lit pre post done rest fuel hne hnz hnodes hfuel

theorem match_node_or (regex : Regex) (text : List Int) (bol eol fuel : Nat) (idx : Int)
    (str : Nat) (nx : Int) (node : RegexNode) (hidx : idx ≠ -1)
    (h : NODE regex.nodes idx = some node) (ht : node.type = REGEX_NODE_OR) :
    regex_match_node regex text bol eol (fuel + 1) idx str nx =
      (regex_match_chain regex (fun i s => regex_match_node regex text bol eol fuel i s (-1))
        fuel node.left str).bind fun remaining =>
      match remaining with
      | some remaining => .ok (some remaining)
      | none =>
        regex_match_chain regex (fun i s => regex_match_node regex text bol eol fuel i s (-1))
          fuel node.right str := by
  rw [regex_match_node]
  simp only [hidx, if_false, h, ht]

theorem match_node_root (regex : Regex) (text : List Int) (bol eol fuel : Nat)
    (str : Nat) (nx : Int) (node : RegexNode)
    (h : regex.nodes.get? 0 = some node) (ht : node.type = REGEX_NODE_EXPR_NOCAPTURE) :
    regex_match_node regex text bol eol (fuel + 1) 0 str nx =
      regex_match_chain regex (fun i s => regex_match_node regex text bol eol fuel i s (-1))
        fuel node.left str := by
  rw [regex_match_node]
  have h01 : ¬ ((0 : Int) = -1) := by decide
  simp only [h01, if_false, NODE, le_refl, if_true, Int.toNat_zero, h, ht]

theorem prefix_length_eq_iff (p t : List Int) (h : p <+: t) : p.length = t.length ↔ t = p :=
  ⟨fun hl => (List.IsPrefix.eq_of_length h hl).symm, fun e => by rw [e]⟩

theorem match_alternation (p q t : List Int) (hp : p ≠ []) (hq : q ≠ [])
    (hpo : ∀ c ∈ p, Ordinary c) (hqo : ∀ c ∈ q, Ordinary c) (ht : ∀ c ∈ t, c ≠ 0)
    (fuel : Nat) (hfuel : p.length + q.length + 3 ≤ fuel) :
    regex_match fuel (alternation_program p q) (cstring t) =
      .ok (decide (t = p ∨ (t = q ∧ ¬ p <+: q))) := by
  obtain ⟨k, rfl⟩ : ∃ k, fuel = k + 3 := ⟨fuel - 3, by omega⟩
  have hleft := match_chain_literal_at (alternation_program p q) 0 t.length k p
    [{ type := REGEX_NODE_EXPR_NOCAPTURE, next := -1, left := (p.length : Int) + 1, right := -1 }]
    ({ type := REGEX_NODE_OR, next := -1, left := 1, right := (p.length : Int) + 2 } ::
      literal_chain (p.length + 2) q) [] t (k + 1) 1 0 (cstring t) hp (fun c hc => (hpo c hc).1)
    (by simp [alternation_program]) (by omega) (by simp) (by simp) (by simp)
  have hright := match_chain_literal_at (alternation_program p q) 0 t.length k q
    ({ type := REGEX_NODE_EXPR_NOCAPTURE, next := -1, left := (p.length : Int) + 1, right := -1 } ::
      (literal_chain 1 p ++
        [{ type := REGEX_NODE_OR, next := -1, left := 1, right := (p.length : Int) + 2 }]))
    [] [] t (k + 1) ((p.length : Int) + 2) 0 (cstring t) hq (fun c hc => (hqo c hc).1)
    (by simp [alternation_program, literal_chain_length]) (by omega)
    (by simp [literal_chain_length]; omega) (by simp) (by simp)
  have hor : NODE (alternation_program p q).nodes ((p.length : Int) + 1) =
      some { type := REGEX_NODE_OR, next := -1, left := 1, right := (p.length : Int) + 2 } := by
    have := NODE_append_length
      ({ type := REGEX_NODE_EXPR_NOCAPTURE, next := -1, left := (p.length : Int) + 1, right := -1 } ::
        literal_chain 1 p) (literal_chain (p.length + 2) q)
      { type := REGEX_NODE_OR, next := -1, left := 1, right := (p.length : Int) + 2 }
    simpa [alternation_program, literal_chain_length] using this
  rw [regex_match, strlen_cstring t ht]
  simp only [Outcome.bind_ok, regex_match_length]
  rw [match_node_root _ _ _ _ _ _ _
    { type := REGEX_NODE_EXPR_NOCAPTURE, next := -1, left := (p.length : Int) + 1, right := -1 }
    (by simp [alternation_program]) rfl, regex_match_chain]
  simp only []
  rw [match_node_or _ _ _ _ _ _ _ _ _ (by omega) hor rfl]
  simp only [hleft, hright, Outcome.bind_ok, Nat.zero_add]
  by_cases h1 : p <+: t
  · have e := prefix_length_eq_iff p t h1
    simp only [h1, if_true, Outcome.bind_ok, hor]
    simp only [ne_eq, not_true_eq_false, if_false, Outcome.bind_ok, Option.some.injEq]
    congr 1
    rw [decide_eq_decide, e]
    constructor
    · exact fun h => Or.inl h
    · rintro (h | ⟨h, hn⟩)
      · exact h
      · exact absurd (h ▸ h1) hn
  · simp only [h1, if_false, Outcome.bind_ok]
    by_cases h2 : q <+: t
    · have e := prefix_length_eq_iff q t h2
      simp only [h2, if_true, Outcome.bind_ok, hor]
      simp only [ne_eq, not_true_eq_false, if_false, Outcome.bind_ok, Option.some.injEq]
      congr 1
      rw [decide_eq_decide, e]
      constructor
      · exact fun h => Or.inr ⟨h, fun hn => h1 (h ▸ hn)⟩
      · rintro (h | ⟨h, -⟩)
        · exact absurd (h ▸ List.prefix_refl p) h1
        · exact h
    · simp only [h2, if_false, Outcome.bind_ok]
      congr 1
      rw [decide_eq_decide]
      constructor
      · intro h; exact absurd h (by simp)
      · rintro (h | ⟨h, -⟩)
        · exact absurd (h ▸ List.prefix_refl p) h1
        · exact absurd (h ▸ List.prefix_refl q) h2

/-! ## C4: alternation -/

theorem CompilesIn_unique {env : StoreEnv} (p : List Int) (r1 r2 : Regex)
    (h1 : CompilesIn env p r1) (h2 : CompilesIn env p r2) : r1 = r2 := by
  obtain ⟨n1, h1⟩ := h1
  obtain ⟨n2, h2⟩ := h2
  have e1 := h1 (max n1 n2) (le_max_left _ _)
  have e2 := h2 (max n1 n2) (le_max_right _ _)
  rw [e1] at e2
  exact Outcome.ok.inj e2

theorem CompilesTo_unique (p : List Int) (r1 r2 : Regex) (h1 : CompilesTo p r1)
    (h2 : CompilesTo p r2) : r1 = r2 :=
  CompilesIn_unique p r1 r2 (h1 (fun _ => true)) (h2 (fun _ => true))

theorem MatchIs_unique (r : Regex) (text : List Int) (b1 b2 : Bool) (h1 : MatchIs r text b1)
    (h2 : MatchIs r text b2) : b1 = b2 := by
  obtain ⟨n1, h1⟩ := h1
  obtain ⟨n2, h2⟩ := h2
  have e1 := h1 (max n1 n2) (le_max_left _ _)
  have e2 := h2 (max n1 n2) (le_max_right _ _)
  rw [e1] at e2
  exact Outcome.ok.inj e2

/-- C4 as stated fails: "a|ab" compiles, the text "ab" is the second alternative,
and the compiled program does not match it. -/
theorem alternation_counterexample :
    (∃ regex, CompilesTo ([97] ++ 124 :: [97, 98]) regex ∧
      MatchIs regex (cstring [97, 98]) false) ∧
    ∀ env, ¬ (∃ regex, CompilesIn env ([97] ++ 124 :: [97, 98]) regex ∧
      MatchIs regex (cstring [97, 98])
        (decide (([97, 98] : List Int) = [97] ∨ ([97, 98] : List Int) = [97, 98]))) := by
  have hc : CompilesTo ([97] ++ 124 :: [97, 98]) (alternation_program [97] [97, 98]) :=
    fun _ => ⟨4, fun fuel h => compile_alternation [97] [97, 98] (by decide) (by decide) (by decide)
      (by decide) fuel (by simpa using h) (Or.inl (by decide))⟩
  have hm : MatchIs (alternation_program [97] [97, 98]) (cstring [97, 98]) false :=
    ⟨6, fun fuel h => by
      have := match_alternation [97] [97, 98] [97, 98] (by decide) (by decide) (by decide)
        (by decide) (by decide) fuel (by simpa using h)
      rw [this]
      decide⟩
  refine ⟨⟨_, hc, hm⟩, ?_⟩
  rintro env ⟨regex, h1, h2⟩
  have e := CompilesIn_unique _ _ _ h1 (hc env)
  subst e
  have := MatchIs_unique _ _ _ _ h2 hm
  revert this
  decide

/-- C4, amended. The pattern `p|q` of two non-empty runs of ordinary characters
compiles, and the compiled program matches a NUL-terminated text exactly when
the text is `p`, or is `q` and `p` is not a prefix of `q`; this holds in every
environment when `p` and `q` have at most 8 characters together (the program
has at most 10 nodes), and for longer patterns when the pending stores land. -/
theorem alternation_of_literals (env : StoreEnv) (p q t : List Int) (hp : p ≠ []) (hq : q ≠ [])
    (hpo : ∀ c ∈ p, Ordinary c) (hqo : ∀ c ∈ q, Ordinary c) (ht : ∀ c ∈ t, c ≠ 0)
    (hS : p.length + q.length ≤ 8 ∨ ∀ i, env i = true) :
    ∃ regex, CompilesIn env (p ++ 124 :: q) regex ∧
      MatchIs regex (cstring t) (decide (t = p ∨ (t = q ∧ ¬ p <+: q))) :=
  ⟨alternation_program p q,
    ⟨p.length + q.length + 1, fun fuel h => compile_alternation p q hp hq hpo hqo fuel h hS⟩,
    ⟨p.length + q.length + 3, fun fuel h => match_alternation p q t hp hq hpo hqo ht fuel h⟩⟩

/-- A witness of the amended C4: the pattern "cat|dog" on the text "dog", in the
environment in which no pending store lands. -/
theorem alternation_of_literals_witness :
    ([99, 97, 116] : List Int) ≠ [] ∧ ([100, 111, 103] : List Int) ≠ [] ∧
      (∀ c ∈ ([99, 97, 116] : List Int), Ordinary c) ∧
      (∀ c ∈ ([100, 111, 103] : List Int), Ordinary c) ∧
      (∀ c ∈ ([100, 111, 103] : List Int), c ≠ 0) ∧
      ∃ regex, CompilesIn (fun _ => false) ([99, 97, 116] ++ 124 :: [100, 111, 103]) regex ∧
        MatchIs regex (cstring [100, 111, 103])
          (decide (([100, 111, 103] : List Int) = [99, 97, 116] ∨
            (([100, 111, 103] : List Int) = [100, 111, 103] ∧
              ¬ ([99, 97, 116] : List Int) <+: [100, 111, 103]))) :=
  ⟨by decide, by decide, by decide, by decide, by decide,
    alternation_of_literals (fun _ => false) [99, 97, 116] [100, 111, 103] [100, 111, 103]
      (by decide) (by decide) (by decide) (by decide) (by decide) (Or.inl (by decide))⟩

/-! ## C5: the match of a slice -/

theorem compile_char_optional {env : StoreEnv} (fuel : Nat) (h : 3 ≤ fuel) :
    regex_compile env fuel [97, 98, 63] = .ok char_optional_program := by
  obtain ⟨k, rfl⟩ : ∃ k, fuel = k + 3 := ⟨fuel - 3, by omega⟩
  simp [regex_compile, RegexBuilder.store, nodesAllocated,
    regex_compile_list, regex_compile_element, regex_char_test,
    regex_char_fetch, regex_char_test_and_fetch, regex_alloc_node, regex_node_value,
    regex_compile_char, regex_compile_quantifier, RegexBuilder.update, NODE,
    char_optional_program]

theorem match_length_char_optional (c : Int) (fuel : Nat) (h : 5 ≤ fuel) :
    regex_match_length fuel char_optional_program [97, c] 1 = .ok (decide (c ≠ 98)) := by
  obtain ⟨k, rfl⟩ : ∃ k, fuel = k + 5 := ⟨fuel - 5, by omega⟩
  by_cases hc : c = 98 <;>
  simp [regex_match_length, regex_match_node, regex_match_chain, regex_match_greedy, NODE, read,
    char_optional_program, hc]

theorem match_char_optional_single (fuel : Nat) (h : 5 ≤ fuel) :
    regex_match fuel char_optional_program (cstring [97]) = .ok true := by
  obtain ⟨k, rfl⟩ : ∃ k, fuel = k + 5 := ⟨fuel - 5, by omega⟩
  simp [regex_match, strlen, cstring, regex_match_length, regex_match_node, regex_match_chain,
    regex_match_greedy, NODE, read, char_optional_program]

/-- C5, at the failing input: the buffers "ab" and "ac" agree on their first
byte, yet for the program of "ab?" the match of the slice of length 1 is false
on the first and true on the second; on the NUL-terminated copy "a" of the
slice it is true. -/
theorem slice_match_depends_on_bytes_after_slice :
    ∃ regex, CompilesTo [97, 98, 63] regex ∧
      ([97, 98] : List Int).take 1 = ([97, 99] : List Int).take 1 ∧
      MatchLengthIs regex [97, 98] 1 false ∧
      MatchLengthIs regex [97, 99] 1 true ∧
      MatchIs regex (cstring ([97, 98].take 1)) true :=
  ⟨char_optional_program, fun _ => ⟨3, compile_char_optional⟩, by decide,
    ⟨5, fun fuel h => by rw [match_length_char_optional 98 fuel h]; decide⟩,
    ⟨5, fun fuel h => by rw [match_length_char_optional 99 fuel h]; decide⟩,
    ⟨5, fun fuel h => match_char_optional_single fuel h⟩⟩

/-! ## C6: the greedy loop does not give characters back -/

theorem compile_star_char {env : StoreEnv}
    (c : Int) (hc : Ordinary c) (fuel : Nat) (hfuel : 3 ≤ fuel) :
    regex_compile env fuel [c, 42, c] = .ok (star_char_program c) := by
  obtain ⟨k, rfl⟩ : ∃ k, fuel = k + 3 := ⟨fuel - 3, by omega⟩
  obtain ⟨h0, h1, h2, h3, h4, h5, h6, h7, h8, h9, h10, h11, h12⟩ := hc
  simp [regex_compile, RegexBuilder.store, nodesAllocated,
    regex_compile_list, regex_compile_element, regex_char_test,
    regex_char_fetch, regex_char_test_and_fetch, regex_alloc_node, regex_node_value,
    regex_compile_char, regex_compile_quantifier, RegexBuilder.update, NODE,
    star_char_program, *]

theorem match_star_char (c : Int) (hc : c ≠ 0) (t : List Int) (ht : ∀ x ∈ t, x ≠ 0)
    (hlen : t.length ≤ 65535) (fuel : Nat) (hfuel : t.length + 3 ≤ fuel) :
    regex_match fuel (star_char_program c) (cstring t) = .ok false := by
  obtain ⟨k, rfl⟩ : ∃ k, fuel = k + 3 := ⟨fuel - 3, by omega⟩
  have hG : NODE (star_char_program c).nodes ((2 : Nat) : Int) =
      some { type := REGEX_NODE_GREEDY, next := 3, left := 1, right := 65535 } := by
    simp [NODE, star_char_program]
  have hC : NODE (star_char_program c).nodes ((1 : Nat) : Int) =
      some { type := REGEX_NODE_CHAR, next := -1, left := c, right := -1 } := by
    simp [NODE, star_char_program]
  have hC3 : NODE (star_char_program c).nodes ((3 : Nat) : Int) =
      some { type := REGEX_NODE_CHAR, next := -1, left := c, right := -1 } := by
    simp [NODE, star_char_program]
  have hP0 : (fun x => decide (x = c)) (0 : Int) = false := by simpa using Ne.symm hc
  have hg := match_node_greedy (star_char_program c) (fun x => decide (x = c)) [] t 0
    k 2 (-1) _ hG rfl
    (fun s => match_node_char_pred _ _ 0 _ k 1 (-1) _ hC rfl s)
    (Or.inr hP0) (by omega)
  have hle := takeWhile_length_le (fun x => decide (x = c)) t
  have e1 : ((65535 : Int) / 65536 % 65536).toNat = 0 := by decide
  have e2 : ((65535 : Int) % 65536).toNat = 65535 := by decide
  have hmin : min (t.takeWhile fun x => decide (x = c)).length 65535 =
      (t.takeWhile fun x => decide (x = c)).length := by omega
  simp only [List.nil_append, List.length_nil, Nat.zero_add, Nat.cast_ofNat, e1, e2, hmin,
    Nat.zero_le, true_and, if_true] at hg
  obtain ⟨x, hx, hPx⟩ := read_takeWhile (fun x => decide (x = c)) hP0 t []
  simp only [List.nil_append, List.length_nil, Nat.zero_add, decide_eq_false_iff_not] at hx hPx
  have h3 := match_node_char (star_char_program c) (cstring t) 0 t.length (k + 1) 3
    (t.takeWhile fun x => decide (x = c)).length (-1) _ hC3 rfl
  rw [hx] at h3
  simp only [Outcome.bind_ok, ne_eq, hPx, not_false_eq_true, if_true, Nat.cast_ofNat] at h3
  rw [regex_match, strlen_cstring t ht]
  simp only [Outcome.bind_ok, regex_match_length]
  rw [match_node_root _ _ _ _ _ _ _
    { type := REGEX_NODE_EXPR_NOCAPTURE, next := -1, left := 2, right := -1 }
    (by simp [star_char_program]) rfl, regex_match_chain]
  simp only [hg, Outcome.bind_ok]
  have hG' : NODE (star_char_program c).nodes 2 =
      some { type := REGEX_NODE_GREEDY, next := 3, left := 1, right := 65535 } := by
    simpa using hG
  simp only [hG']
  have h31 : ¬ ((3 : Int) = -1) := by decide
  simp only [ne_eq, h31, not_false_eq_true, if_true]
  rw [regex_match_chain]
  simp only [h3, Outcome.bind_ok]
  simp

/-- C6. The pattern `c*c` of an ordinary character `c` compiles, and the
compiled program matches no NUL-terminated text of at most 65535
characters. -/
theorem star_then_same_char_never_matches (c : Int) (hc : Ordinary c) (t : List Int)
    (ht : ∀ x ∈ t, x ≠ 0) (hlen : t.length ≤ 65535) :
    ∃ regex, CompilesTo [c, 42, c] regex ∧ MatchIs regex (cstring t) false :=
  ⟨star_char_program c, fun _ => ⟨3, fun fuel h => compile_star_char c hc fuel h⟩,
    ⟨t.length + 3, fun fuel h => match_star_char c hc.1 t ht hlen fuel h⟩⟩

/-- A witness of C6: the pattern "a*a" on the text "aaa". -/
theorem star_then_same_char_never_matches_witness :
    Ordinary 97 ∧ (∀ x ∈ ([97, 97, 97] : List Int), x ≠ 0) ∧
      ([97, 97, 97] : List Int).length ≤ 65535 ∧
      ∃ regex, CompilesTo [97, 42, 97] regex ∧ MatchIs regex (cstring [97, 97, 97]) false :=
  ⟨by decide, by decide, by decide,
    star_then_same_char_never_matches 97 (by decide) [97, 97, 97] (by decide) (by decide)⟩

/-! ## One or more characters of a set -/

theorem match_plus_pred (regex : Regex) (P : Int → Bool) (t : List Int) (ht : ∀ x ∈ t, x ≠ 0)
    (hlen : t.length ≤ 65535) (g : Nat) (sidx : Int) (k : Nat)
    (hroot : regex.nodes.get? 0 =
      some { type := REGEX_NODE_EXPR_NOCAPTURE, next := -1, left := g, right := -1 })
    (hG : NODE regex.nodes g =
      some { type := REGEX_NODE_GREEDY, next := -1, left := sidx, right := 131071 })
    (hsub : ∀ s, regex_match_node regex (cstring t) 0 t.length (k + 1) sidx s (-1) =
      (read (cstring t) s).bind fun c => .ok (if P c then some (s + 1) else none))
    (hP : t ≠ [] ∨ P 0 = false) (hfuel : t.length < k + 1) :
    regex_match (k + 3) regex (cstring t) = .ok (decide (t ≠ [] ∧ ∀ x ∈ t, P x = true)) := by
  have hg := match_node_greedy regex P [] t 0 k g (-1) _ hG rfl
    (fun s => by simpa using hsub s) hP hfuel
  have hle := takeWhile_length_le P t
  have hiff := takeWhile_length_eq_iff P t
  have e1 : ((131071 : Int) / 65536 % 65536).toNat = 1 := by decide
  have e2 : ((131071 : Int) % 65536).toNat = 65535 := by decide
  have hmin : min (t.takeWhile P).length 65535 = (t.takeWhile P).length := by omega
  simp only [List.nil_append, List.length_nil, Nat.zero_add, e1, e2, hmin, and_true] at hg
  rw [regex_match, strlen_cstring t ht]
  simp only [Outcome.bind_ok, regex_match_length]
  rw [match_node_root _ _ _ _ _ _ _ _ hroot rfl, regex_match_chain]
  simp only [hg, Outcome.bind_ok]
  have hne : t ≠ [] ↔ 1 ≤ t.length := by
    cases t with
    | nil => simp
    | cons x t => simp
  by_cases h1 : 1 ≤ (t.takeWhile P).length
  · simp only [h1, if_true, hG, ne_eq, not_true_eq_false, if_false, Outcome.bind_ok,
      Option.some.injEq]
    congr 1
    rw [decide_eq_decide]
    constructor
    · intro h; exact ⟨hne.mpr (by omega), hiff.mp h⟩
    · intro h; exact hiff.mpr h.2
  · simp only [h1, if_false, Outcome.bind_ok]
    congr 1
    rw [decide_eq_decide]
    constructor
    · intro h; exact absurd h (by simp)
    · intro h
      have := hne.mp h.1
      have := hiff.mpr h.2
      omega

/-! ## More fuel does not change an answer -/

theorem Outcome.le_refl {ε α : Type} (r : Outcome ε α) : Outcome.le r r := Or.inr rfl

theorem Outcome.timeout_le {ε α : Type} (r : Outcome ε α) : Outcome.le .timeout r := Or.inl rfl

theorem Outcome.andThen_mono {α β : Type} (r r' : Step α) (f f' : α → RegexBuilder → Step β)
    (h : Outcome.le r r') (hf : ∀ a b, Outcome.le (f a b) (f' a b)) :
    Outcome.le (r.andThen f) (r'.andThen f') := by
  rcases h with h | h
  · subst h; exact Or.inl rfl
  · subst h
    cases r with
    | ok ab => obtain ⟨a, b⟩ := ab; exact hf a b
    | error e => exact Or.inr rfl
    | timeout => exact Or.inl rfl

theorem Outcome.bind_mono {ε α β : Type} (r r' : Outcome ε α) (f f' : α → Outcome ε β)
    (h : Outcome.le r r') (hf : ∀ a, Outcome.le (f a) (f' a)) :
    Outcome.le (r.bind f) (r'.bind f') := by
  rcases h with h | h
  · subst h; exact Or.inl rfl
  · subst h
    cases r with
    | ok a => exact hf a
    | error e => exact Or.inr rfl
    | timeout => exact Or.inl rfl

theorem Outcome.ite_mono {ε α : Type} (c : Prop) [Decidable c] (x x' y y' : Outcome ε α)
    (hx : Outcome.le x x') (hy : Outcome.le y y') :
    Outcome.le (if c then x else y) (if c then x' else y') := by
  by_cases h : c
  · simpa [h] using hx
  · simpa [h] using hy

theorem regex_compile_class_body_mono (fuel : Nat) :
    ∀ (fuel' : Nat) (chain currentChar : Int) (b : RegexBuilder), fuel ≤ fuel' →
      Outcome.le (regex_compile_class_body fuel chain currentChar b)
        (regex_compile_class_body fuel' chain currentChar b) := by
  induction fuel with
  | zero => intro _ _ _ _ _; exact Outcome.timeout_le _
  | succ n ih =>
    intro fuel' chain currentChar b hle
    obtain ⟨m, rfl⟩ : ∃ m, fuel' = m + 1 := ⟨fuel' - 1, by omega⟩
    have ih' := fun c cc b => ih m c cc b (by omega)
    rw [regex_compile_class_body, regex_compile_class_body]
    repeat' first
      | exact Outcome.le_refl _
      | exact ih' _ _ _
      | apply Outcome.andThen_mono
      | apply Outcome.ite_mono
      | intro _

theorem regex_compile_class_mono (fuel fuel' : Nat) (b : RegexBuilder) (h : fuel ≤ fuel') :
    Outcome.le (regex_compile_class fuel b) (regex_compile_class fuel' b) := by
  unfold regex_compile_class
  repeat' first
    | exact Outcome.le_refl _
    | exact regex_compile_class_body_mono _ _ _ _ _ h
    | apply Outcome.andThen_mono
    | apply Outcome.ite_mono
    | intro _

theorem regex_compile_element_list_mono (env : StoreEnv) (fuel : Nat) :
    ∀ (fuel' : Nat) (b : RegexBuilder), fuel ≤ fuel' →
      Outcome.le (regex_compile_element env fuel b) (regex_compile_element env fuel' b) ∧
      Outcome.le (regex_compile_list env fuel b) (regex_compile_list env fuel' b) := by
  induction fuel with
  | zero =>
    intro _ _ _
    exact ⟨Outcome.timeout_le _, Outcome.timeout_le _⟩
  | succ n ih =>
    intro fuel' b hle
    obtain ⟨m, rfl⟩ : ∃ m, fuel' = m + 1 := ⟨fuel' - 1, by omega⟩
    have ihe := fun b => (ih m b (by omega)).1
    have ihl := fun b => (ih m b (by omega)).2
    have hcl := fun b => regex_compile_class_mono n m b (by omega)
    constructor
    · rw [regex_compile_element, regex_compile_element]
      repeat' first
        | exact Outcome.le_refl _
        | exact ihe _
        | exact ihl _
        | exact hcl _
        | apply Outcome.andThen_mono
        | apply Outcome.ite_mono
        | intro _
    · rw [regex_compile_list, regex_compile_list]
      repeat' first
        | exact Outcome.le_refl _
        | exact ihe _
        | exact ihl _
        | apply Outcome.andThen_mono
        | apply Outcome.ite_mono
        | intro _

theorem regex_compile_mono {env : StoreEnv} (fuel fuel' : Nat) (p : List Int) (h : fuel ≤ fuel') :
    Outcome.le (regex_compile env fuel p) (regex_compile env fuel' p) := by
  unfold regex_compile
  simp only [regex_alloc_node, Outcome.andThen_ok]
  have := (regex_compile_element_list_mono env fuel fuel'
    { nodes := [] ++ [{ type := REGEX_NODE_EXPR_NOCAPTURE, next := -1, left := -1, right := -1 }],
      matchCount := 0, regex := p, p := 0 } h).2
  rcases this with h | h
  · rw [h]; exact Or.inl rfl
  · rw [h]; exact Or.inr rfl

theorem CompilesIn_of_eval {env : StoreEnv} (p : List Int) (regex : Regex) (fuel : Nat)
    (h : regex_compile env fuel p = .ok regex) : CompilesIn env p regex := by
  refine ⟨fuel, fun fuel' hle => ?_⟩
  rcases regex_compile_mono fuel fuel' p hle with h' | h'
  · rw [h] at h'; exact absurd h' (by simp)
  · rw [← h', h]

theorem CompilesTo_of_eval (p : List Int) (regex : Regex) (fuel : Nat)
    (h : ∀ env, regex_compile env fuel p = .ok regex) : CompilesTo p regex :=
  fun env => CompilesIn_of_eval p regex fuel (h env)

theorem CompileFailsIn_of_eval {env : StoreEnv} (p : List Int) (e : RegexError) (fuel : Nat)
    (h : regex_compile env fuel p = .error e) : CompileFailsIn env p e := by
  refine ⟨fuel, fun fuel' hle => ?_⟩
  rcases regex_compile_mono fuel fuel' p hle with h' | h'
  · rw [h] at h'; exact absurd h' (by simp)
  · rw [← h', h]

theorem CompileFails_of_eval (p : List Int) (e : RegexError) (fuel : Nat)
    (h : ∀ env, regex_compile env fuel p = .error e) : CompileFails p e :=
  fun env => CompileFailsIn_of_eval p e fuel (h env)

theorem regex_match_class_mono (regex : Regex) (text : List Int) (str : Nat) (fuel : Nat) :
    ∀ (fuel' : Nat) (entries : Int), fuel ≤ fuel' →
      Outcome.le (regex_match_class regex text str fuel entries)
        (regex_match_class regex text str fuel' entries) := by
  induction fuel with
  | zero => intro _ _ _; exact Outcome.timeout_le _
  | succ n ih =>
    intro fuel' entries hle
    obtain ⟨m, rfl⟩ : ∃ m, fuel' = m + 1 := ⟨fuel' - 1, by omega⟩
    have ih' := fun e => ih m e (by omega)
    rw [regex_match_class, regex_match_class]
    cases NODE regex.nodes entries with
    | none => exact Outcome.le_refl _
    | some entry =>
      simp only []
      cases entry.type <;> simp only [] <;>
      repeat' first
        | exact Outcome.le_refl _
        | exact ih' _
        | apply Outcome.bind_mono
        | apply Outcome.ite_mono
        | intro _

theorem regex_match_greedy_mono (sub sub' : Nat → Outcome MatchFault (Option Nat))
    (hsub : ∀ s, Outcome.le (sub s) (sub' s)) (max eol : Nat) (fuel : Nat) :
    ∀ (fuel' count handled : Nat), fuel ≤ fuel' →
      Outcome.le (regex_match_greedy sub max eol fuel count handled)
        (regex_match_greedy sub' max eol fuel' count handled) := by
  induction fuel with
  | zero => intro _ _ _ _; exact Outcome.timeout_le _
  | succ n ih =>
    intro fuel' count handled hle
    obtain ⟨m, rfl⟩ : ∃ m, fuel' = m + 1 := ⟨fuel' - 1, by omega⟩
    have ih' := fun c h => ih m c h (by omega)
    rw [regex_match_greedy, regex_match_greedy]
    apply Outcome.ite_mono
    · apply Outcome.bind_mono _ _ _ _ (hsub _)
      intro remaining
      cases remaining with
      | none => exact Outcome.le_refl _
      | some r =>
        simp only []
        apply Outcome.ite_mono
        · exact Outcome.le_refl _
        · exact ih' _ _
    · exact Outcome.le_refl _

theorem regex_match_chain_mono (regex : Regex)
    (sub sub' : Int → Nat → Outcome MatchFault (Option Nat))
    (hsub : ∀ i s, Outcome.le (sub i s) (sub' i s)) (fuel : Nat) :
    ∀ (fuel' : Nat) (temp : Int) (remaining : Nat), fuel ≤ fuel' →
      Outcome.le (regex_match_chain regex sub fuel temp remaining)
        (regex_match_chain regex sub' fuel' temp remaining) := by
  induction fuel with
  | zero => intro _ _ _ _; exact Outcome.timeout_le _
  | succ n ih =>
    intro fuel' temp remaining hle
    obtain ⟨m, rfl⟩ : ∃ m, fuel' = m + 1 := ⟨fuel' - 1, by omega⟩
    have ih' := fun t r => ih m t r (by omega)
    rw [regex_match_chain, regex_match_chain]
    apply Outcome.bind_mono _ _ _ _ (hsub _ _)
    intro r
    cases r with
    | none => exact Outcome.le_refl _
    | some r =>
      simp only []
      cases NODE regex.nodes temp with
      | none => exact Outcome.le_refl _
      | some tempNode =>
        simp only []
        apply Outcome.ite_mono
        · exact ih' _ _
        · exact Outcome.le_refl _

theorem regex_match_node_mono (regex : Regex) (text : List Int) (bol eol : Nat) (fuel : Nat) :
    ∀ (fuel' : Nat) (nodeIndex : Int) (str : Nat) (nx : Int), fuel ≤ fuel' →
      Outcome.le (regex_match_node regex text bol eol fuel nodeIndex str nx)
        (regex_match_node regex text bol eol fuel' nodeIndex str nx) := by
  induction fuel with
  | zero => intro _ _ _ _ _; exact Outcome.timeout_le _
  | succ n ih =>
    intro fuel' nodeIndex str nx hle
    obtain ⟨m, rfl⟩ : ∃ m, fuel' = m + 1 := ⟨fuel' - 1, by omega⟩
    have hnm : n ≤ m := by omega
    have ih' := fun i s x => ih m i s x hnm
    rw [regex_match_node, regex_match_node]
    apply Outcome.ite_mono
    · exact Outcome.le_refl _
    · cases NODE regex.nodes nodeIndex with
      | none => exact Outcome.le_refl _
      | some node =>
        simp only []
        cases node.type <;> simp only []
        all_goals first
          | exact Outcome.le_refl _
          | (apply Outcome.bind_mono
             · first
               | exact regex_match_greedy_mono _ _ (fun s => ih' _ _ _) _ _ _ _ _ _ hnm
               | exact regex_match_class_mono _ _ _ _ _ _ hnm
               | exact regex_match_chain_mono _ _ _ (fun i s => ih' _ _ _) _ _ _ _ hnm
             · intro r
               first
                 | exact Outcome.le_refl _
                 | (cases r with
                    | none => exact regex_match_chain_mono _ _ _ (fun i s => ih' _ _ _) _ _ _ _ hnm
                    | some r => exact Outcome.le_refl _))
          | exact regex_match_chain_mono _ _ _ (fun i s => ih' _ _ _) _ _ _ _ hnm

theorem regex_match_length_mono (fuel fuel' : Nat) (regex : Regex) (text : List Int) (n : Nat)
    (h : fuel ≤ fuel') :
    Outcome.le (regex_match_length fuel regex text n) (regex_match_length fuel' regex text n) :=
  Outcome.bind_mono _ _ _ _ (regex_match_node_mono regex text 0 n fuel fuel' 0 0 (-1) h)
    (fun _ => Outcome.le_refl _)

theorem regex_match_mono (fuel fuel' : Nat) (regex : Regex) (text : List Int) (h : fuel ≤ fuel') :
    Outcome.le (regex_match fuel regex text) (regex_match fuel' regex text) :=
  Outcome.bind_mono _ _ _ _ (Outcome.le_refl _)
    (fun n => regex_match_length_mono fuel fuel' regex text n h)

theorem MatchIs_of_eval (regex : Regex) (text : List Int) (b : Bool) (fuel : Nat)
    (h : regex_match fuel regex text = .ok b) : MatchIs regex text b := by
  refine ⟨fuel, fun fuel' hle => ?_⟩
  rcases regex_match_mono fuel fuel' regex text hle with h' | h'
  · rw [h] at h'; exact absurd h' (by simp)
  · rw [← h', h]

theorem MatchLengthIs_of_eval (regex : Regex) (text : List Int) (n : Nat) (b : Bool)
    (fuel : Nat) (h : regex_match_length fuel regex text n = .ok b) :
    MatchLengthIs regex text n b := by
  refine ⟨fuel, fun fuel' hle => ?_⟩
  rcases regex_match_length_mono fuel fuel' regex text n hle with h' | h'
  · rw [h] at h'; exact absurd h' (by simp)
  · rw [← h', h]

/-! ## C1 and C4: patterns of more than ten nodes -/

/-- C1, at the failing input.  The pattern "abcdefghij" of ten ordinary
characters compiles to 11 nodes, so the node array is reallocated while the
store of the root's `left` is pending.  When that store is lost the root keeps
`left = -1` and the compiled program does not match "abcdefghij"; when it
lands the program matches it. -/
theorem long_literal_pattern_rejects_itself :
    (∀ c ∈ ([97, 98, 99, 100, 101, 102, 103, 104, 105, 106] : List Int), Ordinary c) ∧
    (∃ regex, CompilesIn (fun _ => false) [97, 98, 99, 100, 101, 102, 103, 104, 105, 106] regex ∧
      regex.nodes.length = 11 ∧
      regex.nodes[0]? = some (RegexNode.mk REGEX_NODE_EXPR_NOCAPTURE (-1) (-1) (-1)) ∧
      MatchIs regex (cstring [97, 98, 99, 100, 101, 102, 103, 104, 105, 106]) false) ∧
    (∃ regex, CompilesIn (fun _ => true) [97, 98, 99, 100, 101, 102, 103, 104, 105, 106] regex ∧
      MatchIs regex (cstring [97, 98, 99, 100, 101, 102, 103, 104, 105, 106]) true) :=
  ⟨by decide,
    ⟨_, CompilesIn_of_eval _ _ 12 rfl, rfl, rfl, MatchIs_of_eval _ _ _ 20 (by decide)⟩,
    ⟨_, CompilesIn_of_eval _ _ 12 rfl, MatchIs_of_eval _ _ _ 20 (by decide)⟩⟩

/-- The alternation "abcdefg|hijk" compiles to 13 nodes; when the pending stores
of the root's `left` and of the alternation's `right` are lost, the compiled
program matches neither "abcdefg" nor "hijk". -/
theorem long_alternation_matches_neither :
    ∃ regex,
      CompilesIn (fun _ => false)
        ([97, 98, 99, 100, 101, 102, 103] ++ 124 :: [104, 105, 106, 107]) regex ∧
      regex.nodes.length = 13 ∧
      MatchIs regex (cstring [97, 98, 99, 100, 101, 102, 103]) false ∧
      MatchIs regex (cstring [104, 105, 106, 107]) false :=
  ⟨_, CompilesIn_of_eval _ _ 15 rfl, rfl, MatchIs_of_eval _ _ _ 20 (by decide),
    MatchIs_of_eval _ _ _ 20 (by decide)⟩

/-! ## C7: classes and inverted classes -/

theorem compile_lower_plus :
    CompilesTo [91, 97, 45, 122, 93, 43] (range_plus_program REGEX_NODE_CLASS 97 122) :=
  CompilesTo_of_eval _ _ 8 (fun _ => rfl)

theorem compile_nondigit_plus :
    CompilesTo [91, 94, 48, 45, 57, 93, 43] (range_plus_program REGEX_NODE_CLASS_INVERSE 48 57) :=
  CompilesTo_of_eval _ _ 8 (fun _ => rfl)

theorem match_node_class_range (lo hi : Int) (text : List Int) (bol eol k s : Nat) :
    regex_match_node (range_plus_program REGEX_NODE_CLASS lo hi) text bol eol (k + 2) 1 s (-1) =
      (read text s).bind fun c =>
        .ok (if (fun x => decide (lo ≤ x ∧ x ≤ hi)) c then some (s + 1) else none) := by
  rw [regex_match_node]
  cases hr : read text s with
  | ok c =>
    by_cases h : lo ≤ c ∧ c ≤ hi <;>
    simp [NODE, range_plus_program, regex_match_class, hr, h]
  | error e => simp [NODE, range_plus_program, regex_match_class, hr]
  | timeout => simp [NODE, range_plus_program, regex_match_class, hr]

theorem match_node_class_inverse_range (lo hi : Int) (text : List Int) (bol eol k s : Nat) :
    regex_match_node (range_plus_program REGEX_NODE_CLASS_INVERSE lo hi) text bol eol (k + 2) 1 s
        (-1) =
      (read text s).bind fun c =>
        .ok (if (fun x => decide (¬ (lo ≤ x ∧ x ≤ hi))) c then some (s + 1) else none) := by
  rw [regex_match_node]
  cases hr : read text s with
  | ok c =>
    by_cases h : lo ≤ c ∧ c ≤ hi
    · have h1 : ¬ (c < lo ∨ hi < c) := by omega
      simp [NODE, range_plus_program, regex_match_class, hr, h, h1]
    · have h1 : c < lo ∨ hi < c := by omega
      have h2 : lo ≤ c → hi < c := by omega
      simp [NODE, range_plus_program, regex_match_class, hr, h, h1, h2]
  | error e => simp [NODE, range_plus_program, regex_match_class, hr]
  | timeout => simp [NODE, range_plus_program, regex_match_class, hr]

/-- C7. The patterns "[a-z]+" and "[^0-9]+" compile; on a NUL-terminated text
of at most 65535 characters the first program matches exactly when the text is
non-empty and all its characters lie in 'a'..'z', the second exactly when the
text is non-empty and none of its characters lies in '0'..'9'. -/
theorem class_plus_selects_by_membership (t : List Int) (ht : ∀ x ∈ t, x ≠ 0)
    (hlen : t.length ≤ 65535) :
    (∃ regex, CompilesTo [91, 97, 45, 122, 93, 43] regex ∧
      MatchIs regex (cstring t) (decide (t ≠ [] ∧ ∀ c ∈ t, 97 ≤ c ∧ c ≤ 122))) ∧
    (∃ regex, CompilesTo [91, 94, 48, 45, 57, 93, 43] regex ∧
      MatchIs regex (cstring t) (decide (t ≠ [] ∧ ∀ c ∈ t, ¬ (48 ≤ c ∧ c ≤ 57)))) := by
  constructor
  · refine ⟨_, compile_lower_plus, t.length + 4, fun fuel h => ?_⟩
    obtain ⟨k, rfl⟩ : ∃ k, fuel = k + 4 := ⟨fuel - 4, by omega⟩
    have := match_plus_pred (range_plus_program REGEX_NODE_CLASS 97 122)
      (fun x => decide (97 ≤ x ∧ x ≤ 122)) t ht hlen 3 1 (k + 1) rfl
      (by simp [NODE, range_plus_program])
      (fun s => match_node_class_range 97 122 (cstring t) 0 t.length k s)
      (Or.inr (by decide)) (by omega)
    rw [show k + 4 = k + 1 + 3 from rfl, this]
    simp only [decide_eq_true_eq]
  · by_cases hnil : t = []
    · subst hnil
      refine ⟨_, compile_nondigit_plus, ?_⟩
      exact MatchIs_of_eval _ _ _ 8 (by decide)
    · refine ⟨_, compile_nondigit_plus, t.length + 4, fun fuel h => ?_⟩
      obtain ⟨k, rfl⟩ : ∃ k, fuel = k + 4 := ⟨fuel - 4, by omega⟩
      have := match_plus_pred (range_plus_program REGEX_NODE_CLASS_INVERSE 48 57)
        (fun x => decide (¬ (48 ≤ x ∧ x ≤ 57))) t ht hlen 3 1 (k + 1) rfl
        (by simp [NODE, range_plus_program])
        (fun s => match_node_class_inverse_range 48 57 (cstring t) 0 t.length k s)
        (Or.inl hnil) (by omega)
      rw [show k + 4 = k + 1 + 3 from rfl, this]
      simp only [decide_eq_true_eq]

/-- A witness of C7: the text "hello". -/
theorem class_plus_selects_by_membership_witness :
    (∀ x ∈ ([104, 101, 108, 108, 111] : List Int), x ≠ 0) ∧
    ([104, 101, 108, 108, 111] : List Int).length ≤ 65535 ∧
    ((∃ regex, CompilesTo [91, 97, 45, 122, 93, 43] regex ∧
      MatchIs regex (cstring [104, 101, 108, 108, 111])
        (decide (([104, 101, 108, 108, 111] : List Int) ≠ [] ∧
          ∀ c ∈ ([104, 101, 108, 108, 111] : List Int), 97 ≤ c ∧ c ≤ 122))) ∧
    (∃ regex, CompilesTo [91, 94, 48, 45, 57, 93, 43] regex ∧
      MatchIs regex (cstring [104, 101, 108, 108, 111])
        (decide (([104, 101, 108, 108, 111] : List Int) ≠ [] ∧
          ∀ c ∈ ([104, 101, 108, 108, 111] : List Int), ¬ (48 ≤ c ∧ c ≤ 57))))) :=
  ⟨by decide, by decide,
    class_plus_selects_by_membership [104, 101, 108, 108, 111] (by decide) (by decide)⟩

/-! ## C8: the dash inside a class -/

theorem compile_trailing_dash : CompilesTo [91, 97, 45, 93] trailing_dash_program :=
  CompilesTo_of_eval _ _ 8 (fun _ => rfl)

theorem compile_range_dash_digit :
    CompilesTo [91, 97, 45, 122, 45, 57, 93] range_dash_digit_program :=
  CompilesTo_of_eval _ _ 10 (fun _ => rfl)

theorem match_trailing_dash (t : List Int) (ht : ∀ x ∈ t, x ≠ 0) (fuel : Nat)
    (hfuel : 6 ≤ fuel) :
    regex_match fuel trailing_dash_program (cstring t) = .ok (decide (t = [97] ∨ t = [45])) := by
  obtain ⟨k, rfl⟩ : ∃ k, fuel = k + 6 := ⟨fuel - 6, by omega⟩
  rw [regex_match, strlen_cstring t ht]
  simp only [Outcome.bind_ok, regex_match_length]
  cases t with
  | nil =>
    simp [regex_match_node, regex_match_chain, regex_match_class, NODE, read, cstring,
      trailing_dash_program]
  | cons x t =>
    by_cases h1 : x = 45
    · subst h1
      cases t <;>
      simp [regex_match_node, regex_match_chain, regex_match_class, NODE, read, cstring,
        trailing_dash_program]
    · by_cases h2 : x = 97
      · subst h2
        cases t <;>
        simp [regex_match_node, regex_match_chain, regex_match_class, NODE, read, cstring,
          trailing_dash_program]
      · simp [regex_match_node, regex_match_chain, regex_match_class, NODE, read, cstring,
          trailing_dash_program, h1, h2]

theorem match_range_dash_digit (t : List Int) (ht : ∀ x ∈ t, x ≠ 0) (fuel : Nat)
    (hfuel : 7 ≤ fuel) :
    regex_match fuel range_dash_digit_program (cstring t) =
      .ok (decide (t.length = 1 ∧ ∀ c ∈ t, (97 ≤ c ∧ c ≤ 122) ∨ c = 45 ∨ c = 57)) := by
  obtain ⟨k, rfl⟩ : ∃ k, fuel = k + 7 := ⟨fuel - 7, by omega⟩
  rw [regex_match, strlen_cstring t ht]
  simp only [Outcome.bind_ok, regex_match_length]
  cases t with
  | nil =>
    simp [regex_match_node, regex_match_chain, regex_match_class, NODE, read, cstring,
      range_dash_digit_program]
  | cons x t =>
    by_cases h1 : x = 57
    · subst h1
      cases t <;>
      simp [regex_match_node, regex_match_chain, regex_match_class, NODE, read, cstring,
        range_dash_digit_program]
    · by_cases h2 : x = 45
      · subst h2
        cases t <;>
        simp [regex_match_node, regex_match_chain, regex_match_class, NODE, read, cstring,
          range_dash_digit_program]
      · by_cases h3 : 97 ≤ x ∧ x ≤ 122
        · cases t <;>
          simp [regex_match_node, regex_match_chain, regex_match_class, NODE, read, cstring,
            range_dash_digit_program, h1, h2, h3]
        · have h4 : ¬ (97 ≤ x ∧ x ≤ 122 ∨ x = 45 ∨ x = 57) := by
            rintro (h | h | h)
            · exact h3 h
            · exact h2 h
            · exact h1 h
          have h5 : 97 ≤ x → 122 < x := by omega
          simp [regex_match_node, regex_match_chain, regex_match_class, NODE, read, cstring,
            range_dash_digit_program, h1, h2, h3, h4, h5]

/-- C8. "[a-]" compiles to a class of the literals 'a' and '-', and matches a
NUL-terminated text exactly when it is "a" or "-"; "[a-z-9]" compiles to a
class of the range 'a'..'z' and the literals '-' and '9', and matches a
NUL-terminated text exactly when it is one character of that range or '-' or
'9'. -/
theorem class_dash_is_literal_unless_range (t : List Int) (ht : ∀ x ∈ t, x ≠ 0) :
    CompilesTo [91, 97, 45, 93] trailing_dash_program ∧
    MatchIs trailing_dash_program (cstring t) (decide (t = [97] ∨ t = [45])) ∧
    CompilesTo [91, 97, 45, 122, 45, 57, 93] range_dash_digit_program ∧
    MatchIs range_dash_digit_program (cstring t)
      (decide (t.length = 1 ∧ ∀ c ∈ t, (97 ≤ c ∧ c ≤ 122) ∨ c = 45 ∨ c = 57)) :=
  ⟨compile_trailing_dash, ⟨6, fun fuel h => match_trailing_dash t ht fuel h⟩,
    compile_range_dash_digit, ⟨7, fun fuel h => match_range_dash_digit t ht fuel h⟩⟩

/-- A witness of C8: the text "-". -/
theorem class_dash_is_literal_unless_range_witness :
    (∀ x ∈ ([45] : List Int), x ≠ 0) ∧
    CompilesTo [91, 97, 45, 93] trailing_dash_program ∧
    MatchIs trailing_dash_program (cstring [45])
      (decide (([45] : List Int) = [97] ∨ ([45] : List Int) = [45])) ∧
    CompilesTo [91, 97, 45, 122, 45, 57, 93] range_dash_digit_program ∧
    MatchIs range_dash_digit_program (cstring [45])
      (decide (([45] : List Int).length = 1 ∧
        ∀ c ∈ ([45] : List Int), (97 ≤ c ∧ c ≤ 122) ∨ c = 45 ∨ c = 57)) :=
  ⟨by decide, class_dash_is_literal_unless_range [45] (by decide)⟩

/-! ## C9: anchors -/

theorem compile_anchored_char {env : StoreEnv}
    (c : Int) (hc : Ordinary c) (fuel : Nat) (hfuel : 3 ≤ fuel) :
    regex_compile env fuel [94, c, 36] = .ok (anchored_char_program c) := by
  obtain ⟨k, rfl⟩ : ∃ k, fuel = k + 3 := ⟨fuel - 3, by omega⟩
  obtain ⟨h0, h1, h2, h3, h4, h5, h6, h7, h8, h9, h10, h11, h12⟩ := hc
  simp [regex_compile, RegexBuilder.store, nodesAllocated,
    regex_compile_list, regex_compile_element, regex_char_test,
    regex_char_fetch, regex_char_test_and_fetch, regex_alloc_node, regex_node_value,
    regex_compile_char, regex_compile_quantifier, RegexBuilder.update, NODE,
    anchored_char_program, *]

theorem match_anchored_char (c : Int) (hc : c ≠ 0) (t : List Int) (ht : ∀ x ∈ t, x ≠ 0)
    (fuel : Nat) (hfuel : 5 ≤ fuel) :
    regex_match fuel (anchored_char_program c) (cstring t) = .ok (decide (t = [c])) := by
  obtain ⟨k, rfl⟩ : ∃ k, fuel = k + 5 := ⟨fuel - 5, by omega⟩
  rw [regex_match, strlen_cstring t ht]
  simp only [Outcome.bind_ok, regex_match_length]
  cases t with
  | nil =>
    simp [regex_match_node, regex_match_chain, NODE, read, cstring, anchored_char_program,
      Ne.symm hc]
  | cons x t =>
    by_cases h1 : x = c
    · subst h1
      cases t <;>
      simp [regex_match_node, regex_match_chain, NODE, read, cstring, anchored_char_program]
    · simp [regex_match_node, regex_match_chain, NODE, read, cstring, anchored_char_program, h1]

/-- C9. The pattern `^c$` of an ordinary character `c` compiles, and the
compiled program matches a NUL-terminated text exactly when the text is the
one character `c`. -/
theorem anchored_char_matches_single (c : Int) (hc : Ordinary c) (t : List Int)
    (ht : ∀ x ∈ t, x ≠ 0) :
    ∃ regex, CompilesTo [94, c, 36] regex ∧ MatchIs regex (cstring t) (decide (t = [c])) :=
  ⟨anchored_char_program c, fun _ => ⟨3, fun fuel h => compile_anchored_char c hc fuel h⟩,
    ⟨5, fun fuel h => match_anchored_char c hc.1 t ht fuel h⟩⟩

/-- A witness of C9: the pattern "^a$" on the text "ab". -/
theorem anchored_char_matches_single_witness :
    Ordinary 97 ∧ (∀ x ∈ ([97, 98] : List Int), x ≠ 0) ∧
      ∃ regex, CompilesTo [94, 97, 36] regex ∧
        MatchIs regex (cstring [97, 98]) (decide (([97, 98] : List Int) = [97])) :=
  ⟨by decide, by decide, anchored_char_matches_single 97 (by decide) [97, 98] (by decide)⟩

/-! ## C10: the unterminated group -/

theorem regex_char_test_update (b : RegexBuilder) (i : Int) (f : RegexNode → RegexNode) :
    regex_char_test (b.update i f) = regex_char_test b := by
  unfold RegexBuilder.update
  cases NODE b.nodes i <;> rfl

theorem CompileFailsIn_unique {env : StoreEnv} (p : List Int) (e1 e2 : RegexError)
    (h1 : CompileFailsIn env p e1) (h2 : CompileFailsIn env p e2) : e1 = e2 := by
  obtain ⟨n1, h1⟩ := h1
  obtain ⟨n2, h2⟩ := h2
  have k1 := h1 (max n1 n2) (le_max_left _ _)
  have k2 := h2 (max n1 n2) (le_max_right _ _)
  rw [k1] at k2
  exact Outcome.error.inj k2

theorem CompileFails_unique (p : List Int) (e1 e2 : RegexError) (h1 : CompileFails p e1)
    (h2 : CompileFails p e2) : e1 = e2 :=
  CompileFailsIn_unique p e1 e2 (h1 (fun _ => true)) (h2 (fun _ => true))

theorem compile_open_group {env : StoreEnv}
    (p : List Int) (hne : p ≠ []) (hord : ∀ c ∈ p, Ordinary c)
    (fuel : Nat) (hfuel : p.length + 3 ≤ fuel) :
    regex_compile env fuel (40 :: p) = .error .end_of_regex := by
  obtain ⟨k, rfl⟩ : ∃ k, fuel = k + 2 := ⟨fuel - 2, by omega⟩
  obtain ⟨c, rest, hpc⟩ : ∃ c rest, p = c :: rest := by
    cases p with
    | nil => exact absurd rfl hne
    | cons c rest => exact ⟨c, rest, rfl⟩
  have hc := hord c (by simp [hpc])
  have h63 : c ≠ 63 := hc.2.2.2.2.2.2.2.2.2.2.2.1
  have hread : ∀ i, i < p.length → (40 :: p).getD (1 + i) 0 = p.getD i 0 := by
    intro i _
    simp [Nat.add_comm 1 i]
  have hstop : (40 :: p).getD (1 + p.length) 0 = 0 := by
    simp [Nat.add_comm 1]
  have h1 : (40 :: p).getD 1 0 = c := by simp [hpc]
  unfold regex_compile
  simp only [regex_alloc_node, Outcome.andThen_ok]
  rw [regex_compile_list]
  simp only [regex_char_test_mk, List.getD_cons_zero, show ¬ ((40 : Int) = 0) by decide,
    if_false, regex_char_test_and_fetch, SYMBOL_BEGIN, show ¬ ((40 : Int) = 94) by decide,
    Outcome.andThen_ok, Bool.false_eq_true]
  rw [regex_compile_element]
  simp only [regex_char_test_mk, List.getD_cons_zero, SYMBOL_END, SYMBOL_ANY, CH_LBRACKET,
    CH_LPAREN, show ¬ ((40 : Int) = 36) by decide, show ¬ ((40 : Int) = 46) by decide,
    show ¬ ((40 : Int) = 91) by decide, show ¬ ((40 : Int) = 0) by decide, if_false, if_true,
    regex_char_fetch, Outcome.andThen_ok, regex_char_test_and_fetch, SYMBOL_ZEROONE,
    Nat.zero_add, h1, h63, Bool.false_eq_true, regex_alloc_node]
  rw [compile_list_literal p k _ hne hord (by omega) hread (Or.inl hstop)]
  simp only [Outcome.andThen_ok, regex_char_test_store, regex_char_test_mk, hstop, if_true,
    Outcome.andThen_error]

/-- C10, at the failing input: "(a" does not compile, but the error raised is
"end of regex", not "open expr".  The check that raises "open expr" follows the
`regex_char_fetch` of the closing character, whose own guard fires first at the
end of the pattern; "open expr" is raised only when another character follows
the body of the group, as in "(a**". -/
theorem unterminated_group_counterexample :
    CompileFails [40, 97] RegexError.end_of_regex ∧
    (∀ env, ¬ CompileFailsIn env [40, 97] RegexError.open_expr) ∧
    CompileFails [40, 97, 42, 42] RegexError.open_expr ∧
    RegexError.end_of_regex.message = "end of regex" ∧
    RegexError.open_expr.message = "open expr" := by
  have h : CompileFails [40, 97] RegexError.end_of_regex :=
    CompileFails_of_eval _ _ 5 (fun _ => rfl)
  refine ⟨h, fun env h2 => ?_, CompileFails_of_eval _ _ 5 (fun _ => rfl), rfl, rfl⟩
  have := CompileFailsIn_unique _ _ _ (h env) h2
  exact absurd this (by decide)

/-- What the code does on every unterminated group of ordinary characters: for
a non-empty run `p` of ordinary characters the pattern `(p` does not compile and
the error raised is "end of regex". -/
theorem unterminated_group_is_end_of_regex (p : List Int) (hne : p ≠ [])
    (hord : ∀ c ∈ p, Ordinary c) :
    CompileFails (40 :: p) RegexError.end_of_regex ∧
      RegexError.end_of_regex.message = "end of regex" :=
  ⟨fun _ => ⟨p.length + 3, fun fuel h => compile_open_group p hne hord fuel h⟩, rfl⟩

/-! ## C11 and C12: malformed introducers, the smoke test -/
theorem compile_empty_class {env : StoreEnv} (s : List Int) :
    regex_compile env 3 (91 :: 93 :: s) = .error .empty_class := by
  simp [regex_compile, RegexBuilder.store, nodesAllocated,
    regex_compile_list, regex_compile_element, regex_compile_class,
    regex_char_test, regex_char_fetch, regex_char_test_and_fetch, regex_alloc_node]

theorem compile_empty_inverse_class {env : StoreEnv} (s : List Int) :
    regex_compile env 3 (91 :: 94 :: 93 :: s) = .error .empty_class := by
  simp [regex_compile, RegexBuilder.store, nodesAllocated,
    regex_compile_list, regex_compile_element, regex_compile_class,
    regex_char_test, regex_char_fetch, regex_char_test_and_fetch, regex_alloc_node]

theorem compile_invalid_group {env : StoreEnv} (x : Int) (s : List Int) (h0 : x ≠ 0) (h1 : x ≠ 58) :
    regex_compile env 3 (40 :: 63 :: x :: s) = .error .invalid_group := by
  simp [regex_compile, RegexBuilder.store, nodesAllocated,
    regex_compile_list, regex_compile_element,
    regex_char_test, regex_char_fetch, regex_char_test_and_fetch, regex_alloc_node, h0, h1]

theorem compile_invalid_range {env : StoreEnv}
    (lo hi : Int) (s : List Int) (hlo0 : lo ≠ 0) (hlo1 : lo ≠ 93)
    (hlo2 : lo ≠ 94) (hhi0 : hi ≠ 0) (hhi1 : hi ≠ 93) (h : hi < lo) :
    regex_compile env 5 (91 :: lo :: 45 :: hi :: s) = .error .invalid_range := by
  simp [regex_compile, RegexBuilder.store, nodesAllocated,
    regex_compile_list, regex_compile_element, regex_compile_class,
    regex_compile_class_body, link_chain, regex_node_value, RegexBuilder.update, NODE,
    regex_char_test, regex_char_fetch, regex_char_test_and_fetch, regex_alloc_node,
    hlo0, hlo1, hlo2, hhi0, hhi1, h]

/-- C11. Whatever string `s` follows: "[]" and "[^]" fail with "empty class";
"(?" followed by a character other than ':' and NUL fails with "invalid
group"; a class starting with a range `lo-hi` of 7-bit characters with
`lo > hi`, `lo` not ']' or '^' and `hi` not ']' or NUL, fails with "invalid
range".  No program is returned in any of these cases. -/
theorem malformed_introducers_rejected (s : List Int) (x lo hi : Int)
    (hx : x ≠ 58 ∧ x ≠ 0) (_hlo : 0 ≤ lo ∧ lo ≤ 127) (hhi : 0 ≤ hi ∧ hi ≤ 127) (hgt : lo > hi)
    (hlo' : lo ≠ 93 ∧ lo ≠ 94) (hhi' : hi ≠ 93 ∧ hi ≠ 0) :
    CompileFails (91 :: 93 :: s) RegexError.empty_class ∧
    CompileFails (91 :: 94 :: 93 :: s) RegexError.empty_class ∧
    CompileFails (40 :: 63 :: x :: s) RegexError.invalid_group ∧
    CompileFails (91 :: lo :: 45 :: hi :: s) RegexError.invalid_range ∧
    RegexError.empty_class.message = "empty class" ∧
    RegexError.invalid_group.message = "invalid group" ∧
    RegexError.invalid_range.message = "invalid range" :=
  ⟨CompileFails_of_eval _ _ 3 (fun _ => compile_empty_class s),
    CompileFails_of_eval _ _ 3 (fun _ => compile_empty_inverse_class s),
    CompileFails_of_eval _ _ 3 (fun _ => compile_invalid_group x s hx.2 hx.1),
    CompileFails_of_eval _ _ 5
      (fun _ => compile_invalid_range lo hi s (by omega) hlo'.1 hlo'.2 hhi'.2 hhi'.1 hgt),
    rfl, rfl, rfl⟩

/-- A witness of C11: `s` is "bc", `x` is 'x', the range is "z-a". -/
theorem malformed_introducers_rejected_witness :
    ((120 : Int) ≠ 58 ∧ (120 : Int) ≠ 0) ∧ ((0 : Int) ≤ 122 ∧ (122 : Int) ≤ 127) ∧
    ((0 : Int) ≤ 97 ∧ (97 : Int) ≤ 127) ∧ (122 : Int) > 97 ∧
    ((122 : Int) ≠ 93 ∧ (122 : Int) ≠ 94) ∧ ((97 : Int) ≠ 93 ∧ (97 : Int) ≠ 0) ∧
    (CompileFails (91 :: 93 :: [98, 99]) RegexError.empty_class ∧
    CompileFails (91 :: 94 :: 93 :: [98, 99]) RegexError.empty_class ∧
    CompileFails (40 :: 63 :: 120 :: [98, 99]) RegexError.invalid_group ∧
    CompileFails (91 :: 122 :: 45 :: 97 :: [98, 99]) RegexError.invalid_range ∧
    RegexError.empty_class.message = "empty class" ∧
    RegexError.invalid_group.message = "invalid group" ∧
    RegexError.invalid_range.message = "invalid range") :=
  ⟨by decide, by decide, by decide, by decide, by decide, by decide,
    malformed_introducers_rejected [98, 99] 120 122 97 (by decide) (by decide) (by decide)
      (by decide) (by decide) (by decide)⟩

/-- C12, at the failing input.  The pattern of the smoke test of the source,
`[a-zA-Z0-9._%+-]+@(?:[a-zA-Z0-9-]+\.)+[a-zA-Z]` with one backslash,
compiles to 24 nodes, so the node array is reallocated twice while the stores
of the root and of the group are pending.  When the pending stores are lost the
compiled program does not match "abbbb@c.d"; when they land it does. -/
theorem smoke_test_depends_on_stores :
    (∃ regex,
      CompilesIn (fun _ => false)
        [91, 97, 45, 122, 65, 45, 90, 48, 45, 57, 46, 95, 37, 43, 45, 93, 43, 64, 40, 63,
          58, 91, 97, 45, 122, 65, 45, 90, 48, 45, 57, 45, 93, 43, 92, 46, 41, 43, 91, 97, 45,
          122, 65, 45, 90, 93] regex ∧
      regex.nodes.length = 24 ∧
      MatchIs regex (cstring [97, 98, 98, 98, 98, 64, 99, 46, 100]) false) ∧
    (∃ regex,
      CompilesIn (fun _ => true)
        [91, 97, 45, 122, 65, 45, 90, 48, 45, 57, 46, 95, 37, 43, 45, 93, 43, 64, 40, 63,
          58, 91, 97, 45, 122, 65, 45, 90, 48, 45, 57, 45, 93, 43, 92, 46, 41, 43, 91, 97, 45,
          122, 65, 45, 90, 93] regex ∧
      regex.nodes.length = 24 ∧
      MatchIs regex (cstring [97, 98, 98, 98, 98, 64, 99, 46, 100]) true) :=
  ⟨⟨_, CompilesIn_of_eval _ _ 60 rfl, rfl, MatchIs_of_eval _ _ _ 100 (by decide)⟩,
    ⟨_, CompilesIn_of_eval _ _ 60 rfl, rfl, MatchIs_of_eval _ _ _ 100 (by decide)⟩⟩


/-! ## C13: escapes -/

theorem escape_value_ne_zero (x : Int) (hx : x ≠ 0) : escape_value x ≠ 0 := by
  unfold escape_value
  split_ifs <;> first | decide | exact hx

theorem compile_escape {env : StoreEnv} (x : Int) (hx : x ≠ 0) :
    regex_compile env 3 [92, x] = .ok (literal_program [escape_value x]) := by
  by_cases h1 : x = 110
  · subst h1; rfl
  by_cases h2 : x = 116
  · subst h2; rfl
  by_cases h3 : x = 114
  · subst h3; rfl
  by_cases h4 : x = 118
  · subst h4; rfl
  simp [regex_compile, RegexBuilder.store, nodesAllocated,
    regex_compile_list, regex_compile_element, regex_char_test,
    regex_char_fetch, regex_char_test_and_fetch, regex_alloc_node, regex_node_value,
    regex_compile_char, regex_compile_quantifier, RegexBuilder.update, NODE,
    literal_program, literal_chain, escape_value, hx, h1, h2, h3, h4]

theorem match_literal_program_nonzero (p t : List Int) (hp : p ≠ []) (hnz : ∀ c ∈ p, c ≠ 0)
    (ht : ∀ c ∈ t, c ≠ 0) (fuel : Nat) (hfuel : p.length + 2 ≤ fuel) :
    regex_match fuel (literal_program p) (cstring t) = .ok (decide (t = p)) := by
  obtain ⟨k, rfl⟩ : ∃ k, fuel = k + 2 := ⟨fuel - 2, by omega⟩
  have hchain := match_chain_literal_at (literal_program p) 0 t.length k p
    [{ type := REGEX_NODE_EXPR_NOCAPTURE, next := -1, left := 1, right := -1 }] [] [] t (k + 1)
    1 0 (cstring t) hp hnz (by simp [literal_program]) (by omega) (by simp) (by simp) (by simp)
  rw [regex_match, strlen_cstring t ht]
  simp only [Outcome.bind_ok, regex_match_length]
  rw [match_node_root _ _ _ _ _ _ _
    { type := REGEX_NODE_EXPR_NOCAPTURE, next := -1, left := 1, right := -1 }
    (by simp [literal_program]) rfl]
  simp only [hchain, Outcome.bind_ok, Nat.zero_add]
  congr 1
  rw [decide_eq_decide]
  by_cases hpre : p <+: t
  · simp only [hpre, if_true, Option.some.injEq]
    exact prefix_length_eq_iff p t hpre
  · simp only [hpre, if_false]
    constructor
    · intro h; exact absurd h (by simp)
    · intro h; exact absurd (h ▸ List.prefix_refl p) hpre

theorem compile_char_escape_at_end (b : RegexBuilder) (h : regex_char_test b = 92)
    (hend : b.regex.getD (b.p + 1) 0 = 0) :
    regex_compile_char b = .error .end_of_regex := by
  simp only [regex_compile_char, regex_char_test_and_fetch, regex_char_fetch, h, SYMBOL_ESCAPE,
    if_true, show ¬ ((92 : Int) = 0) by decide, if_false, Outcome.andThen_ok, regex_char_test_mk,
    hend, Outcome.andThen_error]

theorem compile_element_literal_escape_at_end {env : StoreEnv} (lit : List Int) :
    ∀ (fuel : Nat) (b : RegexBuilder), (∀ c ∈ lit, Ordinary c) → lit.length < fuel →
      (∀ i, i < lit.length → b.regex.getD (b.p + i) 0 = lit.getD i 0) →
      b.regex.getD (b.p + lit.length) 0 = 92 →
      b.regex.getD (b.p + lit.length + 1) 0 = 0 →
      regex_compile_element env fuel b = .error .end_of_regex := by
  induction lit with
  | nil =>
    intro fuel b _ hfuel _ h92 h0
    obtain ⟨k, rfl⟩ : ∃ k, fuel = k + 1 := ⟨fuel - 1, by simp at hfuel; omega⟩
    have ht : regex_char_test b = 92 := by simpa [regex_char_test] using h92
    rw [regex_compile_element]
    simp only [ht, SYMBOL_END, SYMBOL_ANY, CH_LBRACKET, CH_LPAREN,
      show ¬ ((92 : Int) = 36) by decide, show ¬ ((92 : Int) = 46) by decide,
      show ¬ ((92 : Int) = 91) by decide, show ¬ ((92 : Int) = 40) by decide, if_false]
    rw [compile_char_escape_at_end b ht (by simpa using h0)]
    rfl
  | cons c rest ih =>
    intro fuel b hord hfuel hread h92 h0
    obtain ⟨k, rfl⟩ : ∃ k, fuel = k + 1 := ⟨fuel - 1, by simp at hfuel; omega⟩
    have hc := hord c (by simp)
    have hr0 : regex_char_test b = c := by simpa [regex_char_test] using hread 0 (by simp)
    have hnext : b.regex.getD (b.p + 1) 0 = 92 ∨ Ordinary (b.regex.getD (b.p + 1) 0) := by
      cases rest with
      | nil => left; simpa using h92
      | cons d rest =>
        right
        have := hread 1 (by simp)
        rw [this]
        exact hord d (by simp)
    have hq : b.regex.getD (b.p + 1) 0 ≠ 42 ∧ b.regex.getD (b.p + 1) 0 ≠ 43 ∧
        b.regex.getD (b.p + 1) 0 ≠ 63 ∧ b.regex.getD (b.p + 1) 0 ≠ 124 ∧
        b.regex.getD (b.p + 1) 0 ≠ 41 ∧ b.regex.getD (b.p + 1) 0 ≠ 0 := by
      rcases hnext with h | h
      · rw [h]; decide
      · obtain ⟨d0, d1, d2, d3, d4, d5, d6, d7, d8, d9, d10, d11, d12⟩ := h
        exact ⟨d9, d10, d11, d4, d6, d0⟩
    rw [compile_element_ordinary k b c hc hr0 hq.1 hq.2.1 hq.2.2.1]
    simp only []
    rw [if_pos ⟨hq.2.2.2.1, hq.2.2.2.2.1, hq.2.2.2.2.2⟩]
    rw [ih k _ (fun x hx => hord x (by simp [hx])) (by simp at hfuel ⊢; omega)
      (by
        intro i hi
        have := hread (i + 1) (by simp at hi ⊢; omega)
        simpa [Nat.add_assoc, Nat.add_comm 1 i] using this)
      (by simpa [Nat.add_assoc, Nat.add_comm 1] using h92)
      (by simpa [Nat.add_assoc, Nat.add_comm 1] using h0)]
    rfl

theorem compile_literal_escape_at_end {env : StoreEnv}
    (p : List Int) (hord : ∀ c ∈ p, Ordinary c) (fuel : Nat)
    (hfuel : p.length + 2 ≤ fuel) :
    regex_compile env fuel (p ++ [92]) = .error .end_of_regex := by
  obtain ⟨k, rfl⟩ : ∃ k, fuel = k + 1 := ⟨fuel - 1, by omega⟩
  have h0 : (p ++ [92]).getD 0 0 ≠ 0 ∧ (p ++ [92]).getD 0 0 ≠ 94 := by
    cases p with
    | nil => simp
    | cons c rest =>
      have := hord c (by simp)
      exact ⟨by simpa using this.1, by simpa using this.2.1⟩
  unfold regex_compile
  simp only [regex_alloc_node, Outcome.andThen_ok]
  rw [regex_compile_list]
  simp only [regex_char_test_mk, h0.1, h0.2, if_false, regex_char_test_and_fetch, SYMBOL_BEGIN,
    Outcome.andThen_ok, Bool.false_eq_true]
  rw [compile_element_literal_escape_at_end p k _ hord (by omega)
    (by intro i hi; simpa using getD_append_left_lt p [92] i hi)
    (by simp)
    (by simpa using getD_append_right_add p [92] 1)]
  rfl

/-- C13 as stated fails in its last clause: "a)\\" (with one backslash) ends in
a lone backslash and compiles, to the program of "a". -/
theorem lone_backslash_counterexample :
    CompilesTo [97, 41, 92] (literal_program [97]) ∧
    ∀ env, ¬ CompileFailsIn env [97, 41, 92] RegexError.end_of_regex := by
  have h : CompilesTo [97, 41, 92] (literal_program [97]) := CompilesTo_of_eval _ _ 3 (fun _ => rfl)
  refine ⟨h, ?_⟩
  rintro env ⟨n, hn⟩
  obtain ⟨m, hm⟩ := h env
  have e1 := hn (max n m) (le_max_left _ _)
  have e2 := hm (max n m) (le_max_right _ _)
  rw [e1] at e2
  exact absurd e2 (by simp)

/-- C13, amended. For a character `x` other than NUL the pattern of a backslash
followed by `x` compiles, and the compiled program matches a NUL-terminated
text exactly when the text is the one character `escape_value x`; the pattern
of a run of ordinary characters (possibly empty) followed by a backslash fails
with "end of regex", as does `regex_compile_char` wherever it is called at a
backslash that is the last character of the pattern. -/
theorem escape_denotes_one_character (x : Int) (hx : x ≠ 0) (t : List Int)
    (ht : ∀ c ∈ t, c ≠ 0) (p : List Int) (hord : ∀ c ∈ p, Ordinary c) :
    (∃ regex, CompilesTo [92, x] regex ∧
      MatchIs regex (cstring t) (decide (t = [escape_value x]))) ∧
    CompileFails (p ++ [92]) RegexError.end_of_regex ∧
    (∀ b : RegexBuilder, regex_char_test b = 92 → b.regex.getD (b.p + 1) 0 = 0 →
      regex_compile_char b = .error .end_of_regex) ∧
    RegexError.end_of_regex.message = "end of regex" :=
  ⟨⟨literal_program [escape_value x], CompilesTo_of_eval _ _ 3 (fun _ => compile_escape x hx),
      ⟨3, fun fuel h => match_literal_program_nonzero [escape_value x] t (by simp)
        (by intro c hc; rw [List.mem_singleton.mp hc]; exact escape_value_ne_zero x hx)
        ht fuel (by simpa using h)⟩⟩,
    fun _ => ⟨p.length + 2, fun fuel h => compile_literal_escape_at_end p hord fuel h⟩,
    fun b h hend => compile_char_escape_at_end b h hend, rfl⟩

/-- A witness of the amended C13: the escape of 'n' on the text of one newline,
and the pattern of one backslash. -/
theorem escape_denotes_one_character_witness :
    (110 : Int) ≠ 0 ∧ (∀ c ∈ ([10] : List Int), c ≠ 0) ∧ (∀ c ∈ ([] : List Int), Ordinary c) ∧
    ((∃ regex, CompilesTo [92, 110] regex ∧
      MatchIs regex (cstring [10]) (decide (([10] : List Int) = [escape_value 110]))) ∧
    CompileFails (([] : List Int) ++ [92]) RegexError.end_of_regex ∧
    (∀ b : RegexBuilder, regex_char_test b = 92 → b.regex.getD (b.p + 1) 0 = 0 →
      regex_compile_char b = .error .end_of_regex) ∧
    RegexError.end_of_regex.message = "end of regex") :=
  ⟨by decide, by decide, by decide,
    escape_denotes_one_character 110 (by decide) [10] (by decide) [] (by decide)⟩

/-! ## C18 and C19: the empty pattern, ignored trailing text -/

theorem match_empty_program (t : List Int) (ht : ∀ c ∈ t, c ≠ 0) (fuel : Nat) (h : 3 ≤ fuel) :
    regex_match fuel empty_program (cstring t) = .ok false := by
  obtain ⟨k, rfl⟩ : ∃ k, fuel = k + 3 := ⟨fuel - 3, by omega⟩
  rw [regex_match, strlen_cstring t ht]
  simp [regex_match_length, regex_match_node, regex_match_chain, NODE, empty_program]

/-- C18. The empty pattern compiles to the program of one node, the root
`REGEX_NODE_EXPR_NOCAPTURE` with `left = -1` and `next = -1`, with `matchCount`
0, and this program matches no NUL-terminated text, the empty text included. -/
theorem empty_pattern_matches_nothing (t : List Int) (ht : ∀ c ∈ t, c ≠ 0) :
    CompilesTo [] empty_program ∧
    empty_program.nodes =
      [{ type := REGEX_NODE_EXPR_NOCAPTURE, next := -1, left := -1, right := -1 }] ∧
    empty_program.matchCount = 0 ∧
    MatchIs empty_program (cstring t) false ∧ MatchIs empty_program (cstring []) false :=
  ⟨CompilesTo_of_eval _ _ 1 (fun _ => rfl), rfl, rfl,
    ⟨3, fun fuel h => match_empty_program t ht fuel h⟩,
    ⟨3, fun fuel h => match_empty_program [] (by simp) fuel h⟩⟩

/-- A witness of C18: the text "a". -/
theorem empty_pattern_matches_nothing_witness :
    (∀ c ∈ ([97] : List Int), c ≠ 0) ∧
    (CompilesTo [] empty_program ∧
    empty_program.nodes =
      [{ type := REGEX_NODE_EXPR_NOCAPTURE, next := -1, left := -1, right := -1 }] ∧
    empty_program.matchCount = 0 ∧
    MatchIs empty_program (cstring [97]) false ∧ MatchIs empty_program (cstring []) false) :=
  ⟨by decide, empty_pattern_matches_nothing [97] (by decide)⟩

theorem compile_char_then_paren {env : StoreEnv} (s : List Int) :
    regex_compile env 2 (97 :: 41 :: s) = .ok (literal_program [97]) := by
  simp [regex_compile, RegexBuilder.store, nodesAllocated,
    regex_compile_list, regex_compile_element, regex_char_test,
    regex_char_fetch, regex_char_test_and_fetch, regex_alloc_node, regex_node_value,
    regex_compile_char, regex_compile_quantifier, RegexBuilder.update, NODE,
    literal_program, literal_chain]

theorem compile_char_star_star {env : StoreEnv} (s : List Int) :
    regex_compile env 2 (97 :: 42 :: 42 :: s) = .ok (quantified_char_program 97 65535) := by
  simp [regex_compile, RegexBuilder.store, nodesAllocated,
    regex_compile_list, regex_compile_element, regex_char_test,
    regex_char_fetch, regex_char_test_and_fetch, regex_alloc_node, regex_node_value,
    regex_compile_char, regex_compile_quantifier, RegexBuilder.update, NODE,
    quantified_char_program]

/-- C19. For every string `s` the pattern "a)" followed by `s` compiles to the
program of "a", and the pattern "a**" followed by `s` compiles to the program
of "a*": what follows the first top-level ')' or the second quantifier is
ignored. -/
theorem trailing_text_is_ignored (s : List Int) :
    (∃ regex, CompilesTo [97] regex ∧ CompilesTo (97 :: 41 :: s) regex) ∧
    (∃ regex, CompilesTo [97, 42] regex ∧ CompilesTo (97 :: 42 :: 42 :: s) regex) :=
  ⟨⟨literal_program [97], CompilesTo_of_eval _ _ 2 (fun _ => rfl),
      CompilesTo_of_eval _ _ 2 (fun _ => compile_char_then_paren s)⟩,
    ⟨quantified_char_program 97 65535, CompilesTo_of_eval _ _ 2 (fun _ => rfl),
      CompilesTo_of_eval _ _ 2 (fun _ => compile_char_star_star s)⟩⟩

/-! ## C17: the cursor is not bounded by the end of the text -/

theorem match_node_any (regex : Regex) (text : List Int) (bol eol fuel : Nat) (idx : Int)
    (str : Nat) (nx : Int) (node : RegexNode) (hidx : idx ≠ -1)
    (h : NODE regex.nodes idx = some node) (ht : node.type = REGEX_NODE_ANY) :
    regex_match_node regex text bol eol (fuel + 1) idx str nx = .ok (some (str + 1)) := by
  rw [regex_match_node]
  simp only [hidx, if_false, h, ht]

theorem match_greedy_any (sub : Nat → Outcome MatchFault (Option Nat))
    (hsub : ∀ s, sub s = .ok (some (s + 1))) (max eol : Nat) (n : Nat) :
    ∀ (fuel count handled : Nat), eol = handled + n + 1 → count + n + 1 ≤ max → n < fuel →
      regex_match_greedy sub max eol fuel count handled = .ok (count + n + 1, eol) := by
  induction n with
  | zero =>
    intro fuel count handled heol hmax hfuel
    obtain ⟨k, rfl⟩ : ∃ k, fuel = k + 1 := ⟨fuel - 1, by omega⟩
    rw [regex_match_greedy, if_pos (by omega), hsub]
    simp only [Outcome.bind_ok]
    rw [if_pos (by omega)]
    simp [heol]
  | succ n ih =>
    intro fuel count handled heol hmax hfuel
    obtain ⟨k, rfl⟩ : ∃ k, fuel = k + 1 := ⟨fuel - 1, by omega⟩
    rw [regex_match_greedy, if_pos (by omega), hsub]
    simp only [Outcome.bind_ok]
    rw [if_neg (by omega), ih k (count + 1) (handled + 1) (by omega) (by omega) (by omega)]
    congr 2
    omega

theorem match_any_star (t : List Int) (ht : ∀ c ∈ t, c ≠ 0) (hne : t ≠ [])
    (hlen : t.length ≤ 65535) (fuel : Nat) (hfuel : t.length + 3 ≤ fuel) :
    regex_match fuel any_star_program (cstring t) = .ok true := by
  obtain ⟨k, rfl⟩ : ∃ k, fuel = k + 3 := ⟨fuel - 3, by omega⟩
  obtain ⟨n, hn⟩ : ∃ n, t.length = n + 1 := by
    cases t with
    | nil => exact absurd rfl hne
    | cons c t => exact ⟨t.length, rfl⟩
  have hsub : ∀ s, (fun s => regex_match_node any_star_program (cstring t) 0 t.length (k + 1) 1
      s (-1)) s = .ok (some (s + 1)) := by
    intro s
    exact match_node_any _ _ _ _ _ 1 s (-1)
      { type := REGEX_NODE_ANY, next := -1, left := -1, right := -1 } (by decide)
      (by simp [NODE, any_star_program]) rfl
  have hg := match_greedy_any _ hsub 65535 t.length n (k + 1) 0 0 (by omega) (by omega) (by omega)
  rw [regex_match, strlen_cstring t ht]
  simp only [Outcome.bind_ok, regex_match_length]
  rw [match_node_root _ _ _ _ _ _ _
    { type := REGEX_NODE_EXPR_NOCAPTURE, next := -1, left := 2, right := -1 }
    (by simp [any_star_program]) rfl, regex_match_chain]
  simp only []
  rw [regex_match_node]
  have hG : NODE any_star_program.nodes 2 =
      some { type := REGEX_NODE_GREEDY, next := -1, left := 1, right := 65535 } := by
    simp [NODE, any_star_program]
  simp only [show ¬ ((2 : Int) = -1) by decide, if_false, hG,
    show ((65535 : Int) % 65536).toNat = 65535 by decide,
    show ((65535 : Int) / 65536 % 65536).toNat = 0 by decide, hg, Outcome.bind_ok]
  simp [hn]

/-- C17. A `REGEX_NODE_ANY` node returns the cursor plus one at every cursor,
the end of the text and the cursors after it included; ".*" does not match the
empty text, "a.*" does not match "a", and ".*" matches every non-empty
NUL-terminated text of at most 65535 characters. -/
theorem any_node_ignores_text_end (t : List Int) (ht : ∀ c ∈ t, c ≠ 0) (hne : t ≠ [])
    (hlen : t.length ≤ 65535) :
    (∀ (regex : Regex) (text : List Int) (bol eol fuel : Nat) (idx : Int) (str : Nat) (nx : Int)
      (node : RegexNode), idx ≠ -1 → NODE regex.nodes idx = some node →
      node.type = REGEX_NODE_ANY →
      regex_match_node regex text bol eol (fuel + 1) idx str nx = .ok (some (str + 1))) ∧
    (∃ regex, CompilesTo [46, 42] regex ∧ MatchIs regex (cstring []) false ∧
      MatchIs regex (cstring t) true) ∧
    (∃ regex, CompilesTo [97, 46, 42] regex ∧ MatchIs regex (cstring [97]) false) :=
  ⟨fun regex text bol eol fuel idx str nx node hidx h hty =>
      match_node_any regex text bol eol fuel idx str nx node hidx h hty,
    ⟨any_star_program, CompilesTo_of_eval _ _ 3 (fun _ => rfl),
      MatchIs_of_eval _ _ _ 5 (by decide),
      ⟨t.length + 3, fun fuel h => match_any_star t ht hne hlen fuel h⟩⟩,
    ⟨Regex.mk 0 [RegexNode.mk REGEX_NODE_EXPR_NOCAPTURE (-1) 1 (-1),
        RegexNode.mk REGEX_NODE_CHAR 3 97 (-1), RegexNode.mk REGEX_NODE_ANY (-1) (-1) (-1),
        RegexNode.mk REGEX_NODE_GREEDY (-1) 2 65535],
      CompilesTo_of_eval _ _ 4 (fun _ => rfl), MatchIs_of_eval _ _ _ 6 (by decide)⟩⟩

/-- A witness of C17: the text "abc". -/
theorem any_node_ignores_text_end_witness :
    (∀ c ∈ ([97, 98, 99] : List Int), c ≠ 0) ∧ ([97, 98, 99] : List Int) ≠ [] ∧
    ([97, 98, 99] : List Int).length ≤ 65535 ∧
    ((∀ (regex : Regex) (text : List Int) (bol eol fuel : Nat) (idx : Int) (str : Nat) (nx : Int)
      (node : RegexNode), idx ≠ -1 → NODE regex.nodes idx = some node →
      node.type = REGEX_NODE_ANY →
      regex_match_node regex text bol eol (fuel + 1) idx str nx = .ok (some (str + 1))) ∧
    (∃ regex, CompilesTo [46, 42] regex ∧ MatchIs regex (cstring []) false ∧
      MatchIs regex (cstring [97, 98, 99]) true) ∧
    (∃ regex, CompilesTo [97, 46, 42] regex ∧ MatchIs regex (cstring [97]) false)) :=
  ⟨by decide, by decide, by decide,
    any_node_ignores_text_end [97, 98, 99] (by decide) (by decide) (by decide)⟩

/-! ## C20: the message "open class" is never raised -/

@[simp] theorem Outcome.sat_ok {α : Type} (a : α) (b : RegexBuilder)
    (Q : α → RegexBuilder → Prop) (E : RegexError → Prop) :
    Outcome.sat (.ok (a, b)) Q E ↔ Q a b := Iff.rfl

@[simp] theorem Outcome.sat_error {α : Type} (e : RegexError)
    (Q : α → RegexBuilder → Prop) (E : RegexError → Prop) :
    Outcome.sat (.error e : Step α) Q E ↔ E e := Iff.rfl

@[simp] theorem Outcome.sat_timeout {α : Type}
    (Q : α → RegexBuilder → Prop) (E : RegexError → Prop) :
    Outcome.sat (.timeout : Step α) Q E ↔ True := Iff.rfl

theorem Outcome.sat_andThen {α β : Type} (r : Step α) (f : α → RegexBuilder → Step β)
    (Q1 : α → RegexBuilder → Prop) (Q : β → RegexBuilder → Prop) (E : RegexError → Prop)
    (h : Outcome.sat r Q1 E) (hf : ∀ a b, Q1 a b → Outcome.sat (f a b) Q E) :
    Outcome.sat (r.andThen f) Q E := by
  cases r with
  | ok ab => obtain ⟨a, b⟩ := ab; exact hf a b h
  | error e => exact h
  | timeout => trivial

theorem Outcome.sat_weaken {α : Type} (r : Step α) (Q Q' : α → RegexBuilder → Prop)
    (E E' : RegexError → Prop) (h : Outcome.sat r Q E) (hQ : ∀ a b, Q a b → Q' a b)
    (hE : ∀ e, E e → E' e) : Outcome.sat r Q' E' := by
  cases r with
  | ok ab => obtain ⟨a, b⟩ := ab; exact hQ a b h
  | error e => exact hE e h
  | timeout => trivial

theorem regex_char_test_link_chain (b : RegexBuilder) (node chain : Int) :
    regex_char_test (link_chain b node chain) = regex_char_test b := by
  unfold link_chain
  split_ifs
  · exact regex_char_test_update _ _ _
  · rfl

theorem sat_regex_char_fetch (b : RegexBuilder) :
    Outcome.sat (regex_char_fetch b)
      (fun v b' => v = regex_char_test b ∧ v ≠ 0 ∧ b' = { b with p := b.p + 1 })
      (fun e => e = .end_of_regex) := by
  unfold regex_char_fetch
  split_ifs with h
  · simp
  · simp [h]

theorem sat_regex_char_test_and_fetch (b : RegexBuilder) (c : Int) :
    Outcome.sat (regex_char_test_and_fetch b c)
      (fun v b' => (v = true ∧ regex_char_test b = c ∧ b' = { b with p := b.p + 1 }) ∨
        (v = false ∧ regex_char_test b ≠ c ∧ b' = b))
      (fun e => e = .end_of_regex) := by
  unfold regex_char_test_and_fetch regex_char_fetch
  split_ifs with h1 h2
  · simp
  · simp [h1]
  · simp [h1]

theorem class_body_leaves_at_bracket (fuel : Nat) :
    ∀ (chain currentChar : Int) (b : RegexBuilder),
      Outcome.sat (regex_compile_class_body fuel chain currentChar b)
        (fun _ b' => regex_char_test b' = 93) (fun e => e ≠ .open_class) := by
  induction fuel with
  | zero => intro _ _ _; trivial
  | succ n ih =>
    intro chain currentChar b
    rw [regex_compile_class_body]
    split_ifs with h1 h2
    · -- a pending character: look for the dash
      refine Outcome.sat_andThen _ _ _ _ _
        (Outcome.sat_weaken _ _ _ _ _ (sat_regex_char_test_and_fetch b CH_MINUS)
          (fun _ _ h => h) (fun e he => by rw [he]; decide)) ?_
      rintro dash b1 (⟨rfl, -, rfl⟩ | ⟨rfl, -, rfl⟩)
      · simp only [if_true]
        refine Outcome.sat_andThen _ _ _ _ _
          (Outcome.sat_weaken _ _ _ _ _ (sat_regex_char_fetch _)
            (fun _ _ h => h) (fun e he => by rw [he]; decide)) ?_
        rintro v b2 ⟨hv, -, rfl⟩
        split_ifs with h3 h4
        · simp only [regex_node_value_eq, Outcome.andThen_ok, Outcome.sat_ok,
            regex_char_test_link_chain, regex_char_test_mk]
          rw [hv, regex_char_test_mk] at h3
          rw [Nat.add_sub_cancel]
          exact h3
        · simp
        · exact ih _ _ _
      · simp only [Bool.false_eq_true, if_false]
        refine Outcome.sat_andThen _ _ _ _ _
          (Outcome.sat_weaken _ _ _ _ _ (sat_regex_char_fetch _)
            (fun _ _ h => h) (fun e he => by rw [he]; decide)) ?_
        rintro v b2 ⟨-, -, rfl⟩
        simp only [regex_node_value_eq, Outcome.andThen_ok]
        exact ih _ _ _
    · simp only [Outcome.andThen_ok, Bool.false_eq_true, if_false]
      refine Outcome.sat_andThen _ _ _ _ _
        (Outcome.sat_weaken _ _ _ _ _ (sat_regex_char_fetch _)
          (fun _ _ h => h) (fun e he => by rw [he]; decide)) ?_
      rintro v b2 ⟨-, -, rfl⟩
      simp only [regex_node_value_eq, Outcome.andThen_ok]
      exact ih _ _ _
    · simp only [Outcome.sat_ok]
      simpa using h1

theorem Outcome.sat_andThen_true {α β : Type} (r : Step α) (f : α → RegexBuilder → Step β)
    (Q : β → RegexBuilder → Prop) (E : RegexError → Prop)
    (h : Outcome.sat r (fun _ _ => True) E) (hf : ∀ a b, Outcome.sat (f a b) Q E) :
    Outcome.sat (r.andThen f) Q E :=
  Outcome.sat_andThen r f _ Q E h (fun a b _ => hf a b)

theorem Outcome.sat_ite {α : Type} (c : Prop) [Decidable c] (x y : Step α)
    (Q : α → RegexBuilder → Prop) (E : RegexError → Prop)
    (hx : Outcome.sat x Q E) (hy : Outcome.sat y Q E) :
    Outcome.sat (if c then x else y) Q E := by
  split_ifs
  · exact hx
  · exact hy

theorem no_open_class_fetch (b : RegexBuilder) :
    Outcome.sat (regex_char_fetch b) (fun _ _ => True) (fun e => e ≠ .open_class) :=
  Outcome.sat_weaken _ _ _ _ _ (sat_regex_char_fetch b) (fun _ _ _ => trivial)
    (fun e he => by rw [he]; decide)

theorem no_open_class_test_and_fetch (b : RegexBuilder) (c : Int) :
    Outcome.sat (regex_char_test_and_fetch b c) (fun _ _ => True) (fun e => e ≠ .open_class) :=
  Outcome.sat_weaken _ _ _ _ _ (sat_regex_char_test_and_fetch b c) (fun _ _ _ => trivial)
    (fun e he => by rw [he]; decide)

theorem no_open_class_alloc (b : RegexBuilder) (type : RegexNodeType) :
    Outcome.sat (regex_alloc_node b type) (fun _ _ => True) (fun e => e ≠ .open_class) :=
  trivial

theorem no_open_class_node_value (b : RegexBuilder) (type : RegexNodeType) (v : Int) :
    Outcome.sat (regex_node_value b type v) (fun _ _ => True) (fun e => e ≠ .open_class) := by
  rw [regex_node_value_eq]
  trivial

theorem no_open_class_char (b : RegexBuilder) :
    Outcome.sat (regex_compile_char b) (fun _ _ => True) (fun e => e ≠ .open_class) := by
  unfold regex_compile_char
  repeat' first
    | exact no_open_class_fetch _
    | exact no_open_class_test_and_fetch _ _
    | exact no_open_class_node_value _ _ _
    | apply Outcome.sat_andThen_true
    | apply Outcome.sat_ite
    | intro _

theorem no_open_class_quantifier (ret : Int) (b : RegexBuilder) :
    Outcome.sat (regex_compile_quantifier ret b) (fun _ _ => True)
      (fun e => e ≠ .open_class) := by
  unfold regex_compile_quantifier
  repeat' first
    | exact no_open_class_fetch _
    | exact no_open_class_node_value _ _ _
    | exact trivial
    | apply Outcome.sat_andThen_true
    | apply Outcome.sat_ite
    | intro _

theorem no_open_class_class (fuel : Nat) (b : RegexBuilder) :
    Outcome.sat (regex_compile_class fuel b) (fun _ _ => True) (fun e => e ≠ .open_class) := by
  unfold regex_compile_class
  refine Outcome.sat_andThen_true _ _ _ _ (no_open_class_fetch _) (fun _ b1 => ?_)
  refine Outcome.sat_andThen_true _ _ _ _ (no_open_class_test_and_fetch _ _) (fun inv b2 => ?_)
  refine Outcome.sat_andThen_true _ _ _ _ (no_open_class_alloc _ _) (fun ret b3 => ?_)
  split_ifs with h
  · simp
  · refine Outcome.sat_andThen _ _ _ _ _ (class_body_leaves_at_bracket fuel (-1) 0 b3) ?_
    intro chain b4 h4
    simp only []
    refine Outcome.sat_andThen _ _ _ _ _
      (Outcome.sat_weaken _ _ _ _ _ (sat_regex_char_fetch _)
        (fun _ _ h => h) (fun e he => by rw [he]; decide)) ?_
    · rintro v b5 ⟨hv, -, -⟩
      rw [regex_char_test_update, h4] at hv
      simp [hv]

theorem no_open_class_element_list (env : StoreEnv) (fuel : Nat) :
    ∀ b : RegexBuilder,
      Outcome.sat (regex_compile_element env fuel b) (fun _ _ => True) (fun e => e ≠ .open_class) ∧
      Outcome.sat (regex_compile_list env fuel b) (fun _ _ => True) (fun e => e ≠ .open_class) := by
  induction fuel with
  | zero => intro b; exact ⟨trivial, trivial⟩
  | succ n ih =>
    intro b
    have ihe := fun b => (ih b).1
    have ihl := fun b => (ih b).2
    constructor
    · rw [regex_compile_element]
      repeat' first
        | exact no_open_class_fetch _
        | exact no_open_class_test_and_fetch _ _
        | exact no_open_class_alloc _ _
        | exact no_open_class_char _
        | exact no_open_class_quantifier _ _
        | exact no_open_class_class _ _
        | exact ihe _
        | exact ihl _
        | exact trivial
        | (show Outcome.sat (Outcome.error _) _ _; simp)
        | apply Outcome.sat_andThen_true
        | apply Outcome.sat_ite
        | intro _
    · rw [regex_compile_list]
      repeat' first
        | exact no_open_class_test_and_fetch _ _
        | exact no_open_class_alloc _ _
        | exact no_open_class_node_value _ _ _
        | exact ihe _
        | exact ihl _
        | exact trivial
        | apply Outcome.sat_andThen_true
        | apply Outcome.sat_ite
        | intro _

theorem regex_compile_never_open_class (env : StoreEnv) (fuel : Nat) (p : List Int) :
    regex_compile env fuel p ≠ .error .open_class := by
  unfold regex_compile
  simp only [regex_alloc_node, Outcome.andThen_ok]
  have h := (no_open_class_element_list env fuel
    { nodes := [] ++ [{ type := REGEX_NODE_EXPR_NOCAPTURE, next := -1, left := -1, right := -1 }],
      matchCount := 0, regex := p, p := 0 }).2
  cases hr : regex_compile_list env fuel
    { nodes := [] ++ [{ type := REGEX_NODE_EXPR_NOCAPTURE, next := -1, left := -1, right := -1 }],
      matchCount := 0, regex := p, p := 0 } with
  | ok ab => obtain ⟨a, b⟩ := ab; simp
  | error e =>
    rw [hr] at h
    simp only [Outcome.andThen_error]
    intro he
    exact h (Outcome.error.inj he)
  | timeout => simp

theorem update_regex (b : RegexBuilder) (i : Int) (f : RegexNode → RegexNode) :
    (b.update i f).regex = b.regex := by
  unfold RegexBuilder.update
  cases NODE b.nodes i <;> rfl

theorem update_p (b : RegexBuilder) (i : Int) (f : RegexNode → RegexNode) :
    (b.update i f).p = b.p := by
  unfold RegexBuilder.update
  cases NODE b.nodes i <;> rfl

theorem link_chain_regex (b : RegexBuilder) (node chain : Int) :
    (link_chain b node chain).regex = b.regex := by
  unfold link_chain
  split_ifs
  · exact update_regex _ _ _
  · rfl

theorem link_chain_p (b : RegexBuilder) (node chain : Int) :
    (link_chain b node chain).p = b.p := by
  unfold link_chain
  split_ifs
  · exact update_p _ _ _
  · rfl

theorem class_body_open (fuel : Nat) :
    ∀ (rest : List Int) (chain cc : Int) (b : RegexBuilder), 93 ∉ rest → 0 ∉ rest →
      rest.length < fuel → (∀ i, b.regex.getD (b.p + i) 0 = rest.getD i 0) →
      ∃ e, regex_compile_class_body fuel chain cc b = .error e ∧
        (e = .end_of_regex ∨ (e = .invalid_range ∧ ∃ lo hi, lo > hi ∧
          ((cc ≠ 0 ∧ lo = cc ∧ [45, hi] <+: rest) ∨ [lo, 45, hi] <:+: rest))) := by
  induction fuel with
  | zero => intro rest _ _ _ _ _ h; exact absurd h (by omega)
  | succ n ih =>
    intro rest chain cc b h93 h0 hfuel hread
    have htest : regex_char_test b = rest.getD 0 0 := by simpa [regex_char_test] using hread 0
    rw [regex_compile_class_body]
    cases rest with
    | nil =>
      have ht0 : regex_char_test b = 0 := by simpa using htest
      refine ⟨.end_of_regex, ?_, Or.inl rfl⟩
      simp [ht0, regex_char_test_and_fetch, regex_char_fetch]
    | cons c rest =>
      have hc93 : c ≠ 93 := fun h => h93 (by simp [h])
      have hc0 : c ≠ 0 := fun h => h0 (by simp [h])
      have htc : regex_char_test b = c := by simpa using htest
      have hread1 : ∀ i, b.regex.getD (b.p + 1 + i) 0 = rest.getD i 0 := by
        intro i
        have := hread (i + 1)
        simpa [Nat.add_assoc, Nat.add_comm 1 i] using this
      by_cases hdash : cc ≠ 0 ∧ c = 45
      · obtain ⟨hcc, rfl⟩ := hdash
        simp only [htc, ne_eq, hc93, not_false_eq_true, if_true, hcc, regex_char_test_and_fetch,
          CH_MINUS, regex_char_fetch, hc0, if_false, Outcome.andThen_ok, regex_char_test_mk]
        cases rest with
        | nil =>
          refine ⟨.end_of_regex, ?_, Or.inl rfl⟩
          have : b.regex.getD (b.p + 1) 0 = 0 := by simpa using hread1 0
          simp only [this, if_true, Outcome.andThen_error]
        | cons h rest =>
          have hh93 : h ≠ 93 := fun e => h93 (by simp [e])
          have hh0 : h ≠ 0 := fun e => h0 (by simp [e])
          have hth : b.regex.getD (b.p + 1) 0 = h := by simpa using hread1 0
          simp only [hth, hh0, if_false, Outcome.andThen_ok, CH_RBRACKET, hh93]
          by_cases hgt : cc > h
          · refine ⟨.invalid_range, by simp only [hgt, if_true], Or.inr ⟨rfl, ?_⟩⟩
            exact ⟨cc, h, hgt, Or.inl ⟨trivial, rfl, rest, rfl⟩⟩
          · simp only [hgt, if_false]
            generalize hB : link_chain _ _ _ = B
            have hBr : B.regex = b.regex := by
              rw [← hB]; simp only [link_chain_regex, update_regex]
            have hBp : B.p = b.p + 1 + 1 := by
              rw [← hB]; simp only [link_chain_p, update_p]
            obtain ⟨e, he, hcase⟩ := ih rest chain 0 B (fun hm => h93 (by simp [hm]))
              (fun hm => h0 (by simp [hm])) (by simp at hfuel ⊢; omega)
              (by
                intro i
                rw [hBr, hBp]
                have := hread (i + 2)
                simpa [Nat.add_assoc, Nat.add_comm 2 i] using this)
            refine ⟨e, he, ?_⟩
            rcases hcase with h1 | ⟨h1, lo, hi, hlt, hdis⟩
            · exact Or.inl h1
            · refine Or.inr ⟨h1, lo, hi, hlt, Or.inr ?_⟩
              rcases hdis with ⟨hne, -, -⟩ | hin
              · exact absurd rfl hne
              · obtain ⟨s, t, hst⟩ := hin
                exact ⟨45 :: h :: s, t, by simp [← hst]⟩
      · have hnd : (if cc ≠ 0 then regex_char_test_and_fetch b CH_MINUS
            else Outcome.ok (false, b)) = .ok (false, b) := by
          by_cases hcc : cc ≠ 0
          · have : c ≠ 45 := fun h => hdash ⟨hcc, h⟩
            simp [hcc, regex_char_test_and_fetch, htc, this]
          · simp [hcc]
        simp only [htc, ne_eq, hc93, not_false_eq_true, if_true, CH_RBRACKET]
        rw [show (if ¬ cc = 0 then regex_char_test_and_fetch b CH_MINUS
            else Outcome.ok (false, b)) = .ok (false, b) from hnd]
        simp only [Outcome.andThen_ok, Bool.false_eq_true, if_false, regex_char_fetch, htc, hc0,
          regex_node_value_eq]
        generalize hB : link_chain _ _ _ = B
        have hBr : B.regex = b.regex := by
          rw [← hB]; simp only [link_chain_regex]
        have hBp : B.p = b.p + 1 := by
          rw [← hB]; simp only [link_chain_p]
        obtain ⟨e, he, hcase⟩ := ih rest (b.nodes.length : Int) c B (fun hm => h93 (by simp [hm]))
          (fun hm => h0 (by simp [hm])) (by simp at hfuel ⊢; omega)
          (by
            intro i
            rw [hBr, hBp]
            exact hread1 i)
        refine ⟨e, he, ?_⟩
        rcases hcase with h1 | ⟨h1, lo, hi, hlt, hdis⟩
        · exact Or.inl h1
        · refine Or.inr ⟨h1, lo, hi, hlt, Or.inr ?_⟩
          rcases hdis with ⟨-, rfl, hpre⟩ | hin
          · obtain ⟨t, ht⟩ := hpre
            exact ⟨[], t, by simp [← ht]⟩
          · obtain ⟨s, t, hst⟩ := hin
            exact ⟨c :: s, t, by simp [← hst]⟩

theorem class_open (rest : List Int) (chain cc : Int) (b : RegexBuilder) (fuel : Nat)
    (f : Int → RegexBuilder → Step Int) (h93 : 93 ∉ rest) (h0 : 0 ∉ rest)
    (hfuel : rest.length < fuel) (hread : ∀ i, b.regex.getD (b.p + i) 0 = rest.getD i 0)
    (hcc : cc = 0) :
    ∃ e, (regex_compile_class_body fuel chain cc b).andThen f = .error e ∧
      (e = .end_of_regex ∨ (e = .invalid_range ∧ ∃ lo hi, lo > hi ∧ [lo, 45, hi] <:+: rest)) := by
  obtain ⟨e, he, hcase⟩ := class_body_open fuel rest chain cc b h93 h0 hfuel hread
  refine ⟨e, by rw [he]; rfl, ?_⟩
  rcases hcase with h1 | ⟨h1, lo, hi, hlt, hdis⟩
  · exact Or.inl h1
  · refine Or.inr ⟨h1, lo, hi, hlt, ?_⟩
    rcases hdis with ⟨hne, -, -⟩ | hin
    · exact absurd hcc hne
    · exact hin

theorem class_open_error (body : List Int) (h93 : 93 ∉ body) (h0 : 0 ∉ body) (k : Nat)
    (hfuel : body.length + 4 ≤ k + 3) :
    ∃ e, regex_compile_class (k + 1)
        (RegexBuilder.mk [RegexNode.mk REGEX_NODE_EXPR_NOCAPTURE (-1) (-1) (-1)] 0 (91 :: body) 0) =
          .error e ∧
      (e = .end_of_regex ∨ (e = .invalid_range ∧ ∃ lo hi, lo > hi ∧ [lo, 45, hi] <:+: body)) := by
  unfold regex_compile_class
  simp only [regex_char_fetch, regex_char_test_mk, List.getD_cons_zero,
    show ¬ ((91 : Int) = 0) by decide, if_false, Outcome.andThen_ok, regex_char_test_and_fetch,
    SYMBOL_BEGIN, Nat.zero_add, regex_alloc_node, CH_RBRACKET]
  cases body with
  | nil =>
    simp only [List.getD_cons_succ, List.getD_nil, show ¬ ((0 : Int) = 94) by decide, if_false,
      Outcome.andThen_ok, Bool.false_eq_true, regex_char_test_mk,
      show ¬ ((0 : Int) = 93) by decide]
    generalize hB : RegexBuilder.mk _ _ _ _ = B
    obtain ⟨e, he, hcase⟩ := class_open [] (-1) 0 B (k + 1) _ h93 h0 (by simp)
      (by intro i; rw [← hB]; simp [Nat.add_comm 1 i]) rfl
    exact ⟨e, he, hcase⟩
  | cons c rest =>
    have hc93 : c ≠ 93 := fun h => h93 (by simp [h])
    have hc0 : c ≠ 0 := fun h => h0 (by simp [h])
    by_cases hinv : c = 94
    · subst hinv
      have hr93 : 93 ∉ rest := fun hm => h93 (by simp [hm])
      have hr0 : 0 ∉ rest := fun hm => h0 (by simp [hm])
      have hhead : rest.getD 0 0 ≠ 93 := by
        cases rest with
        | nil => simp
        | cons d rest => simpa using fun h => hr93 (by simp [h])
      simp only [List.getD_cons_succ, List.getD_cons_zero, if_true,
        show ¬ ((94 : Int) = 0) by decide, if_false, Outcome.andThen_ok, regex_char_test_mk,
        hhead]
      generalize hB : RegexBuilder.mk _ _ _ _ = B
      obtain ⟨e, he, hcase⟩ := class_open rest (-1) 0 B (k + 1) _ hr93 hr0
        (by simp at hfuel ⊢; omega) (by intro i; rw [← hB]; simp [Nat.add_comm 2 i]) rfl
      refine ⟨e, he, ?_⟩
      rcases hcase with h1 | ⟨h1, lo, hi, hlt, s, t, hst⟩
      · exact Or.inl h1
      · exact Or.inr ⟨h1, lo, hi, hlt, 94 :: s, t, by simp [← hst]⟩
    · simp only [List.getD_cons_succ, List.getD_cons_zero, hinv, if_false, Outcome.andThen_ok,
        Bool.false_eq_true, regex_char_test_mk, hc93]
      generalize hB : RegexBuilder.mk _ _ _ _ = B
      obtain ⟨e, he, hcase⟩ := class_open (c :: rest) (-1) 0 B (k + 1) _ h93 h0
        (by simp at hfuel ⊢; omega) (by intro i; rw [← hB]; simp [Nat.add_comm 1 i]) rfl
      exact ⟨e, he, hcase⟩

theorem compile_open_class (body : List Int) (h93 : 93 ∉ body) (h0 : 0 ∉ body) (fuel : Nat)
    (hfuel : body.length + 4 ≤ fuel) :
    ∃ e, (∀ env, regex_compile env fuel (91 :: body) = .error e) ∧
      (e = .end_of_regex ∨ (e = .invalid_range ∧ ∃ lo hi, lo > hi ∧ [lo, 45, hi] <:+: body)) := by
  obtain ⟨k, rfl⟩ : ∃ k, fuel = k + 3 := ⟨fuel - 3, by omega⟩
  obtain ⟨e, he, hcase⟩ := class_open_error body h93 h0 k hfuel
  refine ⟨e, fun env => ?_, hcase⟩
  unfold regex_compile
  simp only [regex_alloc_node, Outcome.andThen_ok]
  rw [regex_compile_list]
  simp only [regex_char_test_mk, List.getD_cons_zero, show ¬ ((91 : Int) = 0) by decide,
    if_false, regex_char_test_and_fetch, SYMBOL_BEGIN, show ¬ ((91 : Int) = 94) by decide,
    Outcome.andThen_ok, Bool.false_eq_true]
  rw [regex_compile_element]
  simp only [regex_char_test_mk, List.getD_cons_zero, SYMBOL_END, SYMBOL_ANY, CH_LBRACKET,
    show ¬ ((91 : Int) = 36) by decide, show ¬ ((91 : Int) = 46) by decide, if_false, if_true,
    List.nil_append]
  rw [he]
  rfl

/-- C20 as stated fails: "[z-a" ends inside an open class and fails with
"invalid range", not with "end of regex". -/
theorem open_class_counterexample :
    (93 : Int) ∉ ([122, 45, 97] : List Int) ∧
    CompileFails [91, 122, 45, 97] RegexError.invalid_range ∧
    ∀ env, ¬ CompileFailsIn env [91, 122, 45, 97] RegexError.end_of_regex := by
  have h : CompileFails [91, 122, 45, 97] RegexError.invalid_range :=
    CompileFails_of_eval _ _ 6 (fun _ => rfl)
  refine ⟨by decide, h, fun env h2 => ?_⟩
  have := CompileFailsIn_unique _ _ _ (h env) h2
  exact absurd this (by decide)

/-- C20, amended. `regex_compile` never fails with "open class"; a pattern that
is '[' followed by a body without ']' fails with "end of regex" or with
"invalid range", and with "end of regex" when every `lo-hi` in the body has
`lo <= hi`. -/
theorem open_class_is_never_raised (env : StoreEnv) (p : List Int) (fuel : Nat) (body : List Int)
    (h93 : 93 ∉ body) (h0 : 0 ∉ body) :
    regex_compile env fuel p ≠ .error .open_class ∧
    (CompileFails (91 :: body) RegexError.end_of_regex ∨
      CompileFails (91 :: body) RegexError.invalid_range) ∧
    ((∀ lo hi, [lo, 45, hi] <:+: body → lo ≤ hi) →
      CompileFails (91 :: body) RegexError.end_of_regex) := by
  obtain ⟨e, he, hcase⟩ := compile_open_class body h93 h0 (body.length + 4) (le_refl _)
  have hf := CompileFails_of_eval _ _ _ he
  refine ⟨regex_compile_never_open_class env fuel p, ?_, ?_⟩
  · rcases hcase with h1 | ⟨h1, -⟩
    · left; rw [← h1]; exact hf
    · right; rw [← h1]; exact hf
  · intro hall
    rcases hcase with h1 | ⟨-, lo, hi, hlt, hin⟩
    · rw [← h1]; exact hf
    · have := hall lo hi hin
      omega

/-- A witness of the amended C20: the pattern "[a-" (and "(a" for the first
part). -/
theorem open_class_is_never_raised_witness :
    (93 : Int) ∉ ([97, 45] : List Int) ∧ (0 : Int) ∉ ([97, 45] : List Int) ∧
    (regex_compile (fun _ => false) 5 [40, 97] ≠ .error .open_class ∧
    (CompileFails (91 :: [97, 45]) RegexError.end_of_regex ∨
      CompileFails (91 :: [97, 45]) RegexError.invalid_range) ∧
    ((∀ lo hi, [lo, 45, hi] <:+: ([97, 45] : List Int) → lo ≤ hi) →
      CompileFails (91 :: [97, 45]) RegexError.end_of_regex)) :=
  ⟨by decide, by decide,
    open_class_is_never_raised (fun _ => false) [40, 97] 5 [97, 45] (by decide) (by decide)⟩

/-! ## The layout of a compiled program -/

theorem Layout.bounds {N : List RegexNode} {lo hi : Nat} {s : Shape} {i : Nat}
    (h : Layout N lo hi s i) : lo ≤ i ∧ i < hi ∧ hi ≤ N.length := by
  induction h with
  | leaf i n hn _ =>
    have := (List.getElem?_eq_some_iff.mp hn).1
    omega
  | greedy lo g a n m hn _ _ _ _ _ ih =>
    have := (List.getElem?_eq_some_iff.mp hn).1
    omega
  | cls c hi e n hn _ _ _ ih => omega
  | group_empty x n hn _ _ =>
    have := (List.getElem?_eq_some_iff.mp hn).1
    omega
  | group x hi l n hn _ _ _ ih => omega
  | or_left lo o l n hn _ _ _ _ ih =>
    have := (List.getElem?_eq_some_iff.mp hn).1
    omega
  | or_both lo hi o l r n hn _ _ _ _ _ ih1 ih2 => omega
  | group_lost x hi l n hn _ _ _ ih => omega
  | or_lost lo hi o l r n hn _ _ _ _ _ ih1 ih2 => omega
  | chain_last lo hi i n _ _ _ ih => exact ih
  | chain_cons lo mid hi i j n _ _ _ _ ih1 ih2 => omega
  | entry_last i n hn _ _ =>
    have := (List.getElem?_eq_some_iff.mp hn).1
    omega
  | entry_cons lo i j n hn _ _ _ ih =>
    have := (List.getElem?_eq_some_iff.mp hn).1
    omega

theorem Layout.transfer {N N' : List RegexNode} {lo hi : Nat} {s : Shape} {i : Nat}
    (h : Layout N lo hi s i) (hag : ∀ j, lo ≤ j → j < hi → N'[j]? = N[j]?) :
    Layout N' lo hi s i := by
  induction h with
  | leaf i n hn ht => exact Layout.leaf i n (by rw [hag i (le_refl _) (by omega), hn]) ht
  | greedy lo g a n m hn ht hl hc hm hnx ih =>
    have hb := hc.bounds
    exact Layout.greedy lo g a n m (by rw [hag g (by omega) (by omega), hn]) ht hl
      (ih (fun j h1 h2 => hag j h1 (by omega))) (by rw [hag a (by omega) (by omega), hm]) hnx
  | cls c hi e n hn ht hl hc ih =>
    have hb := hc.bounds
    exact Layout.cls c hi e n (by rw [hag c (le_refl _) (by omega), hn]) ht hl
      (ih (fun j h1 h2 => hag j (by omega) h2))
  | group_empty x n hn ht hl =>
    exact Layout.group_empty x n (by rw [hag x (le_refl _) (by omega), hn]) ht hl
  | group x hi l n hn ht hl hc ih =>
    have hb := hc.bounds
    exact Layout.group x hi l n (by rw [hag x (le_refl _) (by omega), hn]) ht hl
      (ih (fun j h1 h2 => hag j (by omega) h2))
  | or_left lo o l n hn ht hl hr hc ih =>
    have hb := hc.bounds
    exact Layout.or_left lo o l n (by rw [hag o (by omega) (by omega), hn]) ht hl hr
      (ih (fun j h1 h2 => hag j h1 (by omega)))
  | or_both lo hi o l r n hn ht hl hr hc1 hc2 ih1 ih2 =>
    have hb1 := hc1.bounds
    have hb2 := hc2.bounds
    exact Layout.or_both lo hi o l r n (by rw [hag o (by omega) (by omega), hn]) ht hl hr
      (ih1 (fun j h1 h2 => hag j h1 (by omega))) (ih2 (fun j h1 h2 => hag j (by omega) h2))
  | group_lost x hi l n hn ht hl hc ih =>
    have hb := hc.bounds
    exact Layout.group_lost x hi l n (by rw [hag x (le_refl _) (by omega), hn]) ht hl
      (ih (fun j h1 h2 => hag j (by omega) h2))
  | or_lost lo hi o l r n hn ht hl hr hc1 hc2 ih1 ih2 =>
    have hb1 := hc1.bounds
    have hb2 := hc2.bounds
    exact Layout.or_lost lo hi o l r n (by rw [hag o (by omega) (by omega), hn]) ht hl hr
      (ih1 (fun j h1 h2 => hag j h1 (by omega))) (ih2 (fun j h1 h2 => hag j (by omega) h2))
  | chain_last lo hi i n hc hn hnx ih =>
    have hb := hc.bounds
    exact Layout.chain_last lo hi i n (ih hag) (by rw [hag i hb.1 hb.2.1, hn]) hnx
  | chain_cons lo mid hi i j n hc1 hn hnx hc2 ih1 ih2 =>
    have hb1 := hc1.bounds
    have hb2 := hc2.bounds
    exact Layout.chain_cons lo mid hi i j n (ih1 (fun j h1 h2 => hag j h1 (by omega)))
      (by rw [hag i (by omega) (by omega), hn]) hnx (ih2 (fun j h1 h2 => hag j (by omega) h2))
  | entry_last i n hn ht hnx =>
    exact Layout.entry_last i n (by rw [hag i (le_refl _) (by omega), hn]) ht hnx
  | entry_cons lo i j n hn ht hnx hc ih =>
    have hb := hc.bounds
    exact Layout.entry_cons lo i j n (by rw [hag i (by omega) (by omega), hn]) ht hnx
      (ih (fun j h1 h2 => hag j h1 (by omega)))

theorem Layout.set_next_aux {N N' : List RegexNode} {lo hi : Nat} {s : Shape} {i : Nat}
    (x : Int) (h : Layout N lo hi s i) :
    s = Shape.node → N'[i]? = ((N[i]?).map fun n => { n with next := x }) →
    (∀ j, lo ≤ j → j < hi → j ≠ i → N'[j]? = N[j]?) → Layout N' lo hi Shape.node i := by
  induction h with
  | leaf i n hn ht =>
    intro _ hi' _
    exact Layout.leaf i { n with next := x } (by rw [hi', hn]; rfl) ht
  | greedy lo g a n m hn ht hl hc hm hnx _ =>
    intro _ hi' hag
    have hb := hc.bounds
    exact Layout.greedy lo g a { n with next := x } m (by rw [hi', hn]; rfl) ht hl
      (hc.transfer (fun j h1 h2 => hag j h1 (by omega) (by omega)))
      (by rw [hag a (by omega) (by omega) (by omega), hm]) hnx
  | cls c hi e n hn ht hl hc _ =>
    intro _ hi' hag
    have hb := hc.bounds
    exact Layout.cls c hi e { n with next := x } (by rw [hi', hn]; rfl) ht hl
      (hc.transfer (fun j h1 h2 => hag j (by omega) h2 (by omega)))
  | group_empty y n hn ht hl =>
    intro _ hi' _
    exact Layout.group_empty y { n with next := x } (by rw [hi', hn]; rfl) ht hl
  | group y hi l n hn ht hl hc _ =>
    intro _ hi' hag
    have hb := hc.bounds
    exact Layout.group y hi l { n with next := x } (by rw [hi', hn]; rfl) ht hl
      (hc.transfer (fun j h1 h2 => hag j (by omega) h2 (by omega)))
  | or_left lo o l n hn ht hl hr hc _ =>
    intro _ hi' hag
    have hb := hc.bounds
    exact Layout.or_left lo o l { n with next := x } (by rw [hi', hn]; rfl) ht hl hr
      (hc.transfer (fun j h1 h2 => hag j h1 (by omega) (by omega)))
  | or_both lo hi o l r n hn ht hl hr hc1 hc2 _ _ =>
    intro _ hi' hag
    have hb1 := hc1.bounds
    have hb2 := hc2.bounds
    exact Layout.or_both lo hi o l r { n with next := x } (by rw [hi', hn]; rfl) ht hl hr
      (hc1.transfer (fun j h1 h2 => hag j h1 (by omega) (by omega)))
      (hc2.transfer (fun j h1 h2 => hag j (by omega) h2 (by omega)))
  | group_lost y hi l n hn ht hl hc _ =>
    intro _ hi' hag
    have hb := hc.bounds
    exact Layout.group_lost y hi l { n with next := x } (by rw [hi', hn]; rfl) ht hl
      (hc.transfer (fun j h1 h2 => hag j (by omega) h2 (by omega)))
  | or_lost lo hi o l r n hn ht hl hr hc1 hc2 _ _ =>
    intro _ hi' hag
    have hb1 := hc1.bounds
    have hb2 := hc2.bounds
    exact Layout.or_lost lo hi o l r { n with next := x } (by rw [hi', hn]; rfl) ht hl hr
      (hc1.transfer (fun j h1 h2 => hag j h1 (by omega) (by omega)))
      (hc2.transfer (fun j h1 h2 => hag j (by omega) h2 (by omega)))
  | chain_last lo hi i n _ _ _ _ => intro hs; cases hs
  | chain_cons lo mid hi i j n _ _ _ _ _ _ => intro hs; cases hs
  | entry_last i n _ _ _ => intro hs; cases hs
  | entry_cons lo i j n _ _ _ _ _ => intro hs; cases hs

theorem Layout.set_next {N N' : List RegexNode} {lo hi i : Nat} (x : Int)
    (h : Layout N lo hi Shape.node i)
    (hi' : N'[i]? = ((N[i]?).map fun n => { n with next := x }))
    (hag : ∀ j, lo ≤ j → j < hi → j ≠ i → N'[j]? = N[j]?) :
    Layout N' lo hi Shape.node i :=
  Layout.set_next_aux x h rfl hi' hag

theorem NODE_nat (N : List RegexNode) (k : Nat) : NODE N (k : Int) = N[k]? := by
  simp [NODE]

theorem Outcome.ne_timeout_of_le {ε α : Type} {r r' : Outcome ε α} (h : Outcome.le r r')
    (hr : r ≠ .timeout) : r' ≠ .timeout := by
  rcases h with h | h
  · exact absurd h hr
  · rw [← h]; exact hr

theorem regex_match_greedy_ne_timeout (sub : Nat → Outcome MatchFault (Option Nat))
    (hsub : ∀ s, sub s ≠ .timeout) (max eol : Nat) (fuel : Nat) :
    ∀ (count handled : Nat), max - count < fuel →
      regex_match_greedy sub max eol fuel count handled ≠ .timeout := by
  induction fuel with
  | zero => intro _ _ h; exact absurd h (by omega)
  | succ n ih =>
    intro count handled hlt
    rw [regex_match_greedy]
    split_ifs with hc
    · cases hs : sub handled with
      | ok r =>
        cases r with
        | none => simp
        | some r =>
          simp only [Outcome.bind_ok]
          split_ifs
          · simp
          · exact ih _ _ (by omega)
      | error e => simp
      | timeout => exact absurd hs (hsub handled)
    · simp

/-! ## Termination of the matcher on a laid-out program -/

theorem Outcome.bind_ne_timeout {ε α β : Type} (r : Outcome ε α) (f : α → Outcome ε β)
    (hr : r ≠ .timeout) (hf : ∀ a, f a ≠ .timeout) : r.bind f ≠ .timeout := by
  cases r with
  | ok a => exact hf a
  | error e => simp
  | timeout => exact absurd rfl hr

theorem read_ne_timeout (text : List Int) (str : Nat) : read text str ≠ .timeout := by
  unfold read
  cases text.get? str <;> simp

theorem match_chain_none_index (regex : Regex) (sub : Int → Nat → Outcome MatchFault (Option Nat))
    (hsub : ∀ s, sub (-1) s = .ok none) (f : Nat) (str : Nat) :
    regex_match_chain regex sub (f + 1) (-1) str = .ok none := by
  rw [regex_match_chain, hsub]
  rfl

theorem Layout.terminates {regex : Regex} {lo hi : Nat} {s : Shape} {i : Nat}
    (h : Layout regex.nodes lo hi s i) : Terminates regex s i := by
  induction h with
  | leaf i n hn ht =>
    refine ⟨1, fun f hf text bol eol str nx => ?_⟩
    obtain ⟨k, rfl⟩ : ∃ k, f = k + 1 := ⟨f - 1, by omega⟩
    rw [regex_match_node]
    have hidx : ¬ ((i : Int) = -1) := by omega
    simp only [hidx, if_false, NODE_nat, hn]
    rcases ht with ht | ht | ht | ht <;> simp only [ht]
    · simp
    · simp
    · exact Outcome.bind_ne_timeout _ _ (read_ne_timeout _ _) (fun c => by split_ifs <;> simp)
    · simp
  | greedy lo g a n m hn ht hl hc hm hnx ih =>
    obtain ⟨na, hna⟩ := ih
    refine ⟨na + 65536 + 1, fun f hf text bol eol str nx => ?_⟩
    obtain ⟨k, rfl⟩ : ∃ k, f = k + 1 := ⟨f - 1, by omega⟩
    rw [regex_match_node]
    have hidx : ¬ ((g : Int) = -1) := by omega
    simp only [hidx, if_false, NODE_nat, hn, ht, hl]
    refine Outcome.bind_ne_timeout _ _ ?_ (fun r => by split_ifs <;> simp)
    apply regex_match_greedy_ne_timeout
    · intro s
      exact hna k (by omega) text bol eol s (-1)
    · have : (n.right % 65536).toNat < 65536 := by
        have h1 : n.right % 65536 < 65536 := Int.emod_lt_of_pos _ (by decide)
        have h2 : 0 ≤ n.right % 65536 := Int.emod_nonneg _ (by decide)
        omega
      omega
  | cls c hi e n hn ht hl hc ih =>
    obtain ⟨ne, hne⟩ := ih
    refine ⟨ne + 1, fun f hf text bol eol str nx => ?_⟩
    obtain ⟨k, rfl⟩ : ∃ k, f = k + 1 := ⟨f - 1, by omega⟩
    rw [regex_match_node]
    have hidx : ¬ ((c : Int) = -1) := by omega
    simp only [hidx, if_false, NODE_nat, hn, hl]
    rcases ht with ht | ht <;> simp only [ht] <;>
    exact Outcome.bind_ne_timeout _ _ (hne k (by omega) text str)
      (fun r => by cases r <;> simp only [] <;> (try split_ifs) <;> simp)
  | group_empty x n hn ht hl =>
    refine ⟨2, fun f hf text bol eol str nx => ?_⟩
    obtain ⟨k, rfl⟩ : ∃ k, f = k + 2 := ⟨f - 2, by omega⟩
    rw [regex_match_node]
    have hidx : ¬ ((x : Int) = -1) := by omega
    simp only [hidx, if_false, NODE_nat, hn, hl]
    have hch := match_chain_none_index regex
      (fun j s => regex_match_node regex text bol eol (k + 1) j s (-1))
      (fun s => by simp [regex_match_node]) k str
    rcases ht with ht | ht <;> simp only [ht, hch] <;> simp
  | group x hi l n hn ht hl hc ih =>
    obtain ⟨nc, hnc⟩ := ih
    refine ⟨nc + 1, fun f hf text bol eol str nx => ?_⟩
    obtain ⟨k, rfl⟩ : ∃ k, f = k + 1 := ⟨f - 1, by omega⟩
    rw [regex_match_node]
    have hidx : ¬ ((x : Int) = -1) := by omega
    simp only [hidx, if_false, NODE_nat, hn, hl]
    rcases ht with ht | ht <;> simp only [ht] <;>
    exact hnc k (by omega) k (by omega) text bol eol str
  | or_left lo o l n hn ht hl hr hc ih =>
    obtain ⟨nc, hnc⟩ := ih
    refine ⟨nc + 2, fun f hf text bol eol str nx => ?_⟩
    obtain ⟨k, rfl⟩ : ∃ k, f = k + 2 := ⟨f - 2, by omega⟩
    rw [regex_match_node]
    have hidx : ¬ ((o : Int) = -1) := by omega
    simp only [hidx, if_false, NODE_nat, hn, ht, hl, hr]
    refine Outcome.bind_ne_timeout _ _ (hnc (k + 1) (by omega) (k + 1) (by omega) text bol eol str)
      (fun r => ?_)
    cases r with
    | some r => simp
    | none =>
      simp only []
      rw [match_chain_none_index regex _ (fun s => by simp [regex_match_node]) k str]
      simp
  | or_both lo hi o l r n hn ht hl hr hc1 hc2 ih1 ih2 =>
    obtain ⟨n1, hn1⟩ := ih1
    obtain ⟨n2, hn2⟩ := ih2
    refine ⟨n1 + n2 + 1, fun f hf text bol eol str nx => ?_⟩
    obtain ⟨k, rfl⟩ : ∃ k, f = k + 1 := ⟨f - 1, by omega⟩
    rw [regex_match_node]
    have hidx : ¬ ((o : Int) = -1) := by omega
    simp only [hidx, if_false, NODE_nat, hn, ht, hl, hr]
    refine Outcome.bind_ne_timeout _ _ (hn1 k (by omega) k (by omega) text bol eol str)
      (fun r => ?_)
    cases r with
    | some r => simp
    | none => exact hn2 k (by omega) k (by omega) text bol eol str
  | group_lost x hi l n hn ht hl hc ih =>
    refine ⟨2, fun f hf text bol eol str nx => ?_⟩
    obtain ⟨k, rfl⟩ : ∃ k, f = k + 2 := ⟨f - 2, by omega⟩
    rw [regex_match_node]
    have hidx : ¬ ((x : Int) = -1) := by omega
    simp only [hidx, if_false, NODE_nat, hn, hl]
    have hch := match_chain_none_index regex
      (fun j s => regex_match_node regex text bol eol (k + 1) j s (-1))
      (fun s => by simp [regex_match_node]) k str
    rcases ht with ht | ht <;> simp only [ht, hch] <;> simp
  | or_lost lo hi o l r n hn ht hl hr hc hc2 ih ih2 =>
    obtain ⟨nc, hnc⟩ := ih
    refine ⟨nc + 2, fun f hf text bol eol str nx => ?_⟩
    obtain ⟨k, rfl⟩ : ∃ k, f = k + 2 := ⟨f - 2, by omega⟩
    rw [regex_match_node]
    have hidx : ¬ ((o : Int) = -1) := by omega
    simp only [hidx, if_false, NODE_nat, hn, ht, hl, hr]
    refine Outcome.bind_ne_timeout _ _ (hnc (k + 1) (by omega) (k + 1) (by omega) text bol eol str)
      (fun r => ?_)
    cases r with
    | some r => simp
    | none =>
      simp only []
      rw [match_chain_none_index regex _ (fun s => by simp [regex_match_node]) k str]
      simp
  | chain_last lo hi i n hc hn hnx ih =>
    obtain ⟨ni, hni⟩ := ih
    refine ⟨ni + 1, fun f hf g hg text bol eol str => ?_⟩
    obtain ⟨k, rfl⟩ : ∃ k, f = k + 1 := ⟨f - 1, by omega⟩
    rw [regex_match_chain]
    refine Outcome.bind_ne_timeout _ _ (hni g (by omega) text bol eol str (-1)) (fun r => ?_)
    cases r with
    | none => simp
    | some r => simp [NODE_nat, hn, hnx]
  | chain_cons lo mid hi i j n hc1 hn hnx hc2 ih1 ih2 =>
    obtain ⟨n1, hn1⟩ := ih1
    obtain ⟨n2, hn2⟩ := ih2
    refine ⟨n1 + n2 + 1, fun f hf g hg text bol eol str => ?_⟩
    obtain ⟨k, rfl⟩ : ∃ k, f = k + 1 := ⟨f - 1, by omega⟩
    rw [regex_match_chain]
    refine Outcome.bind_ne_timeout _ _ (hn1 g (by omega) text bol eol str (-1)) (fun r => ?_)
    cases r with
    | none => simp
    | some r =>
      have hj : ¬ ((j : Int) = -1) := by omega
      simp only [NODE_nat, hn, hnx, ne_eq, hj, not_false_eq_true, if_true]
      exact hn2 k (by omega) g (by omega) text bol eol r
  | entry_last i n hn ht hnx =>
    refine ⟨1, fun f hf text str => ?_⟩
    obtain ⟨k, rfl⟩ : ∃ k, f = k + 1 := ⟨f - 1, by omega⟩
    rw [regex_match_class]
    simp only [NODE_nat, hn]
    rcases ht with ht | ⟨ht, -⟩ <;> simp only [ht, hnx] <;>
    exact Outcome.bind_ne_timeout _ _ (read_ne_timeout _ _) (fun c => by simp)
  | entry_cons lo i j n hn ht hnx hc ih =>
    obtain ⟨nj, hnj⟩ := ih
    refine ⟨nj + 1, fun f hf text str => ?_⟩
    obtain ⟨k, rfl⟩ : ∃ k, f = k + 1 := ⟨f - 1, by omega⟩
    rw [regex_match_class]
    simp only [NODE_nat, hn]
    rcases ht with ht | ⟨ht, -⟩ <;> simp only [ht, hnx] <;>
    exact Outcome.bind_ne_timeout _ _ (read_ne_timeout _ _)
      (fun c => by split_ifs <;> first | exact hnj k (by omega) text str | simp)

/-! ## How the compiler grows the node array -/

theorem update_matchCount (b : RegexBuilder) (i : Int) (f : RegexNode → RegexNode) :
    (b.update i f).matchCount = b.matchCount := by
  unfold RegexBuilder.update
  cases NODE b.nodes i <;> rfl

theorem update_length (b : RegexBuilder) (i : Int) (f : RegexNode → RegexNode) :
    (b.update i f).nodes.length = b.nodes.length := by
  unfold RegexBuilder.update
  cases NODE b.nodes i <;> simp

theorem update_getElem?_ne (b : RegexBuilder) (i : Int) (f : RegexNode → RegexNode) (j : Nat)
    (h : (j : Int) ≠ i) : (b.update i f).nodes[j]? = b.nodes[j]? := by
  unfold RegexBuilder.update
  cases hN : NODE b.nodes i with
  | none => rfl
  | some n =>
    simp only []
    rw [List.getElem?_set_ne]
    intro hij
    unfold NODE at hN
    split_ifs at hN with h0
    apply h
    omega

theorem update_getElem?_eq (b : RegexBuilder) (i : Nat) (f : RegexNode → RegexNode) :
    (b.update (i : Int) f).nodes[i]? = (b.nodes[i]?).map f := by
  unfold RegexBuilder.update
  rw [NODE_nat]
  cases hN : b.nodes[i]? with
  | none => simp [hN]
  | some n =>
    have hlt := (List.getElem?_eq_some_iff.mp hN).1
    simp [List.getElem?_set, hlt]

theorem countP_set_same {α : Type} (p : α → Bool) (l : List α) (i : Nat) (a x : α)
    (h : l[i]? = some x) (hp : p a = p x) : (l.set i a).countP p = l.countP p := by
  induction l generalizing i with
  | nil => simp
  | cons y ys ih =>
    cases i with
    | zero =>
      simp only [List.getElem?_cons_zero, Option.some.injEq] at h
      subst h
      simp [List.countP_cons, hp]
    | succ k =>
      simp only [List.getElem?_cons_succ] at h
      simp [List.countP_cons, ih k h]

theorem countExpr_update (b : RegexBuilder) (i : Int) (f : RegexNode → RegexNode)
    (hf : ∀ n, NODE b.nodes i = some n →
      ((f n).type = REGEX_NODE_EXPR ↔ n.type = REGEX_NODE_EXPR)) :
    countExpr (b.update i f).nodes = countExpr b.nodes := by
  unfold RegexBuilder.update
  cases hN : NODE b.nodes i with
  | none => rfl
  | some n =>
    simp only []
    have hfn := hf n hN
    unfold NODE at hN
    split_ifs at hN with h0
    unfold countExpr
    apply countP_set_same _ _ _ _ n
    · simpa using hN
    · simp [hfn]

theorem countExpr_append (l : List RegexNode) (n : RegexNode) :
    countExpr (l ++ [n]) = countExpr l + if n.type = REGEX_NODE_EXPR then 1 else 0 := by
  unfold countExpr
  rw [List.countP_append]
  simp [List.countP_cons]

theorem Grows.refl (lo : Nat) (b : RegexBuilder) : Grows lo b b :=
  ⟨le_refl _, fun _ _ => rfl, rfl⟩

theorem Grows.of_eq {lo : Nat} {b b' : RegexBuilder} (hn : b'.nodes = b.nodes)
    (hm : b'.matchCount = b.matchCount) : Grows lo b b' :=
  ⟨by rw [hn], fun _ _ => by rw [hn], by rw [hn, hm]⟩

theorem Grows.trans {lo lo1 : Nat} {b b1 b2 : RegexBuilder} (h1 : Grows lo b b1)
    (h2 : Grows lo1 b1 b2) (hlo : lo ≤ lo1) : Grows lo b b2 :=
  ⟨le_trans h1.len h2.len, fun j hj => by rw [h2.frame j (by omega), h1.frame j hj], by
    have := h1.count
    have := h2.count
    omega⟩

theorem Grows.alloc {lo : Nat} {b b' : RegexBuilder} (n : RegexNode)
    (hn : b'.nodes = b.nodes ++ [n]) (hm : b'.matchCount = b.matchCount)
    (hlo : lo ≤ b.nodes.length) (ht : n.type ≠ REGEX_NODE_EXPR) : Grows lo b b' :=
  ⟨by simp [hn], fun j hj => by rw [hn, List.getElem?_append_left (by omega)], by
    rw [hn, hm, countExpr_append]
    simp [ht]⟩

theorem Grows.alloc_expr {lo : Nat} {b b' : RegexBuilder} (n : RegexNode)
    (hn : b'.nodes = b.nodes ++ [n]) (hm : b'.matchCount = b.matchCount + 1)
    (hlo : lo ≤ b.nodes.length) (ht : n.type = REGEX_NODE_EXPR) : Grows lo b b' :=
  ⟨by simp [hn], fun j hj => by rw [hn, List.getElem?_append_left (by omega)], by
    rw [hn, hm, countExpr_append]
    simp [ht]
    omega⟩

theorem Grows.update {lo : Nat} {b b' : RegexBuilder} (h : Grows lo b b') (i : Nat)
    (hi : lo ≤ i) (f : RegexNode → RegexNode)
    (hf : ∀ n, b'.nodes[i]? = some n →
      ((f n).type = REGEX_NODE_EXPR ↔ n.type = REGEX_NODE_EXPR)) :
    Grows lo b (b'.update (i : Int) f) :=
  ⟨by rw [update_length]; exact h.len, fun j hj => by
      rw [update_getElem?_ne _ _ _ _ (by omega), h.frame j hj], by
    rw [update_matchCount, countExpr_update _ _ _ (fun n hn => hf n (by rw [← NODE_nat]; exact hn))]
    exact h.count⟩

theorem Grows.link_chain {lo : Nat} {b b' : RegexBuilder} (h : Grows lo b b') (i : Nat)
    (hi : lo ≤ i) (c : Int) : Grows lo b (link_chain b' (i : Int) c) := by
  unfold Libregex.link_chain
  split_ifs
  · exact h.update i hi _ (fun _ _ => Iff.rfl)
  · exact h

theorem link_chain_new (N : List RegexNode) (mc : Nat) (rx : List Int) (q : Nat)
    (t : RegexNodeType) (l r chain : Int) :
    link_chain (RegexBuilder.mk (N ++ [RegexNode.mk t (-1) l r]) mc rx q) (N.length : Int) chain =
      RegexBuilder.mk (N ++ [RegexNode.mk t chain l r]) mc rx q := by
  unfold link_chain
  split_ifs with h
  · rw [update_append_length _ N [] (RegexNode.mk t (-1) l r) _ rfl]
  · simp only [ne_eq, not_not] at h
    rw [h]

theorem link_chain_length (b : RegexBuilder) (i c : Int) :
    (link_chain b i c).nodes.length = b.nodes.length := by
  unfold link_chain
  split_ifs
  · exact update_length _ _ _
  · rfl

theorem link_chain_getElem?_ne (b : RegexBuilder) (i c : Int) (j : Nat) (h : (j : Int) ≠ i) :
    (link_chain b i c).nodes[j]? = b.nodes[j]? := by
  unfold link_chain
  split_ifs
  · exact update_getElem?_ne _ _ _ _ h
  · rfl

theorem Grows.fetch {lo : Nat} {b b' : RegexBuilder} (h : Grows lo b b') (q : Nat) :
    Grows lo b { b' with p := q } :=
  ⟨h.len, h.frame, h.count⟩

/-! ## The entries of a class -/

theorem ClassInv.le {lo : Nat} {chain cc : Int} {N : List RegexNode}
    (h : ClassInv lo chain cc N) : lo ≤ N.length := by
  rcases h with ⟨_, h, _⟩ | ⟨e, _, h, _⟩
  · omega
  · have := h.bounds
    omega

theorem ClassInv.push {lo : Nat} {chain cc : Int} {N : List RegexNode}
    (h : ClassInv lo chain cc N) (c : Int) :
    Layout (N ++ [{ type := REGEX_NODE_CHAR, next := chain, left := c, right := -1 }]) lo
      (N.length + 1) Shape.entries N.length := by
  rcases h with ⟨h1, h2, _⟩ | ⟨e, h1, h2, _⟩
  · subst h1
    rw [← h2]
    exact Layout.entry_last N.length
      { type := REGEX_NODE_CHAR, next := -1, left := c, right := -1 } (by simp) (Or.inl rfl) rfl
  · subst h1
    refine Layout.entry_cons lo N.length e
      { type := REGEX_NODE_CHAR, next := (e : Int), left := c, right := -1 } (by simp) (Or.inl rfl)
      rfl ?_
    exact h2.transfer (fun j _ hj => by rw [List.getElem?_append_left hj])

theorem Layout.promote {N N' : List RegexNode} {lo hi e : Nat} {s : Shape}
    (h : Layout N lo hi s e) (n n' : RegexNode) (hs : s = Shape.entries) (hn : N[e]? = some n)
    (hn' : N'[e]? = some n') (hnx : n'.next = n.next)
    (ht : n'.type = REGEX_NODE_CHAR ∨ (n'.type = REGEX_NODE_RANGE ∧ n'.left ≤ n'.right))
    (hag : ∀ j, lo ≤ j → j < hi → j ≠ e → N'[j]? = N[j]?) :
    Layout N' lo hi Shape.entries e := by
  cases h with
  | entry_last i m hm _ hmx =>
    rw [hn] at hm
    cases hm
    exact Layout.entry_last _ n' hn' ht (by rw [hnx, hmx])
  | entry_cons lo i j m hm _ hmx hc =>
    rw [hn] at hm
    cases hm
    have hb := hc.bounds
    exact Layout.entry_cons _ _ j n' hn' ht (by rw [hnx, hmx])
      (hc.transfer (fun k h1 h2 => hag k h1 (by omega) (by omega)))
  | _ => cases hs

theorem class_body_layout (lo : Nat) (fuel : Nat) :
    ∀ (chain cc : Int) (b : RegexBuilder), ClassInv lo chain cc b.nodes →
      (chain ≠ -1 ∨ regex_char_test b ≠ 93) →
      Outcome.sat (regex_compile_class_body fuel chain cc b)
        (fun chain' b' => Grows lo b b' ∧
          ∃ e : Nat, chain' = (e : Int) ∧ Layout b'.nodes lo b'.nodes.length Shape.entries e)
        (fun _ => True) := by
  induction fuel with
  | zero => intro _ _ _ _ _; trivial
  | succ k ih =>
    intro chain cc b hinv hpre
    have hlo := hinv.le
    rw [regex_compile_class_body]
    by_cases htest : regex_char_test b ≠ CH_RBRACKET
    · rw [if_pos htest]
      refine Outcome.sat_andThen _ _
        (fun dash b1 => (dash = true → cc ≠ 0) ∧ b1.nodes = b.nodes ∧
          b1.matchCount = b.matchCount) _ _ ?_ ?_
      · split_ifs with hcc
        · exact Outcome.sat_weaken _ _ _ _ _ (sat_regex_char_test_and_fetch b _)
            (fun v b' h => by rcases h with ⟨_, _, rfl⟩ | ⟨_, _, rfl⟩ <;> simp [hcc])
            (fun _ _ => trivial)
        · simp
      · intro dash b1 ⟨hd, hn1, hm1⟩
        cases dash with
        | true =>
          have hcc := hd rfl
          simp only [if_true]
          refine Outcome.sat_andThen _ _
            (fun _ b2 => b2.nodes = b.nodes ∧ b2.matchCount = b.matchCount) _ _ ?_ ?_
          · exact Outcome.sat_weaken _ _ _ _ _ (sat_regex_char_fetch b1)
              (fun v b' h => by rcases h with ⟨_, _, rfl⟩; exact ⟨hn1, hm1⟩)
              (fun _ _ => trivial)
          · intro eor b2 ⟨hn2, hm2⟩
            split_ifs with h93 hgt
            · rw [regex_node_value_eq]
              simp only [Outcome.andThen_ok]
              rw [link_chain_new]
              simp only [Outcome.sat_ok, hn2]
              refine ⟨Grows.alloc _ rfl hm2 hlo (by simp), b.nodes.length, rfl, ?_⟩
              simpa using hinv.push 45
            · trivial
            · rcases hinv with ⟨_, _, h0⟩ | ⟨e, he, hL, hhead⟩
              · exact absurd h0 hcc
              · obtain ⟨n, hn, hnt, hnl⟩ := hhead hcc
                subst he
                have hb := hL.bounds
                apply Outcome.sat_weaken _ _ _ _ _
                  (ih (e : Int) 0 _ ?_ (Or.inl (by omega))) ?_ (fun _ h => h)
                · refine Or.inr ⟨e, rfl, ?_, fun h => absurd rfl h⟩
                  simp only [link_chain_length, update_length, hn2]
                  refine hL.promote n { n with type := REGEX_NODE_RANGE, right := eor } rfl hn ?_
                    rfl (Or.inr ⟨rfl, ?_⟩) ?_
                  · unfold link_chain
                    split_ifs <;>
                    simp [update_getElem?_eq, hn2, hn, NODE_nat]
                  · show n.left ≤ eor
                    rw [hnl]
                    omega
                  · intro j _ _ hj
                    rw [link_chain_getElem?_ne _ _ _ _ (by omega),
                      update_getElem?_ne _ _ _ _ (by omega),
                      update_getElem?_ne _ _ _ _ (by omega), hn2]
                · intro chain' b' ⟨hg, hq⟩
                  refine ⟨Grows.trans ?_ hg (le_refl _), hq⟩
                  refine Grows.link_chain ?_ e hb.1 _
                  refine Grows.update ?_ e hb.1 _ (fun _ _ => Iff.rfl)
                  refine Grows.update (Grows.of_eq hn2 hm2) e hb.1 _ (fun m hm => ?_)
                  rw [hn2, hn] at hm
                  cases hm
                  simp [hnt]
        | false =>
          simp only [Bool.false_eq_true, if_false]
          refine Outcome.sat_andThen _ _
            (fun v b2 => v ≠ 0 ∧ b2.nodes = b.nodes ∧ b2.matchCount = b.matchCount) _ _ ?_ ?_
          · exact Outcome.sat_weaken _ _ _ _ _ (sat_regex_char_fetch b1)
              (fun v b' h => by rcases h with ⟨_, h0, rfl⟩; exact ⟨h0, hn1, hm1⟩)
              (fun _ _ => trivial)
          · intro v b2 ⟨hv, hn2, hm2⟩
            rw [regex_node_value_eq]
            simp only [Outcome.andThen_ok]
            rw [link_chain_new]
            apply Outcome.sat_weaken _ _ _ _ _
              (ih _ v _ ?_ (Or.inl (by omega))) ?_ (fun _ h => h)
            · refine Or.inr ⟨b2.nodes.length, rfl, ?_, fun _ =>
                ⟨RegexNode.mk REGEX_NODE_CHAR chain v (-1), ?_, rfl, rfl⟩⟩
              · simp only [hn2]
                simpa using hinv.push v
              · simp
            · intro chain' b' ⟨hg, hq⟩
              refine ⟨Grows.trans ?_ hg (le_refl _), hq⟩
              exact Grows.alloc (RegexNode.mk REGEX_NODE_CHAR chain v (-1)) (by rw [← hn2]) hm2 hlo
                (by simp)
    · rw [if_neg htest]
      simp only [ne_eq, not_not] at htest
      rcases hpre with hpre | hpre
      · rcases hinv with ⟨h, _, _⟩ | ⟨e, he, hL, _⟩
        · exact absurd h hpre
        · exact ⟨Grows.refl _ _, e, he, hL⟩
      · exact absurd htest hpre

/-! ## The layout left by atoms and quantifiers -/

theorem Same.of_self (b : RegexBuilder) : Same b b := ⟨rfl, rfl⟩

theorem Same.grows {b0 b b' : RegexBuilder} (h : Same b0 b) {lo : Nat} (hg : Grows lo b b') :
    Grows lo b0 b' :=
  Grows.trans (Grows.of_eq h.1 h.2) hg (le_refl _)

theorem UnitPost.same_unit {b0 b b' : RegexBuilder} {r : Int} (h : UnitPost b0 r b)
    (hs : Same b b') : UnitPost b0 r b' := by
  obtain ⟨hg, i, n, rfl, hL, hn, hx⟩ := h
  exact ⟨Grows.trans hg (Grows.of_eq hs.1 hs.2) hg.len, i, n, rfl, by rw [hs.1]; exact hL,
    by rw [hs.1]; exact hn, hx⟩

theorem ChainPost.same_right {b0 b b' : RegexBuilder} {r : Int} (h : ChainPost b0 r b)
    (hs : Same b b') : ChainPost b0 r b' := by
  obtain ⟨hg, i, rfl, hL⟩ := h
  exact ⟨Grows.trans hg (Grows.of_eq hs.1 hs.2) hg.len, i, rfl, by rw [hs.1]; exact hL⟩

theorem ChainPost.list {b0 b : RegexBuilder} {r : Int} (h : ChainPost b0 r b) :
    ListPost b0 r b :=
  ⟨h.1, Or.inr h.2⟩

theorem same_fetch {b0 b : RegexBuilder} (h : Same b0 b) :
    Outcome.sat (regex_char_fetch b) (fun _ b' => Same b0 b') (fun _ => True) :=
  Outcome.sat_weaken _ _ _ _ _ (sat_regex_char_fetch b)
    (fun v b' hv => by rcases hv with ⟨_, _, rfl⟩; exact h) (fun _ _ => trivial)

theorem same_test_and_fetch {b0 b : RegexBuilder} (h : Same b0 b) (c : Int) :
    Outcome.sat (regex_char_test_and_fetch b c) (fun _ b' => Same b0 b') (fun _ => True) :=
  Outcome.sat_weaken _ _ _ _ _ (sat_regex_char_test_and_fetch b c)
    (fun v b' hv => by rcases hv with ⟨_, _, rfl⟩ | ⟨_, _, rfl⟩ <;> exact h) (fun _ _ => trivial)

theorem leaf_unit {b0 b : RegexBuilder} (h : Same b0 b) (t : RegexNodeType) (l : Int)
    (ht : t = REGEX_NODE_BEGIN ∨ t = REGEX_NODE_END ∨ t = REGEX_NODE_CHAR ∨ t = REGEX_NODE_ANY) :
    UnitPost b0 (b.nodes.length : Int)
      (RegexBuilder.mk (b.nodes ++ [RegexNode.mk t (-1) l (-1)]) b.matchCount b.regex b.p) := by
  obtain ⟨hn, hm⟩ := h
  refine ⟨Grows.alloc (RegexNode.mk t (-1) l (-1)) (by rw [← hn]) hm (le_refl _) ?_,
    b.nodes.length, RegexNode.mk t (-1) l (-1), rfl, ?_, by simp, rfl⟩
  · rcases ht with rfl | rfl | rfl | rfl <;> simp
  · have hL : Layout (b.nodes ++ [RegexNode.mk t (-1) l (-1)]) b.nodes.length
        (b.nodes.length + 1) Shape.node b.nodes.length :=
      Layout.leaf b.nodes.length (RegexNode.mk t (-1) l (-1)) (by simp) ht
    simpa [hn] using hL

theorem alloc_leaf_unit {b0 b : RegexBuilder} (h : Same b0 b) (t : RegexNodeType)
    (ht : t = REGEX_NODE_BEGIN ∨ t = REGEX_NODE_END ∨ t = REGEX_NODE_CHAR ∨ t = REGEX_NODE_ANY) :
    Outcome.sat (regex_alloc_node b t) (UnitPost b0) (fun _ => True) :=
  leaf_unit h t (-1) ht

theorem node_value_char_unit {b0 b : RegexBuilder} (h : Same b0 b) (v : Int) :
    Outcome.sat (regex_node_value b REGEX_NODE_CHAR v) (UnitPost b0) (fun _ => True) := by
  rw [regex_node_value_eq]
  exact leaf_unit h REGEX_NODE_CHAR v (Or.inr (Or.inr (Or.inl rfl)))

theorem char_unit {b0 b : RegexBuilder} (h : Same b0 b) :
    Outcome.sat (regex_compile_char b) (UnitPost b0) (fun _ => True) := by
  unfold regex_compile_char
  refine Outcome.sat_andThen _ _ _ _ _ (same_test_and_fetch h _) (fun esc b1 h1 => ?_)
  cases esc with
  | false =>
    simp only [Bool.false_eq_true, if_false]
    exact Outcome.sat_andThen _ _ _ _ _ (same_fetch h1) (fun v b2 h2 => node_value_char_unit h2 v)
  | true =>
    simp only [if_true]
    refine Outcome.sat_andThen _ _ _ _ _ (same_fetch h1) (fun v b2 h2 => ?_)
    split_ifs <;> exact node_value_char_unit h2 _

theorem class_unit (fuel : Nat) {b0 b : RegexBuilder} (h : Same b0 b) :
    Outcome.sat (regex_compile_class fuel b) (UnitPost b0) (fun _ => True) := by
  unfold regex_compile_class
  refine Outcome.sat_andThen _ _ _ _ _ (same_fetch h) (fun _ b1 h1 => ?_)
  refine Outcome.sat_andThen _ _ _ _ _ (same_test_and_fetch h1 _) (fun inv b2 h2 => ?_)
  simp only [regex_alloc_node, Outcome.andThen_ok]
  generalize ht : (if inv = true then REGEX_NODE_CLASS_INVERSE else REGEX_NODE_CLASS) = t
  have htc : t = REGEX_NODE_CLASS ∨ t = REGEX_NODE_CLASS_INVERSE := by
    rw [← ht]; cases inv <;> simp
  generalize hB : RegexBuilder.mk (b2.nodes ++ [RegexNode.mk t (-1) (-1) (-1)]) b2.matchCount
    b2.regex b2.p = b3
  have hn3 : b3.nodes = b0.nodes ++ [RegexNode.mk t (-1) (-1) (-1)] := by
    rw [← hB, ← h2.1]
  have hm3 : b3.matchCount = b0.matchCount := by rw [← hB]; exact h2.2
  have hlen : (b2.nodes.length : Int) = (b0.nodes.length : Int) := by rw [h2.1]
  rw [hlen]
  by_cases htest : regex_char_test b3 = CH_RBRACKET
  · rw [if_pos htest]; trivial
  · rw [if_neg htest]
    have hg3 : Grows b0.nodes.length b0 b3 :=
      Grows.alloc _ hn3 hm3 (le_refl _) (by rcases htc with rfl | rfl <;> simp)
    refine Outcome.sat_andThen _ _ _ _ _
      (class_body_layout (b0.nodes.length + 1) fuel (-1) 0 b3
        (Or.inl ⟨rfl, by simp [hn3], rfl⟩) (Or.inr htest)) ?_
    rintro chain b4 ⟨hg4, e, rfl, hL⟩
    have hb := hL.bounds
    have h4c : b4.nodes[b0.nodes.length]? = some (RegexNode.mk t (-1) (-1) (-1)) := by
      rw [hg4.frame _ (by omega), hn3]
      simp
    have hfin : UnitPost b0 (b0.nodes.length : Int)
        (b4.update (b0.nodes.length : Int) fun n => { n with left := (e : Int) }) := by
      refine ⟨Grows.update (Grows.trans hg3 hg4 (by omega)) _ (le_refl _) _ (fun _ _ => Iff.rfl),
        b0.nodes.length, RegexNode.mk t (-1) (e : Int) (-1), rfl, ?_, ?_, rfl⟩
      · rw [update_length]
        refine Layout.cls _ _ e (RegexNode.mk t (-1) (e : Int) (-1)) ?_ htc rfl ?_
        · rw [update_getElem?_eq, h4c]; rfl
        · exact hL.transfer (fun j h1 _ => update_getElem?_ne _ _ _ _ (by omega))
      · rw [update_getElem?_eq, h4c]; rfl
    refine Outcome.sat_andThen _ _ (fun _ b5 => UnitPost b0 (b0.nodes.length : Int) b5) _ _ ?_ ?_
    · exact Outcome.sat_weaken _ _ _ _ _ (sat_regex_char_fetch _)
        (fun v b' hv => by rcases hv with ⟨_, _, rfl⟩; exact hfin.same_unit ⟨rfl, rfl⟩)
        (fun _ _ => trivial)
    · intro close b5 h5
      split_ifs
      · trivial
      · exact h5

theorem quantifier_unit {b0 b : RegexBuilder} {ret : Int} (h : UnitPost b0 ret b) :
    Outcome.sat (regex_compile_quantifier ret b) (UnitPost b0) (fun _ => True) := by
  have hwrap : ∀ (mn mx : Nat) (b1 : RegexBuilder), Same b b1 →
      Outcome.sat ((regex_node_value b1 REGEX_NODE_GREEDY ret).andThen fun r b2 =>
        .ok (r, b2.update r fun n => { n with right := (((mn <<< 16) ||| mx : Nat) : Int) }))
        (UnitPost b0) (fun _ => True) := by
    intro mn mx b1 h1
    obtain ⟨hg, a, m, rfl, hL, hm, hmx⟩ := h
    rw [regex_node_value_eq]
    simp only [Outcome.andThen_ok]
    rw [update_append_length _ b1.nodes [] (RegexNode.mk REGEX_NODE_GREEDY (-1) (a : Int) (-1)) _
      rfl]
    simp only [Outcome.sat_ok]
    rw [h1.1]
    generalize hr : (((mn <<< 16) ||| mx : Nat) : Int) = r
    have hb := hL.bounds
    refine ⟨Grows.trans hg (Grows.alloc (RegexNode.mk REGEX_NODE_GREEDY (-1) (a : Int) r) rfl h1.2
        (le_refl _) (by simp)) hg.len,
      b.nodes.length, RegexNode.mk REGEX_NODE_GREEDY (-1) (a : Int) r, rfl, ?_, by simp, rfl⟩
    have hL2 : Layout (b.nodes ++ [RegexNode.mk REGEX_NODE_GREEDY (-1) (a : Int) r])
        b0.nodes.length (b.nodes.length + 1) Shape.node b.nodes.length :=
      Layout.greedy
      b0.nodes.length b.nodes.length a (RegexNode.mk REGEX_NODE_GREEDY (-1) (a : Int) r) m
      (by simp) rfl rfl
      (hL.transfer (fun j _ hj => by rw [List.getElem?_append_left hj]))
      (by rw [List.getElem?_append_left hb.2.1]; exact hm) hmx
    simpa using hL2
  unfold regex_compile_quantifier
  simp only []
  split_ifs
  · exact Outcome.sat_andThen _ _ _ _ _ (same_fetch (Same.of_self b)) (fun _ b1 h1 => hwrap _ _ b1 h1)
  · exact Outcome.sat_andThen _ _ _ _ _ (same_fetch (Same.of_self b)) (fun _ b1 h1 => hwrap _ _ b1 h1)
  · exact Outcome.sat_andThen _ _ _ _ _ (same_fetch (Same.of_self b)) (fun _ b1 h1 => hwrap _ _ b1 h1)
  · exact h

/-! ## The layout left by elements and lists -/

theorem ChainPost.same_left {b0 b b' : RegexBuilder} {r : Int} (hs : Same b0 b)
    (h : ChainPost b r b') : ChainPost b0 r b' := by
  obtain ⟨hg, i, rfl, hL⟩ := h
  exact ⟨hs.grows (by rw [← hs.1]; exact hg), i, rfl, by rw [← hs.1]; exact hL⟩

theorem chain_cons_post {b0 b2 b3 : RegexBuilder} {ret next : Int} (h2 : UnitPost b0 ret b2)
    (h3 : ChainPost b2 next b3) :
    ChainPost b0 ret (b3.update ret fun n => { n with next := next }) := by
  obtain ⟨hg2, i, n, rfl, hLn, hn, hnx⟩ := h2
  obtain ⟨hg3, j, rfl, hLc⟩ := h3
  have hb := hLn.bounds
  have hbc := hLc.bounds
  have hi3 : b3.nodes[i]? = some n := by rw [hg3.frame i hb.2.1, hn]
  refine ⟨Grows.update (Grows.trans hg2 hg3 hg2.len) i hb.1 _ (fun _ _ => Iff.rfl), i, rfl, ?_⟩
  rw [update_length]
  refine Layout.chain_cons _ b2.nodes.length _ i j (RegexNode.mk n.type (j : Int) n.left n.right)
    ?_ ?_ rfl ?_
  · refine Layout.set_next (j : Int) hLn ?_ ?_
    · rw [update_getElem?_eq, hi3, hn]
    · intro k _ h2 hk
      rw [update_getElem?_ne _ _ _ _ (by omega), hg3.frame k h2]
  · rw [update_getElem?_eq, hi3]; rfl
  · exact hLc.transfer (fun k h1 _ => update_getElem?_ne _ _ _ _ (by omega))

theorem UnitPost.chain {b0 b : RegexBuilder} {ret : Int} (h : UnitPost b0 ret b) :
    ChainPost b0 ret b := by
  obtain ⟨hg, i, n, rfl, hLn, hn, hnx⟩ := h
  exact ⟨hg, i, rfl, Layout.chain_last _ _ i n hLn hn hnx⟩

theorem group_unit {env : StoreEnv} (fuel : Nat)
    (ihl : ∀ b0 b, Same b0 b →
      Outcome.sat (regex_compile_list env fuel b) (ListPost b0) (fun _ => True))
    {b0 b : RegexBuilder} (h : Same b0 b) :
    Outcome.sat
      ((regex_char_fetch b).andThen fun _ builder =>
        (regex_char_test_and_fetch builder SYMBOL_ZEROONE).andThen fun question builder =>
        (if question then
            (regex_char_fetch builder).andThen fun colon builder =>
            if colon ≠ CH_COLON then .error .invalid_group
            else regex_alloc_node builder REGEX_NODE_EXPR_NOCAPTURE
          else
            regex_alloc_node { builder with matchCount := builder.matchCount + 1 }
              REGEX_NODE_EXPR).andThen fun ret before =>
        (regex_compile_list env fuel before).andThen fun list builder =>
        let builder := builder.store env before.nodes.length ret fun n => { n with left := list }
        (regex_char_fetch builder).andThen fun close builder =>
        if close ≠ CH_RPAREN then .error .open_expr else .ok (ret, builder))
      (UnitPost b0) (fun _ => True) := by
  refine Outcome.sat_andThen _ _ _ _ _ (same_fetch h) (fun _ b1 h1 => ?_)
  refine Outcome.sat_andThen _ _ _ _ _ (same_test_and_fetch h1 _) (fun question b2 h2 => ?_)
  refine Outcome.sat_andThen _ _
    (fun ret b3 => ret = (b0.nodes.length : Int) ∧ Grows b0.nodes.length b0 b3 ∧
      ∃ t, (t = REGEX_NODE_EXPR ∨ t = REGEX_NODE_EXPR_NOCAPTURE) ∧
        b3.nodes = b0.nodes ++ [RegexNode.mk t (-1) (-1) (-1)]) _ _ ?_ ?_
  · cases question with
    | true =>
      simp only [if_true]
      refine Outcome.sat_andThen _ _ _ _ _ (same_fetch h2) (fun colon b2' h2' => ?_)
      split_ifs
      · trivial
      · simp only [regex_alloc_node, Outcome.sat_ok]
        have hn : b2'.nodes ++ [RegexNode.mk REGEX_NODE_EXPR_NOCAPTURE (-1) (-1) (-1)] =
            b0.nodes ++ [RegexNode.mk REGEX_NODE_EXPR_NOCAPTURE (-1) (-1) (-1)] := by rw [h2'.1]
        exact ⟨by rw [h2'.1],
          Grows.alloc (RegexNode.mk REGEX_NODE_EXPR_NOCAPTURE (-1) (-1) (-1)) hn h2'.2 (le_refl _)
            (by simp), _, Or.inr rfl, hn⟩
    | false =>
      simp only [Bool.false_eq_true, if_false, regex_alloc_node, Outcome.sat_ok]
      have hn : b2.nodes ++ [RegexNode.mk REGEX_NODE_EXPR (-1) (-1) (-1)] =
          b0.nodes ++ [RegexNode.mk REGEX_NODE_EXPR (-1) (-1) (-1)] := by rw [h2.1]
      exact ⟨by rw [h2.1],
        Grows.alloc_expr (RegexNode.mk REGEX_NODE_EXPR (-1) (-1) (-1)) hn
          (by show b2.matchCount + 1 = b0.matchCount + 1; rw [h2.2]) (le_refl _) rfl,
        _, Or.inl rfl, hn⟩
  · rintro ret b3 ⟨rfl, hg3, t, ht, hn3⟩
    refine Outcome.sat_andThen _ _ _ _ _ (ihl b3 b3 (Same.of_self b3)) ?_
    rintro list b4 ⟨hg4, hlist⟩
    have hlen3 : b3.nodes.length = b0.nodes.length + 1 := by simp [hn3]
    have h4x : b4.nodes[b0.nodes.length]? = some (RegexNode.mk t (-1) (-1) (-1)) := by
      rw [hg4.frame _ (by omega), hn3]
      simp
    have hlost : UnitPost b0 (b0.nodes.length : Int) b4 := by
      refine ⟨Grows.trans hg3 hg4 hg3.len, b0.nodes.length, RegexNode.mk t (-1) (-1) (-1), rfl,
        ?_, h4x, rfl⟩
      rcases hlist with ⟨_, hn4⟩ | ⟨l, _, hL⟩
      · have hlen4 : b4.nodes.length = b0.nodes.length + 1 := by rw [hn4, hlen3]
        rw [hlen4]
        exact Layout.group_empty _ (RegexNode.mk t (-1) (-1) (-1)) h4x ht rfl
      · rw [hlen3] at hL
        exact Layout.group_lost _ _ l (RegexNode.mk t (-1) (-1) (-1)) h4x ht rfl hL
    have hupd : UnitPost b0 (b0.nodes.length : Int)
        (b4.update (b0.nodes.length : Int) fun n => { n with left := list }) := by
      refine ⟨Grows.update (Grows.trans hg3 hg4 hg3.len) _ (le_refl _) _ (fun _ _ => Iff.rfl),
        b0.nodes.length, RegexNode.mk t (-1) list (-1), rfl, ?_, ?_, rfl⟩
      · rw [update_length]
        rcases hlist with ⟨rfl, hn4⟩ | ⟨l, rfl, hL⟩
        · have hlen4 : b4.nodes.length = b0.nodes.length + 1 := by rw [hn4, hlen3]
          rw [hlen4]
          refine Layout.group_empty _ (RegexNode.mk t (-1) (-1) (-1)) ?_ ht rfl
          rw [update_getElem?_eq, h4x]; rfl
        · rw [hlen3] at hL
          refine Layout.group _ _ l (RegexNode.mk t (-1) (l : Int) (-1)) ?_ ht rfl ?_
          · rw [update_getElem?_eq, h4x]; rfl
          · exact hL.transfer (fun j h1 _ => update_getElem?_ne _ _ _ _ (by omega))
      · rw [update_getElem?_eq, h4x]; rfl
    have hfin : UnitPost b0 (b0.nodes.length : Int)
        (b4.store env b3.nodes.length (b0.nodes.length : Int) fun n => { n with left := list }) := by
      rcases store_cases env b3.nodes.length b4 (b0.nodes.length : Int)
        (fun n => { n with left := list }) with hs | hs
      · rw [hs]; exact hupd
      · rw [hs]; exact hlost
    refine Outcome.sat_andThen _ _ (fun _ b5 => UnitPost b0 (b0.nodes.length : Int) b5) _ _ ?_ ?_
    · exact Outcome.sat_weaken _ _ _ _ _ (sat_regex_char_fetch _)
        (fun v b' hv => by rcases hv with ⟨_, _, rfl⟩; exact hfin.same_unit ⟨rfl, rfl⟩)
        (fun _ _ => trivial)
    · intro close b5 h5
      split_ifs
      · trivial
      · exact h5

theorem list_tail {env : StoreEnv} (fuel : Nat)
    (ihl : ∀ b0 b, Same b0 b →
      Outcome.sat (regex_compile_list env fuel b) (ListPost b0) (fun _ => True))
    {b0 b4 : RegexBuilder} {ret : Int} (h4 : ChainPost b0 ret b4) :
    Outcome.sat
      ((regex_char_test_and_fetch b4 SYMBOL_BRANCH).andThen fun branch builder =>
        if branch then
          (regex_node_value builder REGEX_NODE_OR ret).andThen fun ret before =>
          (regex_compile_list env fuel before).andThen fun right builder =>
          .ok (ret, builder.store env before.nodes.length ret fun n => { n with right := right })
        else .ok (ret, builder))
      (ListPost b0) (fun _ => True) := by
  refine Outcome.sat_andThen _ _ _ _ _ (same_test_and_fetch (Same.of_self b4) _)
    (fun branch b5 h5 => ?_)
  cases branch with
  | false =>
    simp only [Bool.false_eq_true, if_false]
    exact (h4.same_right h5).list
  | true =>
    simp only [if_true]
    rw [regex_node_value_eq]
    simp only [Outcome.andThen_ok]
    obtain ⟨hg5, l, rfl, hL⟩ := h4.same_right h5
    generalize hB : RegexBuilder.mk (b5.nodes ++ [RegexNode.mk REGEX_NODE_OR (-1) (l : Int) (-1)])
      b5.matchCount b5.regex b5.p = b6
    have hn6 : b6.nodes = b5.nodes ++ [RegexNode.mk REGEX_NODE_OR (-1) (l : Int) (-1)] := by
      rw [← hB]
    have hm6 : b6.matchCount = b5.matchCount := by rw [← hB]
    have hlen6 : b6.nodes.length = b5.nodes.length + 1 := by simp [hn6]
    have hg6 : Grows b0.nodes.length b0 b6 :=
      Grows.trans hg5 (Grows.alloc _ hn6 hm6 (le_refl _) (by simp)) hg5.len
    refine Outcome.sat_andThen _ _ _ _ _ (ihl b6 b6 (Same.of_self b6)) ?_
    rintro right b7 ⟨hg7, hright⟩
    have hb := hL.bounds
    have h7o : b7.nodes[b5.nodes.length]? = some (RegexNode.mk REGEX_NODE_OR (-1) (l : Int) (-1)) := by
      rw [hg7.frame _ (by omega), hn6]
      simp
    have h7lt : ∀ j, j < b5.nodes.length → b7.nodes[j]? = b5.nodes[j]? := by
      intro j hj
      rw [hg7.frame _ (by omega), hn6, List.getElem?_append_left hj]
    have hlost : ListPost b0 (b5.nodes.length : Int) b7 := by
      refine ⟨Grows.trans hg6 hg7 hg6.len, Or.inr ⟨b5.nodes.length, rfl, ?_⟩⟩
      refine Layout.chain_last _ _ _ (RegexNode.mk REGEX_NODE_OR (-1) (l : Int) (-1)) ?_ h7o rfl
      have hLl : Layout b7.nodes b0.nodes.length b5.nodes.length Shape.chain l :=
        hL.transfer (fun j _ h2 => h7lt j h2)
      rcases hright with ⟨_, hn7⟩ | ⟨r, _, hR⟩
      · have hlen7 : b7.nodes.length = b5.nodes.length + 1 := by rw [hn7, hlen6]
        rw [hlen7]
        exact Layout.or_left _ _ l (RegexNode.mk REGEX_NODE_OR (-1) (l : Int) (-1)) h7o rfl rfl
          rfl hLl
      · rw [hlen6] at hR
        exact Layout.or_lost _ _ _ l r (RegexNode.mk REGEX_NODE_OR (-1) (l : Int) (-1)) h7o
          rfl rfl rfl hLl hR
    have hupd : ListPost b0 (b5.nodes.length : Int)
        (b7.update (b5.nodes.length : Int) fun n => { n with right := right }) := by
      refine ⟨Grows.update (Grows.trans hg6 hg7 hg6.len) _ hg5.len _ (fun _ _ => Iff.rfl),
        Or.inr ⟨b5.nodes.length, rfl, ?_⟩⟩
      rw [update_length]
      refine Layout.chain_last _ _ _ (RegexNode.mk REGEX_NODE_OR (-1) (l : Int) right) ?_ ?_ rfl
      · have hLl : Layout (b7.update (b5.nodes.length : Int) fun n => { n with right := right }).nodes
            b0.nodes.length b5.nodes.length Shape.chain l :=
          hL.transfer (fun j _ h2 => by rw [update_getElem?_ne _ _ _ _ (by omega), h7lt j h2])
        rcases hright with ⟨rfl, hn7⟩ | ⟨r, rfl, hR⟩
        · have hlen7 : b7.nodes.length = b5.nodes.length + 1 := by rw [hn7, hlen6]
          rw [hlen7]
          refine Layout.or_left _ _ l (RegexNode.mk REGEX_NODE_OR (-1) (l : Int) (-1)) ?_ rfl rfl
            rfl hLl
          rw [update_getElem?_eq, h7o]; rfl
        · rw [hlen6] at hR
          refine Layout.or_both _ _ _ l r (RegexNode.mk REGEX_NODE_OR (-1) (l : Int) (r : Int)) ?_
            rfl rfl rfl hLl ?_
          · rw [update_getElem?_eq, h7o]; rfl
          · exact hR.transfer (fun j h1 _ => update_getElem?_ne _ _ _ _ (by omega))
      · rw [update_getElem?_eq, h7o]; rfl
    rw [Outcome.sat_ok, ← hn6]
    rcases store_cases env b6.nodes.length b7 (b5.nodes.length : Int)
      (fun n => { n with right := right }) with hs | hs
    · rw [hs]; exact hupd
    · rw [hs]; exact hlost

theorem element_list_layout (env : StoreEnv) (fuel : Nat) :
    ∀ (b0 b : RegexBuilder), Same b0 b →
      Outcome.sat (regex_compile_element env fuel b) (ChainPost b0) (fun _ => True) ∧
      Outcome.sat (regex_compile_list env fuel b) (ListPost b0) (fun _ => True) := by
  induction fuel with
  | zero => intro _ _ _; exact ⟨trivial, trivial⟩
  | succ k ih =>
    intro b0 b h
    have ihe := fun b0 b h => (ih b0 b h).1
    have ihl := fun b0 b h => (ih b0 b h).2
    constructor
    · rw [regex_compile_element]
      refine Outcome.sat_andThen _ _ (UnitPost b0) _ _ ?_ ?_
      · refine Outcome.sat_ite _ _ _ _ _ ?_ (Outcome.sat_ite _ _ _ _ _ ?_
          (Outcome.sat_ite _ _ _ _ _ ?_ (Outcome.sat_ite _ _ _ _ _ ?_ ?_)))
        · exact Outcome.sat_andThen _ _ _ _ _ (same_fetch h)
            (fun _ b1 h1 => alloc_leaf_unit h1 _ (Or.inr (Or.inl rfl)))
        · exact Outcome.sat_andThen _ _ _ _ _ (same_fetch h)
            (fun _ b1 h1 => alloc_leaf_unit h1 _ (Or.inr (Or.inr (Or.inr rfl))))
        · exact class_unit k h
        · exact group_unit k ihl h
        · exact char_unit h
      · intro ret b1 h1
        refine Outcome.sat_andThen _ _ (UnitPost b0) _ _ (quantifier_unit h1) ?_
        intro ret2 b2 h2
        apply Outcome.sat_ite
        · refine Outcome.sat_andThen _ _ _ _ _ (ihe b2 b2 (Same.of_self b2)) ?_
          intro next b3 h3
          exact chain_cons_post h2 h3
        · exact h2.chain
    · rw [regex_compile_list]
      by_cases h0 : regex_char_test b = 0
      · rw [if_pos h0]
        exact ⟨h.grows (Grows.refl _ _), Or.inl ⟨rfl, h.1⟩⟩
      · rw [if_neg h0]
        refine Outcome.sat_andThen _ _ _ _ _ (same_test_and_fetch h _) (fun begin b1 h1 => ?_)
        refine Outcome.sat_andThen _ _
          (fun ret b2 => (ret = -1 ∧ Same b0 b2) ∨ UnitPost b0 ret b2) _ _ ?_ ?_
        · cases begin with
          | true =>
            simp only [if_true]
            exact Or.inr (alloc_leaf_unit h1 _ (Or.inl rfl))
          | false =>
            simp only [Bool.false_eq_true, if_false]
            exact Or.inl ⟨rfl, h1⟩
        · intro ret b2 h2
          refine Outcome.sat_andThen _ _ _ _ _ (ihe b2 b2 (Same.of_self b2)) ?_
          intro element b3 h3
          rcases h2 with ⟨rfl, h2⟩ | h2
          · simp only [ne_eq, not_true_eq_false, if_false]
            exact list_tail k ihl (h3.same_left h2)
          · have hne : ret ≠ -1 := by
              obtain ⟨_, i, _, rfl, _⟩ := h2
              omega
            simp only [ne_eq, hne, not_false_eq_true, if_true]
            exact list_tail k ihl (chain_cons_post h2 h3)

/-! ## Well-formedness and termination from the layout -/

theorem IsRef.of_lt {N : List RegexNode} {x : Int} (a : Nat) (hx : x = (a : Int))
    (ha : a < N.length) : IsRef N x :=
  Or.inr ⟨by omega, by omega⟩

theorem NodeOk.of_leaf {N : List RegexNode} {n : RegexNode}
    (ht : n.type = REGEX_NODE_BEGIN ∨ n.type = REGEX_NODE_END ∨ n.type = REGEX_NODE_CHAR ∨
      n.type = REGEX_NODE_ANY ∨ n.type = REGEX_NODE_RANGE) : NodeOk N n := by
  rcases ht with ht | ht | ht | ht | ht <;> constructor <;> intro h <;> simp [ht] at h

theorem NodeOk.greedy {N : List RegexNode} {n : RegexNode} (a : Nat)
    (ht : n.type = REGEX_NODE_GREEDY) (hl : n.left = (a : Int)) (ha : a < N.length) :
    NodeOk N n :=
  ⟨fun _ => IsRef.of_lt a hl ha, fun h => by simp [ht] at h, fun _ => by omega,
    fun h => by simp [ht] at h⟩

theorem NodeOk.cls {N : List RegexNode} {n : RegexNode} (e : Nat)
    (ht : n.type = REGEX_NODE_CLASS ∨ n.type = REGEX_NODE_CLASS_INVERSE)
    (hl : n.left = (e : Int)) (he : e < N.length) (hc : ClassChain N (e : Int)) :
    NodeOk N n :=
  ⟨fun _ => IsRef.of_lt e hl he, fun h => by rcases ht with ht | ht <;> simp [ht] at h,
    fun _ => by omega, fun _ => by rw [hl]; exact hc⟩

theorem NodeOk.group {N : List RegexNode} {n : RegexNode}
    (ht : n.type = REGEX_NODE_EXPR ∨ n.type = REGEX_NODE_EXPR_NOCAPTURE)
    (hl : IsRef N n.left) : NodeOk N n :=
  ⟨fun _ => hl, fun h => by rcases ht with ht | ht <;> simp [ht] at h,
    fun h => by rcases ht with ht | ht <;> simp [ht] at h,
    fun h => by rcases ht with ht | ht <;> simp [ht] at h⟩

theorem NodeOk.or {N : List RegexNode} {n : RegexNode} (ht : n.type = REGEX_NODE_OR)
    (hl : IsRef N n.left) (hr : IsRef N n.right) : NodeOk N n :=
  ⟨fun _ => hl, fun _ => hr, fun h => by simp [ht] at h, fun h => by simp [ht] at h⟩

theorem Layout.wf {N : List RegexNode} {lo hi : Nat} {s : Shape} {i : Nat}
    (h : Layout N lo hi s i) :
    (∀ (j : Nat) (x : RegexNode), lo ≤ j → j < hi → N[j]? = some x → NodeOk N x) ∧
    (∀ (j : Nat) (x : RegexNode), lo ≤ j → j < hi → (s = Shape.node → j ≠ i) →
      N[j]? = some x → IsRef N x.next) ∧
    (s = Shape.entries → ClassChain N (i : Int)) := by
  induction h with
  | leaf i n hn ht =>
    refine ⟨fun j x h1 h2 hx => ?_, fun j x h1 h2 hne hx => ?_, fun hs => by cases hs⟩
    · obtain rfl : j = i := by omega
      obtain rfl := Option.some.inj (hn.symm.trans hx)
      rcases ht with ht | ht | ht | ht
      · exact NodeOk.of_leaf (Or.inl ht)
      · exact NodeOk.of_leaf (Or.inr (Or.inl ht))
      · exact NodeOk.of_leaf (Or.inr (Or.inr (Or.inl ht)))
      · exact NodeOk.of_leaf (Or.inr (Or.inr (Or.inr (Or.inl ht))))
    · exact absurd (by omega) (hne rfl)
  | greedy lo g a n m hn ht hl hc hm hnx ih =>
    have hb := hc.bounds
    have hg := (List.getElem?_eq_some_iff.mp hn).1
    refine ⟨fun j x h1 h2 hx => ?_, fun j x h1 h2 hne hx => ?_, fun hs => by cases hs⟩
    · by_cases hj : j = g
      · subst hj
        obtain rfl := Option.some.inj (hn.symm.trans hx)
        exact NodeOk.greedy a ht hl (by omega)
      · exact ih.1 j x h1 (by omega) hx
    · have hj : j ≠ g := hne rfl
      by_cases ha : j = a
      · subst ha
        obtain rfl := Option.some.inj (hm.symm.trans hx)
        exact Or.inl hnx
      · exact ih.2.1 j x h1 (by omega) (fun _ => ha) hx
  | cls c hi e n hn ht hl hc ih =>
    have hb := hc.bounds
    refine ⟨fun j x h1 h2 hx => ?_, fun j x h1 h2 hne hx => ?_, fun hs => by cases hs⟩
    · by_cases hj : j = c
      · subst hj
        obtain rfl := Option.some.inj (hn.symm.trans hx)
        exact NodeOk.cls e ht hl (by omega) (ih.2.2 rfl)
      · exact ih.1 j x (by omega) h2 hx
    · have hj : j ≠ c := hne rfl
      exact ih.2.1 j x (by omega) h2 (fun hs => by cases hs) hx
  | group_empty x n hn ht hl =>
    refine ⟨fun j y h1 h2 hy => ?_, fun j y h1 h2 hne hy => ?_, fun hs => by cases hs⟩
    · obtain rfl : j = x := by omega
      obtain rfl := Option.some.inj (hn.symm.trans hy)
      exact NodeOk.group ht (Or.inl hl)
    · exact absurd (by omega) (hne rfl)
  | group x hi l n hn ht hl hc ih =>
    have hb := hc.bounds
    refine ⟨fun j y h1 h2 hy => ?_, fun j y h1 h2 hne hy => ?_, fun hs => by cases hs⟩
    · by_cases hj : j = x
      · subst hj
        obtain rfl := Option.some.inj (hn.symm.trans hy)
        exact NodeOk.group ht (IsRef.of_lt l hl (by omega))
      · exact ih.1 j y (by omega) h2 hy
    · have hj : j ≠ x := hne rfl
      exact ih.2.1 j y (by omega) h2 (fun hs => by cases hs) hy
  | or_left lo o l n hn ht hl hr hc ih =>
    have hb := hc.bounds
    refine ⟨fun j y h1 h2 hy => ?_, fun j y h1 h2 hne hy => ?_, fun hs => by cases hs⟩
    · by_cases hj : j = o
      · subst hj
        obtain rfl := Option.some.inj (hn.symm.trans hy)
        exact NodeOk.or ht (IsRef.of_lt l hl (by omega)) (Or.inl hr)
      · exact ih.1 j y h1 (by omega) hy
    · have hj : j ≠ o := hne rfl
      exact ih.2.1 j y h1 (by omega) (fun hs => by cases hs) hy
  | or_both lo hi o l r n hn ht hl hr hc1 hc2 ih1 ih2 =>
    have hb1 := hc1.bounds
    have hb2 := hc2.bounds
    refine ⟨fun j y h1 h2 hy => ?_, fun j y h1 h2 hne hy => ?_, fun hs => by cases hs⟩
    · by_cases hj : j = o
      · subst hj
        obtain rfl := Option.some.inj (hn.symm.trans hy)
        exact NodeOk.or ht (IsRef.of_lt l hl (by omega)) (IsRef.of_lt r hr (by omega))
      · by_cases hlt : j < o
        · exact ih1.1 j y h1 hlt hy
        · exact ih2.1 j y (by omega) h2 hy
    · have hj : j ≠ o := hne rfl
      by_cases hlt : j < o
      · exact ih1.2.1 j y h1 hlt (fun hs => by cases hs) hy
      · exact ih2.2.1 j y (by omega) h2 (fun hs => by cases hs) hy
  | group_lost x hi l n hn ht hl hc ih =>
    have hb := hc.bounds
    refine ⟨fun j y h1 h2 hy => ?_, fun j y h1 h2 hne hy => ?_, fun hs => by cases hs⟩
    · by_cases hj : j = x
      · subst hj
        obtain rfl := Option.some.inj (hn.symm.trans hy)
        exact NodeOk.group ht (Or.inl hl)
      · exact ih.1 j y (by omega) h2 hy
    · have hj : j ≠ x := hne rfl
      exact ih.2.1 j y (by omega) h2 (fun hs => by cases hs) hy
  | or_lost lo hi o l r n hn ht hl hr hc1 hc2 ih1 ih2 =>
    have hb1 := hc1.bounds
    have hb2 := hc2.bounds
    refine ⟨fun j y h1 h2 hy => ?_, fun j y h1 h2 hne hy => ?_, fun hs => by cases hs⟩
    · by_cases hj : j = o
      · subst hj
        obtain rfl := Option.some.inj (hn.symm.trans hy)
        exact NodeOk.or ht (IsRef.of_lt l hl (by omega)) (Or.inl hr)
      · by_cases hlt : j < o
        · exact ih1.1 j y h1 hlt hy
        · exact ih2.1 j y (by omega) h2 hy
    · have hj : j ≠ o := hne rfl
      by_cases hlt : j < o
      · exact ih1.2.1 j y h1 hlt (fun hs => by cases hs) hy
      · exact ih2.2.1 j y (by omega) h2 (fun hs => by cases hs) hy
  | chain_last lo hi i n hc hn hnx ih =>
    refine ⟨ih.1, fun j y h1 h2 _ hy => ?_, fun hs => by cases hs⟩
    by_cases hj : j = i
    · subst hj
      obtain rfl := Option.some.inj (hn.symm.trans hy)
      exact Or.inl hnx
    · exact ih.2.1 j y h1 h2 (fun _ => hj) hy
  | chain_cons lo mid hi i j n hc1 hn hnx hc2 ih1 ih2 =>
    have hb1 := hc1.bounds
    have hb2 := hc2.bounds
    refine ⟨fun k y h1 h2 hy => ?_, fun k y h1 h2 _ hy => ?_, fun hs => by cases hs⟩
    · by_cases hlt : k < mid
      · exact ih1.1 k y h1 hlt hy
      · exact ih2.1 k y (by omega) h2 hy
    · by_cases hk : k = i
      · subst hk
        obtain rfl := Option.some.inj (hn.symm.trans hy)
        exact IsRef.of_lt j hnx (by omega)
      · by_cases hlt : k < mid
        · exact ih1.2.1 k y h1 hlt (fun _ => hk) hy
        · exact ih2.2.1 k y (by omega) h2 (fun hs => by cases hs) hy
  | entry_last i n hn ht hnx =>
    refine ⟨fun j x h1 h2 hx => ?_, fun j x h1 h2 _ hx => ?_, fun _ => ?_⟩
    · obtain rfl : j = i := by omega
      obtain rfl := Option.some.inj (hn.symm.trans hx)
      rcases ht with ht | ⟨ht, _⟩
      · exact NodeOk.of_leaf (Or.inr (Or.inr (Or.inl ht)))
      · exact NodeOk.of_leaf (Or.inr (Or.inr (Or.inr (Or.inr ht))))
    · obtain rfl : j = i := by omega
      obtain rfl := Option.some.inj (hn.symm.trans hx)
      exact Or.inl hnx
    · exact ClassChain.last _ n (by rw [NODE_nat]; exact hn) ht hnx
  | entry_cons lo i j n hn ht hnx hc ih =>
    have hb := hc.bounds
    have hi := (List.getElem?_eq_some_iff.mp hn).1
    refine ⟨fun k x h1 h2 hx => ?_, fun k x h1 h2 _ hx => ?_, fun _ => ?_⟩
    · by_cases hk : k = i
      · subst hk
        obtain rfl := Option.some.inj (hn.symm.trans hx)
        rcases ht with ht | ⟨ht, _⟩
        · exact NodeOk.of_leaf (Or.inr (Or.inr (Or.inl ht)))
        · exact NodeOk.of_leaf (Or.inr (Or.inr (Or.inr (Or.inr ht))))
      · exact ih.1 k x h1 (by omega) hx
    · by_cases hk : k = i
      · subst hk
        obtain rfl := Option.some.inj (hn.symm.trans hx)
        exact IsRef.of_lt j hnx (by omega)
      · exact ih.2.1 k x h1 (by omega) (fun hs => by cases hs) hx
    · refine ClassChain.cons _ n (by rw [NODE_nat]; exact hn) ht (by omega) ?_
      rw [hnx]
      exact ih.2.2 rfl

theorem root_close_landed {b1 b2 : RegexBuilder} {list : Int}
    (hn1 : b1.nodes = [RegexNode.mk REGEX_NODE_EXPR_NOCAPTURE (-1) (-1) (-1)])
    (hm1 : b1.matchCount = 0) (h2 : ListPost b1 list b2) :
    Layout (b2.update 0 fun n => { n with left := list }).nodes 0
        (b2.update 0 fun n => { n with left := list }).nodes.length Shape.node 0 ∧
      (b2.update 0 fun n => { n with left := list }).nodes[0]? =
        some (RegexNode.mk REGEX_NODE_EXPR_NOCAPTURE (-1) list (-1)) ∧
      (b2.update 0 fun n => { n with left := list }).matchCount =
        countExpr (b2.update 0 fun n => { n with left := list }).nodes := by
  obtain ⟨hg2, hlist⟩ := h2
  have hlen1 : b1.nodes.length = 1 := by rw [hn1]; rfl
  have h20 : b2.nodes[0]? = some (RegexNode.mk REGEX_NODE_EXPR_NOCAPTURE (-1) (-1) (-1)) := by
    rw [hg2.frame 0 (by omega), hn1]
    rfl
  have h0 : (b2.update ((0 : Nat) : Int) fun n => { n with left := list }).nodes[0]? =
      some (RegexNode.mk REGEX_NODE_EXPR_NOCAPTURE (-1) list (-1)) := by
    rw [update_getElem?_eq, h20]; rfl
  have hne : ∀ j : Nat, 1 ≤ j →
      (b2.update ((0 : Nat) : Int) fun n => { n with left := list }).nodes[j]? = b2.nodes[j]? :=
    fun j hj => update_getElem?_ne _ _ _ _ (by omega)
  refine ⟨?_, h0, ?_⟩
  · show Layout (b2.update ((0 : Nat) : Int) fun n => { n with left := list }).nodes 0
      (b2.update ((0 : Nat) : Int) fun n => { n with left := list }).nodes.length Shape.node 0
    rw [update_length]
    rcases hlist with ⟨rfl, hn2⟩ | ⟨l, rfl, hL⟩
    · have hlen2 : b2.nodes.length = 0 + 1 := by rw [hn2, hlen1]
      rw [hlen2]
      exact Layout.group_empty 0 _ h0 (Or.inr rfl) rfl
    · rw [hlen1] at hL
      exact Layout.group 0 _ l _ h0 (Or.inr rfl) rfl (hL.transfer (fun j h1 _ => hne j h1))
  · rw [update_matchCount,
      countExpr_update b2 0 (fun n => { n with left := list }) (fun _ _ => Iff.rfl)]
    have hc := hg2.count
    rw [hm1, hn1] at hc
    simpa [countExpr] using hc

theorem root_close_lost {b1 b2 : RegexBuilder} {list : Int}
    (hn1 : b1.nodes = [RegexNode.mk REGEX_NODE_EXPR_NOCAPTURE (-1) (-1) (-1)])
    (hm1 : b1.matchCount = 0) (h2 : ListPost b1 list b2) :
    Layout b2.nodes 0 b2.nodes.length Shape.node 0 ∧
      b2.nodes[0]? = some (RegexNode.mk REGEX_NODE_EXPR_NOCAPTURE (-1) (-1) (-1)) ∧
      b2.matchCount = countExpr b2.nodes := by
  obtain ⟨hg2, hlist⟩ := h2
  have hlen1 : b1.nodes.length = 1 := by rw [hn1]; rfl
  have h20 : b2.nodes[0]? = some (RegexNode.mk REGEX_NODE_EXPR_NOCAPTURE (-1) (-1) (-1)) := by
    rw [hg2.frame 0 (by omega), hn1]
    rfl
  refine ⟨?_, h20, ?_⟩
  · rcases hlist with ⟨_, hn2⟩ | ⟨l, _, hL⟩
    · have hlen2 : b2.nodes.length = 0 + 1 := by rw [hn2, hlen1]
      rw [hlen2]
      exact Layout.group_empty 0 _ h20 (Or.inr rfl) rfl
    · rw [hlen1] at hL
      exact Layout.group_lost 0 _ l _ h20 (Or.inr rfl) rfl hL
  · have hc := hg2.count
    rw [hm1, hn1] at hc
    simpa [countExpr] using hc

theorem compile_layout {env : StoreEnv} (fuel : Nat) (p : List Int) (regex : Regex)
    (h : regex_compile env fuel p = .ok regex) :
    Layout regex.nodes 0 regex.nodes.length Shape.node 0 ∧
      (∃ n, regex.nodes[0]? = some n ∧ n.type = REGEX_NODE_EXPR_NOCAPTURE ∧ n.next = -1) ∧
      regex.matchCount = countExpr regex.nodes := by
  rw [regex_compile_eq] at h
  have hl := (element_list_layout env fuel _ _ (Same.of_self
    (RegexBuilder.mk [RegexNode.mk REGEX_NODE_EXPR_NOCAPTURE (-1) (-1) (-1)] 0 p 0))).2
  cases hc : regex_compile_list env fuel
      (RegexBuilder.mk [RegexNode.mk REGEX_NODE_EXPR_NOCAPTURE (-1) (-1) (-1)] 0 p 0) with
  | timeout => rw [hc] at h; cases h
  | error e => rw [hc] at h; cases h
  | ok rb =>
    obtain ⟨list, b2⟩ := rb
    rw [hc] at h hl
    simp only [Outcome.ok.injEq] at h
    subst h
    rcases store_cases env 1 b2 0 (fun n => { n with left := list }) with hs | hs
    · rw [hs]
      obtain ⟨hL, h0, hcount⟩ := root_close_landed rfl rfl hl
      exact ⟨hL, ⟨_, h0, rfl, rfl⟩, hcount⟩
    · rw [hs]
      obtain ⟨hL, h0, hcount⟩ := root_close_lost rfl rfl hl
      exact ⟨hL, ⟨_, h0, rfl, rfl⟩, hcount⟩

/-! ## C14, C15, C16: the compiled program -/

/-- C14. On every pattern on which `regex_compile` succeeds, the capture-group
count of the program is the number of its nodes of type `REGEX_NODE_EXPR`; the
root, node 0, is a `REGEX_NODE_EXPR_NOCAPTURE` and is not counted. -/
theorem match_count_counts_capturing_groups (env : StoreEnv) (fuel : Nat) (p : List Int)
    (regex : Regex)
    (h : regex_compile env fuel p = .ok regex) :
    regex.matchCount = countExpr regex.nodes ∧
      ∃ root, regex.nodes[0]? = some root ∧ root.type = REGEX_NODE_EXPR_NOCAPTURE := by
  obtain ⟨_, ⟨n, hn, ht, _⟩, hcount⟩ := compile_layout fuel p regex h
  exact ⟨hcount, n, hn, ht⟩

/-- A witness of C14: "(a)(?:b)(c)" compiles to a program with count 2, whose
nodes are the root, two capturing groups and one non-capturing group, each
group followed by its character. -/
theorem match_count_counts_capturing_groups_witness :
    ∃ regex, regex_compile (fun _ => false) 20 [40, 97, 41, 40, 63, 58, 98, 41, 40, 99, 41] = .ok regex ∧
      regex.matchCount = 2 ∧
      regex.nodes.map RegexNode.type =
        [REGEX_NODE_EXPR_NOCAPTURE, REGEX_NODE_EXPR, REGEX_NODE_CHAR, REGEX_NODE_EXPR_NOCAPTURE,
          REGEX_NODE_CHAR, REGEX_NODE_EXPR, REGEX_NODE_CHAR] ∧
      (regex.matchCount = countExpr regex.nodes ∧
        ∃ root, regex.nodes[0]? = some root ∧ root.type = REGEX_NODE_EXPR_NOCAPTURE) :=
  ⟨_, rfl, rfl, rfl,
    match_count_counts_capturing_groups (fun _ => false) 20 [40, 97, 41, 40, 63, 58, 98, 41, 40, 99, 41] _ rfl⟩

/-- C15. Every compiled program is well-formed: node 0 is the root, a
`REGEX_NODE_EXPR_NOCAPTURE` with `next = -1`; every `next` is `-1` or an index
of the array; the `left` of every group, alternation, greedy and class node
and the `right` of every alternation node is `-1` or an index of the array,
the `left` of a greedy or class node is not `-1`; and the `next` chain from the
`left` of a class node is not empty and consists of `REGEX_NODE_CHAR` nodes and
of `REGEX_NODE_RANGE` nodes with `left ≤ right`. -/
theorem compiled_program_is_well_formed (env : StoreEnv) (fuel : Nat) (p : List Int)
    (regex : Regex)
    (h : regex_compile env fuel p = .ok regex) : WellFormed regex := by
  obtain ⟨hL, ⟨n, hn, ht, hnx⟩, _⟩ := compile_layout fuel p regex h
  obtain ⟨hkids, hnext, _⟩ := hL.wf
  refine ⟨⟨n, hn, ht, hnx⟩, fun i x hx => ?_, fun i x hx => ?_⟩
  · have hi := (List.getElem?_eq_some_iff.mp hx).1
    by_cases h0 : i = 0
    · subst h0
      obtain rfl := Option.some.inj (hn.symm.trans hx)
      exact Or.inl hnx
    · exact hnext i x (by omega) hi (fun _ => h0) hx
  · have hi := (List.getElem?_eq_some_iff.mp hx).1
    exact hkids i x (by omega) hi hx

/-- A witness of C15: the program of "[a-c]+(x|y)?" is well-formed. -/
theorem compiled_program_is_well_formed_witness :
    ∃ regex, regex_compile (fun _ => false) 20 [91, 97, 45, 99, 93, 43, 40, 120, 124, 121, 41, 63] = .ok regex ∧
      WellFormed regex :=
  ⟨_, rfl,
    compiled_program_is_well_formed (fun _ => false) 20 [91, 97, 45, 99, 93, 43, 40, 120, 124, 121, 41, 63] _ rfl⟩

/-- C16. Matching terminates on compiled programs: the nodes of a compiled
program are laid out so that every reference goes to the head of a strictly
smaller region, and there is a fuel bound, the same for every text and every
cursor, from which `regex_match_node` started at node 0 gives one definite
answer (a cursor, no match, or a fault of the text). -/
theorem matching_terminates_on_compiled_programs (env : StoreEnv) (fuel : Nat) (p : List Int)
    (regex : Regex)
    (h : regex_compile env fuel p = .ok regex) :
    Layout regex.nodes 0 regex.nodes.length Shape.node 0 ∧
      ∃ n, ∀ (text : List Int) (bol eol str : Nat) (nx : Int), ∃ r, r ≠ Outcome.timeout ∧
        ∀ f, n ≤ f → regex_match_node regex text bol eol f 0 str nx = r := by
  have hL := (compile_layout fuel p regex h).1
  obtain ⟨n, hn⟩ := hL.terminates
  refine ⟨hL, n, fun text bol eol str nx =>
    ⟨_, hn n (le_refl _) text bol eol str nx, fun f hf => ?_⟩⟩
  rcases regex_match_node_mono regex text bol eol n f 0 str nx hf with h' | h'
  · exact absurd h' (hn n (le_refl _) text bol eol str nx)
  · exact h'.symm

/-- A witness of C16: matching terminates on the program of "(a|b)*c". -/
theorem matching_terminates_on_compiled_programs_witness :
    ∃ regex, regex_compile (fun _ => false) 20 [40, 97, 124, 98, 41, 42, 99] = .ok regex ∧
      (Layout regex.nodes 0 regex.nodes.length Shape.node 0 ∧
        ∃ n, ∀ (text : List Int) (bol eol str : Nat) (nx : Int), ∃ r, r ≠ Outcome.timeout ∧
          ∀ f, n ≤ f → regex_match_node regex text bol eol f 0 str nx = r) :=
  ⟨_, rfl, matching_terminates_on_compiled_programs (fun _ => false) 20 [40, 97, 124, 98, 41, 42, 99] _ rfl⟩

end Libregex
